import Mathlib

/-!
gokrb5.v5: replay cache, KDC transport policy and ticket codec.

A shallow embedding of parts of the Go packages `service`, `client` and
`messages`, with the properties proved about them.

Conventions of the embedding:
* a Go `[]byte` and a Go `string` are lists of bytes;
* a Go `map` is an association list read through its first binding for a key
  (iteration order is not observable in Go either);
* `time.Time` is an instant, counted in nanoseconds; `time.Now()` is an
  explicit argument of every operation that reads the clock;
* the mutex of the cache is not modelled: operations are taken one at a time;
* what a collaborator outside the sources does (network, keytab, crypto, the
  ASN.1 package) is a parameter or is modelled in a section of its own.
-/

namespace Gokrb5

/-! ## Basic types -/

abbrev Byte := Fin 256

abbrev Bytes := List Byte

/-- Go string literal with ASCII text, as its bytes. -/
def ascii (s : String) : Bytes :=
  s.toList.map (fun ch => Fin.ofNat ch.toNat)

/-- Instant of a `time.Time`, in nanoseconds. -/
abbrev Time := Int

/-- Go `time.Duration`: a signed 64-bit count of nanoseconds. -/
abbrev Duration := Int

/-- Two's complement wrap-around of a signed 64-bit integer. -/
def wrapInt64 (x : Int) : Int :=
  (x + 2 ^ 63) % 2 ^ 64 - 2 ^ 63

/-- Go `time.Microsecond`. -/
def Microsecond : Duration := 1000

/-- Go `Time.Add`. -/
def Time.Add (t : Time) (d : Duration) : Time :=
  t + d

/-- Go `Time.Sub`, for instants whose difference fits a `Duration`. -/
def Time.Sub (t u : Time) : Duration :=
  t - u

/-! ## Go maps -/

/-- Go map, as an association list; the first binding of a key is its value. -/
abbrev GoMap (K V : Type) := List (K × V)

/-- Go `v, ok := m[k]`. -/
def GoMap.get {K V : Type} [DecidableEq K] : GoMap K V → K → Option V
  | [], _ => none
  | kv :: m, k => if kv.1 = k then some kv.2 else GoMap.get m k

/-- Go `delete(m, k)`. -/
def GoMap.delete {K V : Type} [DecidableEq K] : GoMap K V → K → GoMap K V
  | [], _ => []
  | kv :: m, k => if kv.1 = k then GoMap.delete m k else kv :: GoMap.delete m k

/-- Go `m[k] = v`. -/
def GoMap.set {K V : Type} [DecidableEq K] (m : GoMap K V) (k : K) (v : V) : GoMap K V :=
  (k, v) :: GoMap.delete m k

/-! ## Package `types` (the parts the sources here read) -/

/-- Modelled from the spec: the type `types.PrincipalName` (package `types` is
not among the sources). "`{name-type: int32, name-string: sequence of
general-string}`." -/
structure PrincipalName where
  NameType : Int
  NameString : List Bytes
deriving DecidableEq, Repr

/-- Modelled from the spec: `types.PrincipalName.Equal` (package `types` is not
among the sources). "Equality is component-wise on `name-string` (type is
advisory)." -/
def PrincipalName.Equal (pn n : PrincipalName) : Bool :=
  decide (pn.NameString = n.NameString)

/-- Go `types.EncryptionKey` (its declaration is not among the sources): a key
type and the key bytes. -/
structure EncryptionKey where
  KeyType : Int
  KeyValue : Bytes
deriving DecidableEq, Repr

/-- Go `types.Authenticator` (its declaration is not among the sources): the
fields that cache.go reads. -/
structure Authenticator where
  CName : PrincipalName
  Cusec : Int
  CTime : Time
  SubKey : EncryptionKey
  SeqNumber : Int
deriving DecidableEq, Repr

/-! ## Package `service`: the replay cache (cache.go) -/

/-- Go `replayCacheEntry`. -/
structure replayCacheEntry where
  PresentedTime : Time
  SName : PrincipalName
  CTime : Time
deriving DecidableEq, Repr

/-- Go `clientEntries`. -/
structure clientEntries where
  ReplayMap : GoMap Time replayCacheEntry
  SeqNumber : Int
  SubKey : EncryptionKey
deriving DecidableEq, Repr

/-- Go `Cache` (without its mutex). The maps are initialised ones, as
`GetReplayCache` and `AddEntry` make them. -/
structure Cache where
  Entries : GoMap Bytes clientEntries
deriving DecidableEq, Repr

/-- State of the cache right after `GetReplayCache` created it. -/
def Cache.empty : Cache :=
  { Entries := [] }

/-- Combined client time `a.CTime.Add(time.Duration(a.Cusec) * time.Microsecond)`. -/
def clientTime (a : Authenticator) : Time :=
  Time.Add a.CTime (wrapInt64 (a.Cusec * Microsecond))

section ReplayCache

/- `types.PrincipalName.GetPrincipalNameString` is not among the sources: the
cache takes the function that names a principal as a parameter. -/
variable (GetPrincipalNameString : PrincipalName → Bytes)

/-- Go `Cache.getClientEntries`: the pair `(ce, ok)` as an option. -/
def Cache.getClientEntries (c : Cache) (cname : PrincipalName) : Option clientEntries :=
  GoMap.get c.Entries (GetPrincipalNameString cname)

/-- Go `Cache.getClientEntry`: the pair `(e, ok)` as an option. -/
def Cache.getClientEntry (c : Cache) (cname : PrincipalName) (t : Time) :
    Option replayCacheEntry :=
  match Cache.getClientEntries GetPrincipalNameString c cname with
  | some ce => GoMap.get ce.ReplayMap t
  | none => none

/-- Go `Cache.AddEntry`, at clock reading `now`. In the branch for a known
client `ce` is a copy of the record: the write to `ce.ReplayMap[ct]` goes
through the shared map, the assignments to `ce.SeqNumber` and `ce.SubKey`
change the copy only. -/
def Cache.AddEntry (c : Cache) (now : Time) (sname : PrincipalName) (a : Authenticator) :
    Cache :=
  let ct := clientTime a
  let e : replayCacheEntry := ⟨now, sname, ct⟩
  match Cache.getClientEntries GetPrincipalNameString c a.CName with
  | some ce =>
    ⟨GoMap.set c.Entries (GetPrincipalNameString a.CName)
      ⟨GoMap.set ce.ReplayMap ct e, ce.SeqNumber, ce.SubKey⟩⟩
  | none =>
    ⟨GoMap.set c.Entries (GetPrincipalNameString a.CName)
      ⟨[(ct, e)], a.SeqNumber, a.SubKey⟩⟩

/-- Go `Cache.IsReplay`, at clock reading `now`: the returned flag and the
cache afterwards. -/
def Cache.IsReplay (c : Cache) (now : Time) (sname : PrincipalName) (a : Authenticator) :
    Bool × Cache :=
  let ct := clientTime a
  match Cache.getClientEntry GetPrincipalNameString c a.CName ct with
  | some e =>
    if e.SName.Equal sname then (true, c)
    else (false, Cache.AddEntry GetPrincipalNameString c now sname a)
  | none => (false, Cache.AddEntry GetPrincipalNameString c now sname a)

/-- One call on the cache by a client of the package. -/
inductive CacheCall where
  | isReplay (now : Time) (sname : PrincipalName) (a : Authenticator)
  | addEntry (now : Time) (sname : PrincipalName) (a : Authenticator)
deriving DecidableEq, Repr

/-- Cache after one call. -/
def CacheCall.run (c : Cache) : CacheCall → Cache
  | .isReplay now sname a => (Cache.IsReplay GetPrincipalNameString c now sname a).2
  | .addEntry now sname a => Cache.AddEntry GetPrincipalNameString c now sname a

/-- Cache after a sequence of calls, first call first. -/
def runCalls (c : Cache) (calls : List CacheCall) : Cache :=
  calls.foldl (CacheCall.run GetPrincipalNameString) c

/-- The call presents the same client record key and the same combined client
time as `a`, under a service name that is not `sname`. -/
def CacheCall.clashes (sname : PrincipalName) (a : Authenticator) : CacheCall → Prop
  | .isReplay _ sname' a' | .addEntry _ sname' a' =>
    GetPrincipalNameString a'.CName = GetPrincipalNameString a.CName ∧
    clientTime a' = clientTime a ∧ sname'.NameString ≠ sname.NameString

end ReplayCache

/-! ## Package `client`: KDC transport (network.go) -/

/-- Modelled from the spec: the type `messages.KRBError` (its declaration is not
among the sources). "A KRB-ERROR is an out-of-band failure carrying the on-wire
error code, the server principal, and the realm." -/
structure KRBError where
  ErrorCode : Int
  Realm : Bytes
  SName : PrincipalName
deriving DecidableEq, Repr

/-- Modelled from the spec: the constant `errorcode.KRB_ERR_RESPONSE_TOO_BIG`
(package `iana/errorcode` is not among the sources), with its RFC 4120 value. -/
def KRB_ERR_RESPONSE_TOO_BIG : Int := 52

/-- Modelled from the spec: the constant `errorcode.KDC_ERR_C_PRINCIPAL_UNKNOWN`
(package `iana/errorcode` is not among the sources), with its RFC 4120 value. -/
def KDC_ERR_C_PRINCIPAL_UNKNOWN : Int := 6

/-- Go `error` values of network.go. `errorf0`, `errorf1` and `errorf2` are
`fmt.Errorf` (or `errors.New`) with the format, its string arguments and its
zero, one or two error arguments. -/
inductive GoError where
  | krb (e : KRBError)
  | other (msg : String)
  | errorf0 (format : String) (strs : List Bytes)
  | errorf1 (format : String) (strs : List Bytes) (err : GoError)
  | errorf2 (format : String) (err1 err2 : GoError)
deriving DecidableEq, Repr

/-- Transport of one attempt. -/
inductive Proto where
  | udp
  | tcp
deriving DecidableEq, Repr

/-- An open connection, known by `conn.RemoteAddr().String()`. -/
structure Conn where
  RemoteAddr : Bytes
deriving DecidableEq, Repr

/-- What the collaborators of network.go do during one `SendToKDC`: the
configuration lookup, the `net` package and the KRB-ERROR decoder. Their
failures are plain errors, given by their message. -/
structure KDCNet where
  /-- Go `cl.Config.GetKDCs(realm, tcp)`: on success `count` and the map `kdcs`. -/
  GetKDCs : Bool → Except String (Int × GoMap Int Bytes)
  /-- Go `net.ResolveUDPAddr("udp", address)`. -/
  ResolveUDPAddr : Bytes → Except String Bytes
  /-- Go `net.DialUDP("udp", nil, udpAddr)`. -/
  DialUDP : Bytes → Except String Conn
  /-- Go `net.ResolveTCPAddr("tcp", address)`. -/
  ResolveTCPAddr : Bytes → Except String Bytes
  /-- Go `net.DialTCP("tcp", nil, tcpAddr)`. -/
  DialTCP : Bytes → Except String Conn
  /-- Go `conn.Write(b)` on a UDP connection: the error, if any. -/
  udpWrite : Conn → Bytes → Option String
  /-- Go `conn.ReadFrom(udpbuf)`: the datagram that arrives and the error, if any. -/
  udpReadFrom : Conn → Bytes × Option String
  /-- Go `conn.Write(b)` on a TCP connection: the error, if any. -/
  tcpWrite : Conn → Bytes → Option String
  /-- Go `conn.Read(sh)`: the four bytes of `sh` afterwards and the error, if any. -/
  tcpRead : Conn → Bytes × Option String
  /-- Go `io.ReadFull(conn, rb)` for `rb` of the given size: `rb` afterwards and the error, if any. -/
  tcpReadFull : Conn → Nat → Bytes × Option String
  /-- Go `KRBErr.Unmarshal(b)`: the KRB-ERROR when it returns no error. -/
  UnmarshalKRBError : Bytes → Option KRBError

/-- Go map index `kdcs[i]`: the zero value `""` for a missing key. -/
def kdcAt (kdcs : GoMap Int Bytes) (i : Int) : Bytes :=
  (GoMap.get kdcs i).getD []

/-- Loop of `dialKDCUDP` with `n` indices left, the next one being `i`. -/
def dialKDCUDP.loop (net : KDCNet) (kdcs : GoMap Int Bytes) : Nat → Int → Except GoError Conn
  | 0, _ => .error (.errorf0 "error in getting a UDP connection to any of the KDCs" [])
  | n + 1, i =>
    match net.ResolveUDPAddr (kdcAt kdcs i) with
    | .error e => .error (.errorf1 "error resolving KDC address: %v" [] (.other e))
    | .ok udpAddr =>
      match net.DialUDP udpAddr with
      | .ok conn => .ok conn
      | .error _ => dialKDCUDP.loop net kdcs n (i + 1)

/-- Go `dialKDCUDP`: `i` runs from 1 while `i <= count`. -/
def dialKDCUDP (net : KDCNet) (count : Int) (kdcs : GoMap Int Bytes) : Except GoError Conn :=
  dialKDCUDP.loop net kdcs count.toNat 1

/-- Loop of `dialKDCTCP` with `n` indices left, the next one being `i`. -/
def dialKDCTCP.loop (net : KDCNet) (kdcs : GoMap Int Bytes) : Nat → Int → Except GoError Conn
  | 0, _ => .error (.errorf0 "error in getting a TCP connection to any of the KDCs" [])
  | n + 1, i =>
    match net.ResolveTCPAddr (kdcAt kdcs i) with
    | .error e => .error (.errorf1 "error resolving KDC address: %v" [] (.other e))
    | .ok tcpAddr =>
      match net.DialTCP tcpAddr with
      | .ok conn => .ok conn
      | .error _ => dialKDCTCP.loop net kdcs n (i + 1)

/-- Go `dialKDCTCP`: `i` runs from 1 while `i <= count`. -/
def dialKDCTCP (net : KDCNet) (count : Int) (kdcs : GoMap Int Bytes) : Except GoError Conn :=
  dialKDCTCP.loop net kdcs count.toNat 1

/-- Go `checkForKRBError`. -/
def checkForKRBError (net : KDCNet) (b : Bytes) : Bytes × Option GoError :=
  match net.UnmarshalKRBError b with
  | some KRBErr => (b, some (.krb KRBErr))
  | none => (b, none)

/-- Go `sendUDP`: one datagram out, one datagram in through a 4096-byte buffer. -/
def sendUDP (net : KDCNet) (conn : Conn) (b : Bytes) : Bytes × Option GoError :=
  match net.udpWrite conn b with
  | some err => ([], some (.errorf1 "error sending to (%s): %v" [conn.RemoteAddr] (.other err)))
  | none =>
    let r := (net.udpReadFrom conn).1.take 4096
    match (net.udpReadFrom conn).2 with
    | some err =>
      (r, some (.errorf1 "sending over UDP failed to %s: %v" [conn.RemoteAddr] (.other err)))
    | none =>
      if r.length < 1 then (r, some (.errorf0 "no response data from %s" [conn.RemoteAddr]))
      else (r, none)

/-- Go `binary.BigEndian` encoding of a `uint32`. -/
def putUint32BE (n : Nat) : Bytes :=
  [Fin.ofNat (n / 2 ^ 24), Fin.ofNat (n / 2 ^ 16), Fin.ofNat (n / 2 ^ 8), Fin.ofNat n]

/-- Go `binary.BigEndian.Uint32` of a four-byte buffer. -/
def uint32BE (sh : Bytes) : Nat :=
  (sh.getD 0 0).val * 2 ^ 24 + (sh.getD 1 0).val * 2 ^ 16 + (sh.getD 2 0).val * 2 ^ 8
    + (sh.getD 3 0).val

/-- Go `sendTCP`: the request behind its 32-bit big-endian length, then the
length header of the response and that many bytes. -/
def sendTCP (net : KDCNet) (conn : Conn) (b : Bytes) : Bytes × Option GoError :=
  match net.tcpWrite conn (putUint32BE (b.length % 2 ^ 32) ++ b) with
  | some err =>
    ([], some (.errorf1 "error sending to KDC (%s): %v" [conn.RemoteAddr] (.other err)))
  | none =>
    match (net.tcpRead conn).2 with
    | some err => ([], some (.errorf1 "error reading response size header: %v" [] (.other err)))
    | none =>
      let s := uint32BE (net.tcpRead conn).1
      let rb := (net.tcpReadFull conn s).1
      match (net.tcpReadFull conn s).2 with
      | some err => ([], some (.errorf1 "error reading response: %v" [] (.other err)))
      | none =>
        if rb.length < 1 then
          ([], some (.errorf0 "no response data from KDC %s" [conn.RemoteAddr]))
        else (rb, none)

/-- Go `sendKDCUDP`. -/
def sendKDCUDP (net : KDCNet) (b : Bytes) : Bytes × Option GoError :=
  match net.GetKDCs false with
  | .error err => ([], some (.other err))
  | .ok (count, kdcs) =>
    match dialKDCUDP net count kdcs with
    | .error err => ([], some err)
    | .ok conn =>
      match sendUDP net conn b with
      | (r, some err) => (r, some err)
      | (r, none) => checkForKRBError net r

/-- Go `sendKDCTCP`. Every failing return hands back `r`, which is still nil. -/
def sendKDCTCP (net : KDCNet) (b : Bytes) : Bytes × Option GoError :=
  match net.GetKDCs true with
  | .error err => ([], some (.other err))
  | .ok (count, kdcs) =>
    match dialKDCTCP net count kdcs with
    | .error err => ([], some err)
    | .ok conn =>
      match sendTCP net conn b with
      | (_, some err) => ([], some err)
      | (rb, none) => checkForKRBError net rb

/-- Outcome of `SendToKDC`: the two values it returns, and the transports on
which it made an attempt, in order. -/
structure SendResult where
  rb : Bytes
  err : Option GoError
  attempts : List Proto
deriving DecidableEq, Repr

/-- Second attempt of the UDP-first branch of `SendToKDC` (lines 39-48), after
a UDP attempt that ended with `errudp`. -/
def SendToKDC.tryTCP (net : KDCNet) (b : Bytes) (errudp : GoError) : SendResult :=
  match sendKDCTCP net b with
  | (r, some (.krb e)) => ⟨r, some (.krb e), [.udp, .tcp]⟩
  | (r, some errtcp) =>
    ⟨r, some (.errorf2
      "failed to communicate with KDC. Attempts made with UDP (%v) and then TCP (%v)"
      errudp errtcp), [.udp, .tcp]⟩
  | (r, none) => ⟨r, none, [.udp, .tcp]⟩

/-- Go `Client.SendToKDC` for `cl.Config.LibDefaults.UDPPreferenceLimit` and
request `b`. In the TCP-first branch the `rb` of the UDP attempt is declared
inside the `if errtcp != nil` block: when that attempt succeeds, the `rb`
returned at the end of the function is the one of the TCP attempt. -/
def SendToKDC (net : KDCNet) (UDPPreferenceLimit : Int) (b : Bytes) : SendResult :=
  if UDPPreferenceLimit = 1 then
    match sendKDCTCP net b with
    | (rb, some (.krb e)) => ⟨rb, some (.krb e), [.tcp]⟩
    | (rb, some errtcp) =>
      ⟨rb, some (.errorf1 "communication error with KDC via TCP: %v" [] errtcp), [.tcp]⟩
    | (rb, none) => ⟨rb, none, [.tcp]⟩
  else if (b.length : Int) ≤ UDPPreferenceLimit then
    match sendKDCUDP net b with
    | (rb, some (.krb e)) =>
      if e.ErrorCode ≠ KRB_ERR_RESPONSE_TOO_BIG then ⟨rb, some (.krb e), [.udp]⟩
      else SendToKDC.tryTCP net b (.krb e)
    | (_, some errudp) => SendToKDC.tryTCP net b errudp
    | (rb, none) => ⟨rb, none, [.udp]⟩
  else
    match sendKDCTCP net b with
    | (rb, some (.krb e)) => ⟨rb, some (.krb e), [.tcp]⟩
    | (rb, some errtcp) =>
      match sendKDCUDP net b with
      | (rb', some (.krb e)) => ⟨rb', some (.krb e), [.tcp, .udp]⟩
      | (rb', some errudp) =>
        ⟨rb', some (.errorf2
          "failed to communicate with KDC. Attempts made with TCP (%v) and then UDP (%v)"
          errtcp errudp), [.tcp, .udp]⟩
      | (_, none) => ⟨rb, none, [.tcp, .udp]⟩
    | (rb, none) => ⟨rb, none, [.tcp]⟩

/-- Primary transport of the policy table of the spec (§4.6): TCP when the
limit is 1, else UDP for a request of at most `U` bytes, else TCP. -/
def primaryTransport (UDPPreferenceLimit : Int) (b : Bytes) : Proto :=
  if UDPPreferenceLimit = 1 then .tcp
  else if (b.length : Int) ≤ UDPPreferenceLimit then .udp
  else .tcp

/-- One attempt on a transport: `sendKDCUDP` or `sendKDCTCP`. -/
def sendKDC (net : KDCNet) : Proto → Bytes → Bytes × Option GoError
  | .udp, b => sendKDCUDP net b
  | .tcp, b => sendKDCTCP net b

/-- The entry for `(a.CName, ctime + cusec)` is present and carries a service
name with the name-string of `sname`. -/
def Cache.records (key : PrincipalName → Bytes) (c : Cache) (sname : PrincipalName)
    (a : Authenticator) : Prop :=
  ∃ e, Cache.getClientEntry key c a.CName (clientTime a) = some e ∧
    e.SName.NameString = sname.NameString

/-! ## ASN.1 DER, as package `asn1` writes and reads it

The code imports `github.com/jcmturner/gofork/encoding/asn1`, a fork of Go's
`encoding/asn1`, which is not among the sources. The spec fixes the wire
format ("DER per ASN.1 schemas above, with application-explicit tag 1 and 3");
this section gives the DER rules by which the package writes and reads the
elements a ticket is made of: identifier and length octets, INTEGER,
GeneralString, OCTET STRING, SEQUENCE and explicit tags. -/

/-- Low eight bits of an integer, Go `byte(x)`. -/
def byteOfInt (x : Int) : Byte :=
  Fin.ofNat (x % 256).toNat

/-- Modelled from the spec: loop of Go `lengthLength`: the number of base-256
digits of `i`. -/
def lengthLength.loop : Nat → Nat → Nat
  | 0, _ => 0
  | fuel + 1, i => if i > 0 then 1 + lengthLength.loop fuel (i / 256) else 0

/-- Modelled from the spec: Go `lengthLength` of package `asn1`, for a length
below `2 ^ 64`. -/
def lengthLength (i : Nat) : Nat :=
  lengthLength.loop 8 i

/-- Modelled from the spec: Go `marshalLength`: the `n` low base-256 digits of
`i`, most significant first. -/
def marshalLength : Nat → Nat → Bytes
  | 0, _ => []
  | n + 1, i => Fin.ofNat (i / 256 ^ n) :: marshalLength n i

/-- Modelled from the spec: Go `marshalTagAndLength` of package `asn1` for a tag
number below 31: the identifier octet and the DER length octets. -/
def marshalTagAndLength (cls : Nat) (isCompound : Bool) (tag : Nat) (length : Nat) : Bytes :=
  Fin.ofNat (cls * 64 + (if isCompound then 32 else 0) + tag) ::
    (if length ≥ 128 then
      Fin.ofNat (128 + lengthLength length) :: marshalLength (lengthLength length) length
    else [Fin.ofNat length])

/-- One DER element: identifier, length, contents. -/
def der (cls : Nat) (isCompound : Bool) (tag : Nat) (body : Bytes) : Bytes :=
  marshalTagAndLength cls isCompound tag body.length ++ body

/-- An element under an explicit context-specific tag. -/
def derExplicit (tag : Nat) (inner : Bytes) : Bytes :=
  der 2 true tag inner

/-- Modelled from the spec: loop of Go `int64Length`: the number of octets of
the shortest two's complement form of `i`. -/
def int64Length.loop : Nat → Int → Nat
  | 0, _ => 1
  | fuel + 1, i => if i > 127 ∨ i < -128 then 1 + int64Length.loop fuel (i / 256) else 1

/-- Modelled from the spec: Go `int64Length` of package `asn1`, for a signed
64-bit `i`. -/
def int64Length (i : Int) : Nat :=
  int64Length.loop 7 i

/-- The `n` low octets of the two's complement form of `i`, most significant first. -/
def int64Bytes : Nat → Int → Bytes
  | 0, _ => []
  | n + 1, i => byteOfInt (i / 256 ^ n) :: int64Bytes n i

/-- Modelled from the spec: Go `marshalInt64` of package `asn1`: contents of a
DER INTEGER. -/
def marshalInt64 (i : Int) : Bytes :=
  int64Bytes (int64Length i) i

/-- DER INTEGER. -/
def derInteger (i : Int) : Bytes :=
  der 0 false 2 (marshalInt64 i)

/-- DER GeneralString (universal tag 27): the bytes of the Go string. -/
def derGeneralString (s : Bytes) : Bytes :=
  der 0 false 27 s

/-- DER OCTET STRING. -/
def derOctetString (b : Bytes) : Bytes :=
  der 0 false 4 b

/-- DER SEQUENCE. -/
def derSequence (body : Bytes) : Bytes :=
  der 0 true 16 body

/-- Modelled from the spec: Go `asn1.tagAndLength`. -/
structure tagAndLength where
  cls : Nat
  tag : Nat
  length : Nat
  isCompound : Bool
deriving DecidableEq, Repr

/-- Result of a decoding step: a value and the bytes left, or an error message. -/
abbrev Parse (α : Type) := Except String (α × Bytes)

/-- Modelled from the spec: length loop of Go `parseTagAndLength`: `numBytes`
length octets, with the checks "length too large" and "superfluous leading zeros
in length". -/
def parseLengthOctets : Nat → Nat → Bytes → Parse Nat
  | 0, acc, bytes => .ok (acc, bytes)
  | _ + 1, _, [] => .error "truncated tag or length"
  | n + 1, acc, b :: bytes =>
    if acc ≥ 2 ^ 23 then .error "length too large"
    else if acc * 256 + b.val = 0 then .error "superfluous leading zeros in length"
    else parseLengthOctets n (acc * 256 + b.val) bytes

/-- Modelled from the spec: Go `parseTagAndLength` of package `asn1`, for
identifier octets whose tag number is below 31 (the long form of a tag number is
rejected here). -/
def parseTagAndLength : Bytes → Parse tagAndLength
  | [] => .error "internal error in parseTagAndLength"
  | b :: rest =>
    if b.val % 32 = 31 then .error "tag number in long form"
    else
      match rest with
      | [] => .error "truncated tag or length"
      | l :: rest =>
        if l.val < 128 then
          .ok (⟨b.val / 64, b.val % 32, l.val, decide (b.val / 32 % 2 = 1)⟩, rest)
        else if l.val % 128 = 0 then .error "indefinite length found (not DER)"
        else
          match parseLengthOctets (l.val % 128) 0 rest with
          | .error e => .error e
          | .ok (length, rest) =>
            if length < 128 then .error "non-minimal length"
            else .ok (⟨b.val / 64, b.val % 32, length, decide (b.val / 32 % 2 = 1)⟩, rest)

/-- Unsigned big-endian value of a list of octets. -/
def bytesToNat : Bytes → Nat
  | [] => 0
  | b :: bytes => b.val * 256 ^ bytes.length + bytesToNat bytes

/-- Modelled from the spec: Go `checkInteger` of package `asn1`: `none` when the
contents are a minimally encoded INTEGER. -/
def checkInteger : Bytes → Option String
  | [] => some "empty integer"
  | [_] => none
  | b0 :: b1 :: _ =>
    if (b0.val = 0 ∧ b1.val < 128) ∨ (b0.val = 255 ∧ b1.val ≥ 128) then
      some "integer not minimally-encoded"
    else none

/-- Modelled from the spec: Go `parseInt64` of package `asn1`: the sign-extended
value of at most eight octets. -/
def parseInt64 (bytes : Bytes) : Except String Int :=
  match checkInteger bytes with
  | some e => .error e
  | none =>
    if bytes.length > 8 then .error "integer too large"
    else if bytesToNat bytes ≥ 256 ^ bytes.length / 2 then
      .ok ((bytesToNat bytes : Int) - 256 ^ bytes.length)
    else .ok (bytesToNat bytes : Int)

/-- Modelled from the spec: Go `parseInt32` of package `asn1`. -/
def parseInt32 (bytes : Bytes) : Except String Int :=
  match parseInt64 bytes with
  | .error e => .error e
  | .ok ret64 =>
    if ret64 < -(2 ^ 31) ∨ ret64 ≥ 2 ^ 31 then .error "integer too large" else .ok ret64

/-- Modelled from the spec: Go `asn1.fieldParameters`, the parts in use:
`explicit,tag:n` or no tag, `application` (the explicit tag is of class
application instead of context-specific), `optional`. -/
structure fieldParameters where
  explicitTag : Option Nat
  application : Bool
  optional : Bool
deriving DecidableEq, Repr

/-- Modelled from the spec: Go `parseField` of package `asn1` for a field of
universal type `tag` (compound or not) whose contents `parseBody` decodes. The
value is `none` when an optional field is absent, and then no byte is consumed.
As in the package, the length of an explicit wrapper is not compared with its
child. -/
def parseField {α : Type} (params : fieldParameters) (tag : Nat) (compound : Bool)
    (parseBody : Bytes → Except String α) (bytes : Bytes) : Parse (Option α) :=
  let absent : Parse (Option α) :=
    if params.optional then .ok (none, bytes) else .error "tags don't match"
  match bytes with
  | [] => if params.optional then .ok (none, []) else .error "sequence truncated"
  | _ :: _ =>
    match parseTagAndLength bytes with
    | .error e => .error e
    | .ok (t0, rest0) =>
      let unwrapped : Except String (Option (tagAndLength × Bytes)) :=
        match params.explicitTag with
        | none => .ok (some (t0, rest0))
        | some n =>
          if rest0 = [] then .error "explicit tag has no child"
          else if t0.cls = (if params.application then 1 else 2) ∧ t0.tag = n ∧
              (t0.length = 0 ∨ t0.isCompound = true) then
            if t0.length > 0 then
              match parseTagAndLength rest0 with
              | .error e => .error e
              | .ok r => .ok (some r)
            else .error "zero length explicit tag was not an asn1.Flag"
          else .ok none
      match unwrapped with
      | .error e => .error e
      | .ok none => absent
      | .ok (some (t, rest)) =>
        if t.cls ≠ 0 ∨ t.tag ≠ tag ∨ t.isCompound ≠ compound then absent
        else if t.length > rest.length then .error "data truncated"
        else
          match parseBody (rest.take t.length) with
          | .error e => .error e
          | .ok v => .ok (some v, rest.drop t.length)

/-- A field that is not optional: its value and the bytes left. -/
def parseRequired {α : Type} (explicitTag : Option Nat) (application : Bool) (tag : Nat)
    (compound : Bool) (parseBody : Bytes → Except String α) (bytes : Bytes) : Parse α :=
  match parseField ⟨explicitTag, application, false⟩ tag compound parseBody bytes with
  | .error e => .error e
  | .ok (some v, rest) => .ok (v, rest)
  | .ok (none, _) => .error "tags don't match"

/-- Modelled from the spec: Go `parseSequenceOf` of package `asn1` for a
`[]string` of GeneralStrings: the elements are read until the contents are used
up (`fuel` bounds the number of elements). -/
def parseSequenceOfStrings : Nat → Bytes → Except String (List Bytes)
  | _, [] => .ok []
  | 0, _ :: _ => .error "sequence too long"
  | fuel + 1, b :: bytes =>
    match parseRequired none false 27 false (fun body => .ok body) (b :: bytes) with
    | .error e => .error e
    | .ok (s, rest) =>
      match parseSequenceOfStrings fuel rest with
      | .error e => .error e
      | .ok ss => .ok (s :: ss)

deriving instance DecidableEq for Except

/-! ## Package `messages`: tickets (Ticket.go) -/

/-- Go `asn1.BitString`. -/
structure BitString where
  Bytes : Bytes
  BitLength : Int
deriving DecidableEq, Repr

/-- Modelled from the spec: the type `types.EncryptedData` (package `types` is
not among the sources). "`{etype: int32, kvno: int32?, cipher: octet-string}`." -/
structure EncryptedData where
  EType : Int
  KVNO : Int
  Cipher : Bytes
deriving DecidableEq, Repr

/-- Go `types.HostAddress` (its declaration is not among the sources): an
address type and the address bytes. -/
structure HostAddress where
  AddrType : Int
  Address : Bytes
deriving DecidableEq, Repr

/-- Modelled from the spec: the type `types.AuthorizationDataEntry` (package
`types` is not among the sources). "AuthorizationData is a sequence of
`{ad-type, ad-data}`." -/
structure AuthorizationDataEntry where
  ADType : Int
  ADData : Bytes
deriving DecidableEq, Repr

/-- Go `TransitedEncoding`. -/
structure TransitedEncoding where
  TRType : Int
  Contents : Bytes
deriving DecidableEq, Repr

/-- Go `EncTicketPart`. -/
structure EncTicketPart where
  Flags : BitString
  Key : EncryptionKey
  CRealm : Bytes
  CName : PrincipalName
  Transited : TransitedEncoding
  AuthTime : Time
  StartTime : Time
  EndTime : Time
  RenewTill : Time
  CAddr : List HostAddress
  AuthorizationData : List AuthorizationDataEntry
deriving DecidableEq, Repr

/-- Go `Ticket`. -/
structure Ticket where
  TktVNO : Int
  Realm : Bytes
  SName : PrincipalName
  EncPart : EncryptedData
  DecryptedEncPart : EncTicketPart
deriving DecidableEq, Repr

/-- The zero `time.Time`: January 1, year 1, 00:00:00 UTC, counted from the Unix epoch. -/
def Time.zero : Time := -62135596800000000000

/-- Zero value of `EncTicketPart`. -/
def EncTicketPart.zero : EncTicketPart :=
  { Flags := ⟨[], 0⟩, Key := ⟨0, []⟩, CRealm := [], CName := ⟨0, []⟩, Transited := ⟨0, []⟩,
    AuthTime := Time.zero, StartTime := Time.zero, EndTime := Time.zero,
    RenewTill := Time.zero, CAddr := [], AuthorizationData := [] }

/-- Zero value of `Ticket`. -/
def Ticket.zero : Ticket :=
  { TktVNO := 0, Realm := [], SName := ⟨0, []⟩, EncPart := ⟨0, 0, []⟩,
    DecryptedEncPart := EncTicketPart.zero }

/-- Modelled from the spec: the constant `asnAppTag.Ticket` (package
`iana/asnAppTag` is not among the sources). "Ticket (ASN.1 application tag 1, DER)". -/
def asnAppTag.Ticket : Nat := 1

/-- Modelled from the spec: `asn1tools.AddASNAppTag` (package `asn1tools` is
not among the sources). "`marshal(Ticket) → bytes` re-emits with the same
application tag": the bytes become the contents of a constructed element of
class application with the given tag number. -/
def AddASNAppTag (b : Bytes) (tag : Nat) : Bytes :=
  der 1 true tag b

/-- The elements of a SEQUENCE OF GeneralString, one after the other. -/
def derGeneralStrings : List Bytes → Bytes
  | [] => []
  | s :: ss => derGeneralString s ++ derGeneralStrings ss

/-- Modelled from the spec: `asn1.Marshal` on a `types.PrincipalName` (neither
the package `asn1` nor the struct tags of package `types` are among the
sources). "`{name-type: int32, name-string: sequence of general-string}`", DER
with the explicit tags 0 and 1 of RFC 4120. -/
def marshalPrincipalName (pn : PrincipalName) : Bytes :=
  derSequence (derExplicit 0 (derInteger pn.NameType) ++
    derExplicit 1 (derSequence (derGeneralStrings pn.NameString)))

/-- Modelled from the spec: `asn1.Marshal` on a `types.EncryptedData`.
"`{etype: int32, kvno: int32?, cipher: octet-string}`", DER with the explicit
tags 0, 1 and 2 of RFC 4120; the optional `kvno` is left out when it holds
the zero value. -/
def marshalEncryptedData (ed : EncryptedData) : Bytes :=
  derSequence (derExplicit 0 (derInteger ed.EType) ++
    (if ed.KVNO = 0 then [] else derExplicit 1 (derInteger ed.KVNO)) ++
    derExplicit 2 (derOctetString ed.Cipher))

/-- Modelled from the spec: `asn1.UnmarshalWithParams` into a
`types.PrincipalName`, on the contents of its SEQUENCE. Bytes after the last
field are left alone. -/
def parsePrincipalName (bytes : Bytes) : Except String PrincipalName :=
  match parseRequired (some 0) false 2 false parseInt32 bytes with
  | .error e => .error e
  | .ok (nameType, rest) =>
    match parseRequired (some 1) false 16 true
        (fun body => parseSequenceOfStrings body.length body) rest with
    | .error e => .error e
    | .ok (nameString, _) => .ok ⟨nameType, nameString⟩

/-- Modelled from the spec: `asn1.UnmarshalWithParams` into a
`types.EncryptedData` that held `prior`, on the contents of its SEQUENCE. An
absent `kvno` leaves the field as it was. -/
def parseEncryptedData (prior : EncryptedData) (bytes : Bytes) : Except String EncryptedData :=
  match parseRequired (some 0) false 2 false parseInt32 bytes with
  | .error e => .error e
  | .ok (etype, rest) =>
    match parseField ⟨some 1, false, true⟩ 2 false parseInt64 rest with
    | .error e => .error e
    | .ok (kvno, rest) =>
      match parseRequired (some 2) false 4 false (fun body => .ok body) rest with
      | .error e => .error e
      | .ok (cipher, _) => .ok ⟨etype, kvno.getD prior.KVNO, cipher⟩

/-- The four wire fields of a `Ticket`, each under the explicit tag of its
struct tag: `tkt-vno [0]`, `realm [1]`, `sname [2]`, `enc-part [3]`. -/
def marshalTicketFields (t : Ticket) : Bytes :=
  derExplicit 0 (derInteger t.TktVNO) ++ derExplicit 1 (derGeneralString t.Realm) ++
    derExplicit 2 (marshalPrincipalName t.SName) ++
    derExplicit 3 (marshalEncryptedData t.EncPart)

section TicketCodec

/- The encoding of an `EncTicketPart` under `asn1.Marshal` (the contents of its
SEQUENCE) and its decoding are not fixed by the sources here: both are
parameters. -/
variable (marshalEncTicketPart : EncTicketPart → Except String Bytes)
variable (parseEncTicketPart : EncTicketPart → Bytes → Except String EncTicketPart)

/-- Modelled from the spec: `asn1.Marshal(*t)` for a `Ticket` (package `asn1`,
a fork of Go's `encoding/asn1`, is not among the sources). "Ticket and
EncTicketPart: DER per ASN.1 schemas above": a SEQUENCE of the fields of the
struct in order, each under the explicit tag of its struct tag. The field
`DecryptedEncPart` carries the struct tag `optional` and nothing else: as the
package does for every optional field, it is left out when it holds the zero
value and is written like any other field, as its SEQUENCE, when it does not. -/
def asn1MarshalTicket (t : Ticket) : Except String Bytes :=
  if t.DecryptedEncPart = EncTicketPart.zero then .ok (derSequence (marshalTicketFields t))
  else
    match marshalEncTicketPart t.DecryptedEncPart with
    | .error e => .error e
    | .ok body => .ok (derSequence (marshalTicketFields t ++ derSequence body))

/-- Go `Ticket.Marshal`. -/
def Ticket.Marshal (t : Ticket) : Except String Bytes :=
  match asn1MarshalTicket marshalEncTicketPart t with
  | .error err => .error err
  | .ok b => .ok (AddASNAppTag b asnAppTag.Ticket)

/-- Modelled from the spec: decoding of the contents of the SEQUENCE of a
`Ticket` into a struct that held `prior`. An absent optional field leaves the
field as it was; bytes after the last field are left alone. -/
def parseTicket (prior : Ticket) (bytes : Bytes) : Except String Ticket :=
  match parseRequired (some 0) false 2 false parseInt64 bytes with
  | .error e => .error e
  | .ok (tktVNO, rest) =>
    match parseRequired (some 1) false 27 false (fun body => .ok body) rest with
    | .error e => .error e
    | .ok (realm, rest) =>
      match parseRequired (some 2) false 16 true parsePrincipalName rest with
      | .error e => .error e
      | .ok (sname, rest) =>
        match parseRequired (some 3) false 16 true (parseEncryptedData prior.EncPart) rest with
        | .error e => .error e
        | .ok (encPart, rest) =>
          match parseField ⟨none, false, true⟩ 16 true
              (parseEncTicketPart prior.DecryptedEncPart) rest with
          | .error e => .error e
          | .ok (dec, _) =>
            .ok ⟨tktVNO, realm, sname, encPart, dec.getD prior.DecryptedEncPart⟩

/-- Modelled from the spec: `asn1.UnmarshalWithParams(b, t,
"application,explicit,tag:1")` for a `*Ticket` that held `prior`. "DER decode
with application-explicit tag 1." The value is the ticket and the bytes after
the element. -/
def asn1UnmarshalTicket (prior : Ticket) (b : Bytes) : Parse Ticket :=
  parseRequired (some asnAppTag.Ticket) true 16 true
    (parseTicket parseEncTicketPart prior) b

/-- Go `Ticket.Unmarshal` on a receiver that holds `t`: the error, or the
ticket the receiver holds afterwards. -/
def Ticket.Unmarshal (t : Ticket) (b : Bytes) : Except String Ticket :=
  match asn1UnmarshalTicket parseEncTicketPart t b with
  | .error err => .error err
  | .ok (t', _) => .ok t'

/-- Go `UnmarshalTicket`: the named result `t` starts as the zero `Ticket`. -/
def UnmarshalTicket (b : Bytes) : Except String Ticket :=
  match asn1UnmarshalTicket parseEncTicketPart Ticket.zero b with
  | .error err => .error err
  | .ok (t, _) => .ok t

end TicketCodec

/-- The values of a ticket fit their Go types (`int32` for the name type and
the etype, `int` for the version and the kvno), and its DER form stays below
the `2 ^ 31` bytes up to which package `asn1` reads a length. -/
def Ticket.Representable (t : Ticket) : Prop :=
  (-(2 ^ 63) ≤ t.TktVNO ∧ t.TktVNO < 2 ^ 63) ∧
  (-(2 ^ 31) ≤ t.SName.NameType ∧ t.SName.NameType < 2 ^ 31) ∧
  (-(2 ^ 31) ≤ t.EncPart.EType ∧ t.EncPart.EType < 2 ^ 31) ∧
  (-(2 ^ 63) ≤ t.EncPart.KVNO ∧ t.EncPart.KVNO < 2 ^ 63) ∧
  (derSequence (marshalTicketFields t)).length < 2 ^ 31

/-- A well-formed ticket on the wire: version 5, nothing decrypted attached,
values that fit their types. -/
def Ticket.WellFormed (t : Ticket) : Prop :=
  t.TktVNO = 5 ∧ t.DecryptedEncPart = EncTicketPart.zero ∧ Ticket.Representable t

/-- Stand-in for the encoder of `EncTicketPart` in the concrete runs: it
reports an error. -/
def noEncTicketPartEncoder : EncTicketPart → Except String Bytes :=
  fun _ => .error "EncTicketPart: encoder not given"

/-- Stand-in for the decoder of `EncTicketPart` in the concrete runs: it
reports an error. -/
def noEncTicketPartDecoder : EncTicketPart → Bytes → Except String EncTicketPart :=
  fun _ _ => .error "EncTicketPart: decoder not given"

/-- The ticket of scenario S1: realm `EXAMPLE.COM`, sname of type 2
`krbtgt/EXAMPLE.COM`, etype 18, kvno 1, a cipher of 32 zero bytes. -/
def ticketS1 : Ticket :=
  { TktVNO := 5, Realm := ascii "EXAMPLE.COM",
    SName := ⟨2, [ascii "krbtgt", ascii "EXAMPLE.COM"]⟩,
    EncPart := ⟨18, 1, List.replicate 32 0⟩,
    DecryptedEncPart := EncTicketPart.zero }

/-- A ticket with `tkt-vno` 4: realm `EXAMPLE.COM`, sname `krbtgt/EXAMPLE.COM`,
etype 18, kvno 1, a cipher of four bytes. -/
def ticketV4 : Ticket :=
  { TktVNO := 4, Realm := ascii "EXAMPLE.COM",
    SName := ⟨2, [ascii "krbtgt", ascii "EXAMPLE.COM"]⟩,
    EncPart := ⟨18, 1, [1, 2, 3, 4]⟩,
    DecryptedEncPart := EncTicketPart.zero }

/-- DER encoding of `ticketV4`: `[APPLICATION 1] SEQUENCE { [0] INTEGER 4,
[1] GeneralString "EXAMPLE.COM", [2] SEQUENCE { [0] INTEGER 2, [1] SEQUENCE OF
{ "krbtgt", "EXAMPLE.COM" } }, [3] SEQUENCE { [0] INTEGER 18, [1] INTEGER 1,
[2] OCTET STRING 01 02 03 04 } }`. -/
def ticketV4Bytes : Bytes :=
  [0x61, 0x4e, 0x30, 0x4c,
   0xa0, 0x03, 0x02, 0x01, 0x04,
   0xa1, 0x0d, 0x1b, 0x0b, 0x45, 0x58, 0x41, 0x4d, 0x50, 0x4c, 0x45, 0x2e, 0x43, 0x4f, 0x4d,
   0xa2, 0x20, 0x30, 0x1e, 0xa0, 0x03, 0x02, 0x01, 0x02,
   0xa1, 0x17, 0x30, 0x15, 0x1b, 0x06, 0x6b, 0x72, 0x62, 0x74, 0x67, 0x74,
   0x1b, 0x0b, 0x45, 0x58, 0x41, 0x4d, 0x50, 0x4c, 0x45, 0x2e, 0x43, 0x4f, 0x4d,
   0xa3, 0x14, 0x30, 0x12, 0xa0, 0x03, 0x02, 0x01, 0x12, 0xa1, 0x03, 0x02, 0x01, 0x01,
   0xa2, 0x06, 0x04, 0x04, 0x01, 0x02, 0x03, 0x04]

/-- A decrypted inner part, as `DecryptEncPart` attaches it: a session key of
type 18, client `alice@EXAMPLE.COM`, an hour of validity. -/
def encPartS1 : EncTicketPart :=
  { Flags := ⟨[0x40, 0x00, 0x00, 0x00], 32⟩, Key := ⟨18, List.replicate 32 7⟩,
    CRealm := ascii "EXAMPLE.COM", CName := ⟨1, [ascii "alice"]⟩, Transited := ⟨0, []⟩,
    AuthTime := 1500000000000000000, StartTime := 1500000000000000000,
    EndTime := 1500003600000000000, RenewTill := Time.zero, CAddr := [],
    AuthorizationData := [] }

/-- The ticket of scenario S1 after its inner part has been decrypted. -/
def ticketS1Decrypted : Ticket :=
  { ticketS1 with DecryptedEncPart := encPartS1 }

/-! ### Keys for a ticket: `DecryptEncPart` and `GetPACType` -/

/-- Go `strings.Split(s, sep)` for a separator of one byte. -/
def splitByte (sep : Byte) : Bytes → List Bytes
  | [] => [[]]
  | b :: bs =>
    if b = sep then [] :: splitByte sep bs
    else
      match splitByte sep bs with
      | [] => [[b]]
      | w :: ws => (b :: w) :: ws

/-- Modelled from the spec: `types.ParseSPNString` (package `types` is not
among the sources). "The override, if given, is parsed in SPN form
(`service/host@REALM`)": the text after the last `@` is the realm (empty when
there is no `@`), the text before it, split at `/`, is the name. -/
def ParseSPNString (spn : Bytes) : PrincipalName × Bytes :=
  if (64 : Byte) ∈ spn then
    let realm := (splitByte 64 spn).getLastD []
    (⟨1, splitByte 47 (spn.take (spn.length - (realm.length + 1)))⟩, realm)
  else (⟨1, splitByte 47 spn⟩, [])

/-- Modelled from the spec: the constant `errorcode.KRB_AP_ERR_NOKEY` (package
`iana/errorcode` is not among the sources), with its RFC 4120 value. -/
def KRB_AP_ERR_NOKEY : Int := 45

/-- Modelled from the spec: the constant `keyusage.KDC_REP_TICKET` (package
`iana/keyusage` is not among the sources), with its RFC 4120 value. -/
def KDC_REP_TICKET : Int := 2

/-- Modelled from the spec: the constant `adtype.ADIfRelevant` (package
`iana/adtype` is not among the sources), with its RFC 4120 value. -/
def ADIfRelevant : Int := 1

/-- Modelled from the spec: the constant `adtype.ADWin2KPAC` (package
`iana/adtype` is not among the sources), with its RFC 4120 value. -/
def ADWin2KPAC : Int := 128

/-- Modelled from the spec: `messages.NewKRBError` (not among the sources): the
KRB-ERROR with the given server principal, realm and error code (its text is
left out). -/
def NewKRBError (sname : PrincipalName) (realm : Bytes) (code : Int) : KRBError :=
  ⟨code, realm, sname⟩

/-- Arguments of one call of `keytab.GetEncryptionKey`. -/
structure KeyRequest where
  NameString : List Bytes
  Realm : Bytes
  KVNO : Int
  EType : Int
deriving DecidableEq, Repr

/-- The collaborators of `DecryptEncPart` and `GetPACType`, for a type `P` of
PACs (`pac.PACType` is not among the sources). Their errors are given by
their message. -/
structure TicketDeps (P : Type) where
  /-- Go `keytab.GetEncryptionKey(nameString, realm, kvno, etype)`. -/
  GetEncryptionKey : KeyRequest → Except String EncryptionKey
  /-- Go `crypto.DecryptEncPart(ed, key, usage)`. -/
  DecryptEncPart : EncryptedData → EncryptionKey → Int → Except String Bytes
  /-- Go `ad2.Unmarshal(b)` on an empty `types.AuthorizationData`. -/
  UnmarshalAuthorizationData : Bytes → Except String (List AuthorizationDataEntry)
  /-- The zero `pac.PACType`. -/
  zeroPAC : P
  /-- Go `p.Unmarshal(b)` on the zero `pac.PACType`: `p` afterwards and the error, if any. -/
  UnmarshalPAC : Bytes → P × Option String
  /-- Go `p.ProcessPACInfoBuffers(key)`: `p` afterwards and the error, if any. -/
  ProcessPACInfoBuffers : P → EncryptionKey → P × Option GoError

/-- Outcome of `Ticket.DecryptEncPart`: the error returned, the ticket
afterwards, and the calls made to the keytab. -/
structure DecryptResult where
  err : Option GoError
  t : Ticket
  asked : List KeyRequest
deriving DecidableEq, Repr

/-- Outcome of `Ticket.GetPACType`: the three values returned and the calls
made to the keytab, or a run-time panic. -/
inductive PACResult (P : Type) where
  | returned (isPAC : Bool) (p : P) (err : Option GoError) (asked : List KeyRequest)
  | panic (msg : String)
deriving DecidableEq, Repr

/-- Calls made to the keytab during a `GetPACType`. -/
def PACResult.asked {P : Type} : PACResult P → List KeyRequest
  | .returned _ _ _ asked => asked
  | .panic _ => []

section TicketKeys

variable {P : Type} (deps : TicketDeps P)
variable (parseEncTicketPart : EncTicketPart → Bytes → Except String EncTicketPart)

/-- Go `EncTicketPart.Unmarshal` on the zero `EncTicketPart`:
`asn1.UnmarshalWithParams(b, t, "application,explicit,tag:3")`. -/
def EncTicketPart.Unmarshal (b : Bytes) : Except String EncTicketPart :=
  match parseRequired (some 3) true 16 true (parseEncTicketPart EncTicketPart.zero) b with
  | .error err => .error err
  | .ok (denc, _) => .ok denc

/-- The principal and realm under which `DecryptEncPart` looks for the key
(lines 183-193). -/
def Ticket.DecryptEncPart.principal (t : Ticket) (ktprinc : Bytes) : PrincipalName × Bytes :=
  if ktprinc ≠ [] then
    let (upn, r) := ParseSPNString ktprinc
    if r ≠ [] then (upn, r) else (upn, t.Realm)
  else (t.SName, t.Realm)

/-- Go `Ticket.DecryptEncPart`. -/
def Ticket.DecryptEncPart (t : Ticket) (ktprinc : Bytes) : DecryptResult :=
  let (upn, realm) := Ticket.DecryptEncPart.principal t ktprinc
  let request : KeyRequest := ⟨upn.NameString, realm, t.EncPart.KVNO, t.EncPart.EType⟩
  match deps.GetEncryptionKey request with
  | .error _ =>
    ⟨some (.krb (NewKRBError t.SName t.Realm KRB_AP_ERR_NOKEY)), t, [request]⟩
  | .ok key =>
    match deps.DecryptEncPart t.EncPart key KDC_REP_TICKET with
    | .error err =>
      ⟨some (.errorf1 "error decrypting Ticket EncPart: %v" [] (.other err)), t, [request]⟩
    | .ok b =>
      match EncTicketPart.Unmarshal parseEncTicketPart b with
      | .error err =>
        ⟨some (.errorf1 "error unmarshaling encrypted part: %v" [] (.other err)), t, [request]⟩
      | .ok denc => ⟨none, { t with DecryptedEncPart := denc }, [request]⟩

/-- Loop of `GetPACType` over the authorization data that is left. -/
def Ticket.GetPACType.loop (t : Ticket) (ktprinc : Bytes) :
    List AuthorizationDataEntry → PACResult P
  | [] => .returned false deps.zeroPAC none []
  | ad :: ads =>
    if ad.ADType = ADIfRelevant then
      match deps.UnmarshalAuthorizationData ad.ADData with
      | .error _ => Ticket.GetPACType.loop t ktprinc ads
      | .ok [] => .panic "index out of range"
      | .ok (ad20 :: _) =>
        if ad20.ADType = ADWin2KPAC then
          match deps.UnmarshalPAC ad20.ADData with
          | (p, some err) =>
            .returned true p (some (.errorf1 "error unmarshaling PAC: %v" [] (.other err))) []
          | (p, none) =>
            let upn := if ktprinc ≠ [] then splitByte 47 ktprinc else t.SName.NameString
            let request : KeyRequest := ⟨upn, t.Realm, t.EncPart.KVNO, t.EncPart.EType⟩
            match deps.GetEncryptionKey request with
            | .error _ =>
              .returned true p (some (.krb (NewKRBError t.SName t.Realm KRB_AP_ERR_NOKEY)))
                [request]
            | .ok key =>
              .returned true (deps.ProcessPACInfoBuffers p key).1
                (deps.ProcessPACInfoBuffers p key).2 [request]
        else Ticket.GetPACType.loop t ktprinc ads
    else Ticket.GetPACType.loop t ktprinc ads

/-- Go `Ticket.GetPACType`. -/
def Ticket.GetPACType (t : Ticket) (ktprinc : Bytes) : PACResult P :=
  Ticket.GetPACType.loop deps t ktprinc t.DecryptedEncPart.AuthorizationData

end TicketKeys

/-- The key that a keytab holds in the concrete run:
`HTTP/web.example.com@EXAMPLE.COM`, kvno 1, etype 18. -/
def keyHTTP : EncryptionKey := ⟨18, List.replicate 32 9⟩

/-- Collaborators of the concrete run: a keytab with the one key `keyHTTP`, a
decryption that reports an error, authorization data that always decodes to
one `AD-WIN2K-PAC` element, and PACs kept as their bytes. -/
def depsHTTP : TicketDeps Bytes :=
  { GetEncryptionKey := fun r =>
      if r = ⟨[ascii "HTTP", ascii "web.example.com"], ascii "EXAMPLE.COM", 1, 18⟩ then
        .ok keyHTTP
      else .error "matching key not found in keytab"
    DecryptEncPart := fun _ _ _ => .error "decryption not given"
    UnmarshalAuthorizationData := fun b => .ok [⟨ADWin2KPAC, b⟩]
    zeroPAC := []
    UnmarshalPAC := fun b => (b, none)
    ProcessPACInfoBuffers := fun p _ => (p, none) }

/-- A ticket for `HTTP/web.example.com` in realm `EXAMPLE.COM` (etype 18,
kvno 1) whose decrypted part carries one `AD-IF-RELEVANT` element. -/
def ticketPAC : Ticket :=
  { TktVNO := 5, Realm := ascii "EXAMPLE.COM",
    SName := ⟨2, [ascii "HTTP", ascii "web.example.com"]⟩,
    EncPart := ⟨18, 1, List.replicate 32 0⟩,
    DecryptedEncPart := { encPartS1 with AuthorizationData := [⟨ADIfRelevant, [1, 2, 3]⟩] } }

/-! ### Concrete networks for the scenarios of the spec -/

/-- Response bytes standing for a KRB-ERROR with code `KDC_ERR_C_PRINCIPAL_UNKNOWN`. -/
def replyPrincipalUnknown : Bytes := [0x7e, 0x03, 0x02, 0x01, 0x06]

/-- Response bytes standing for a KRB-ERROR with code `KRB_ERR_RESPONSE_TOO_BIG`. -/
def replyTooBig : Bytes := [0x7e, 0x03, 0x02, 0x01, 0x34]

/-- Response bytes standing for an AS-REP. -/
def replyASRep : Bytes := [0x6b, 0x03, 0x02, 0x01, 0x05]

/-- A network with one KDC that resolves and connects on both transports,
answers `udpReply` over UDP and `tcpReply` over TCP, and whose KRB-ERROR
decoder knows the two error replies above. -/
def scenarioNet (udpReply tcpReply : Bytes) : KDCNet :=
  { GetKDCs := fun _ => .ok (1, [(1, ascii "kdc.example.com:88")])
    ResolveUDPAddr := fun address => .ok address
    DialUDP := fun address => .ok ⟨address⟩
    ResolveTCPAddr := fun address => .ok address
    DialTCP := fun address => .ok ⟨address⟩
    udpWrite := fun _ _ => none
    udpReadFrom := fun _ => (udpReply, none)
    tcpWrite := fun _ _ => none
    tcpRead := fun _ => (putUint32BE tcpReply.length, none)
    tcpReadFull := fun _ n => (tcpReply.take n, none)
    UnmarshalKRBError := fun r =>
      if r = replyPrincipalUnknown then
        some ⟨KDC_ERR_C_PRINCIPAL_UNKNOWN, ascii "EXAMPLE.COM", ⟨2, [ascii "krbtgt", ascii "EXAMPLE.COM"]⟩⟩
      else if r = replyTooBig then
        some ⟨KRB_ERR_RESPONSE_TOO_BIG, ascii "EXAMPLE.COM", ⟨2, [ascii "krbtgt", ascii "EXAMPLE.COM"]⟩⟩
      else none }

/-- The network of `scenarioNet` with a KDC that refuses TCP connections. -/
def tcpRefusedNet (udpReply : Bytes) : KDCNet :=
  { scenarioNet udpReply [] with DialTCP := fun _ => .error "connection refused" }

/-- A request of `n` zero bytes. -/
def requestOf (n : Nat) : Bytes :=
  List.replicate n 0

/-- Go `strings.Join(pn.NameString, "/")`, used as the naming function in the
concrete runs below. -/
def joinSlash : List Bytes → Bytes
  | [] => []
  | [s] => s
  | s :: rest => s ++ (47 : Byte) :: joinSlash rest

/-- Naming function used in the concrete runs:
`types.PrincipalName.GetPrincipalNameString` (package `types` is not among the
sources), the components of the name joined with `/`. -/
def nameKey (pn : PrincipalName) : Bytes :=
  joinSlash pn.NameString

/-- Service principal `HTTP/web.example.com` of the concrete runs. -/
def svcHTTP : PrincipalName :=
  ⟨2, [ascii "HTTP", ascii "web.example.com"]⟩

/-- Service principal `host/web.example.com` of the concrete runs. -/
def svcHost : PrincipalName :=
  ⟨2, [ascii "host", ascii "web.example.com"]⟩

/-- Authenticator of client `alice` with `ctime = 1500000000 s`, `cusec = 0`. -/
def authAlice : Authenticator :=
  { CName := ⟨1, [ascii "alice"]⟩, Cusec := 0, CTime := 1500000000000000000,
    SubKey := ⟨0, []⟩, SeqNumber := 7 }

/-- Authenticator of client `bob` with `ctime = 1500000000 s`, `cusec = 250`. -/
def authBob : Authenticator :=
  { CName := ⟨1, [ascii "bob"]⟩, Cusec := 250, CTime := 1500000000000000000,
    SubKey := ⟨0, []⟩, SeqNumber := 3 }

/-- Authenticator of a client whose name has the two components `a` and `b`. -/
def authAB : Authenticator :=
  { CName := ⟨1, [ascii "a", ascii "b"]⟩, Cusec := 0, CTime := 1500000000000000000,
    SubKey := ⟨0, []⟩, SeqNumber := 1 }

/-- Authenticator of a client whose name has the one component `a/b`, with the
client time of `authAB`. -/
def authASlashB : Authenticator :=
  { CName := ⟨1, [ascii "a/b"]⟩, Cusec := 0, CTime := 1500000000000000000,
    SubKey := ⟨0, []⟩, SeqNumber := 1 }

/-! ## Package `service`: eviction (cache.go, `ClearOldEntries`) -/

/-- What a Go `range` over the map visits: every key once, with its value. -/
def GoMap.bindings {K V : Type} [DecidableEq K] : GoMap K V → GoMap K V
  | [] => []
  | kv :: m => kv :: GoMap.delete (GoMap.bindings m) kv.1

/-- A Go `range` over a map whose body deletes the key it visits or rewrites
the value: for each key, `f` of the value says what is left under the key. -/
def GoMap.rangeUpdate {K V : Type} [DecidableEq K] (f : V → Option V) (m : GoMap K V) :
    GoMap K V :=
  (GoMap.bindings m).filterMap (fun kv => (f kv.2).map (fun v => (kv.1, v)))

/-- Inner loop of `ClearOldEntries` on one `ReplayMap`: an entry is deleted when
`time.Now().UTC().Sub(e.PresentedTime) > d`. The clock is read for every
entry; all the readings of one call are taken to be `now`. -/
def ClearOldEntries.replayMap (now : Time) (d : Duration)
    (m : GoMap Time replayCacheEntry) : GoMap Time replayCacheEntry :=
  GoMap.rangeUpdate (fun e => if Time.Sub now e.PresentedTime > d then none else some e) m

/-- Go `Cache.ClearOldEntries`, at clock reading `now`: in every client record
the old entries are deleted from the (shared) replay map, and the record is
deleted when `len(ce.ReplayMap) == 0` afterwards. -/
def Cache.ClearOldEntries (c : Cache) (now : Time) (d : Duration) : Cache :=
  ⟨GoMap.rangeUpdate (fun ce =>
      if (ClearOldEntries.replayMap now d ce.ReplayMap).length = 0 then none
      else some ⟨ClearOldEntries.replayMap now d ce.ReplayMap, ce.SeqNumber, ce.SubKey⟩)
    c.Entries⟩

/-- The replay entry kept under a client key and a client time, if any. -/
def Cache.entryAt (c : Cache) (k : Bytes) (t : Time) : Option replayCacheEntry :=
  (GoMap.get c.Entries k).bind (fun ce => GoMap.get ce.ReplayMap t)

/-- The authenticator that `alice` sends next: one second later, sequence
number 8, a sub-key of type 18. -/
def authAliceNext : Authenticator :=
  { CName := ⟨1, [ascii "alice"]⟩, Cusec := 0, CTime := 1500000001000000000,
    SubKey := ⟨18, [1, 2, 3, 4]⟩, SeqNumber := 8 }

/-! ## NDR reads, as package `ndr` makes them

The code imports `gopkg.in/jcmturner/rpc.v0/ndr`, which is not among the
sources. The spec names its part ("NDR cursor: little/big-endian scalar
reads"); this section gives the reads the sources here call: a read takes the
bytes and the cursor `p` and gives the value and the cursor afterwards. A
scalar is read at the next multiple of its size; a read for which too few
bytes are left gives the zero value and leaves the cursor where it is. A slice
has no spare capacity: reaching past its length is a run-time panic. -/

/-- How an operation on bytes can fail: with an `ndr.Malformed` error whose
text is the format with its arguments, or with a run-time panic. -/
inductive Failure where
  | malformed (etext : String) (args : List Nat)
  | panic (msg : String)
deriving DecidableEq, Repr

/-- Result of a read: the value and the cursor afterwards, or a failure. -/
abbrev Read (α : Type) := Except Failure (α × Nat)

/-- Go `binary.ByteOrder`. -/
inductive ByteOrder where
  | LittleEndian
  | BigEndian
deriving DecidableEq, Repr

/-- Go slice expression `b[lo:hi]`, for `lo ≤ hi ≤ len(b)`. -/
def slice (b : Bytes) (lo hi : Nat) : Bytes :=
  (b.drop lo).take (hi - lo)

/-- Value of the byte at an index, 0 past the end. -/
def byteAt (b : Bytes) (i : Nat) : Nat :=
  (b.getD i 0).val

/-- Go `ByteOrder.Uint16` on a slice of two bytes. -/
def ByteOrder.Uint16 : ByteOrder → Bytes → Nat
  | .LittleEndian, b => byteAt b 0 + byteAt b 1 * 2 ^ 8
  | .BigEndian, b => byteAt b 1 + byteAt b 0 * 2 ^ 8

/-- Go `ByteOrder.Uint32` on a slice of four bytes. -/
def ByteOrder.Uint32 : ByteOrder → Bytes → Nat
  | .LittleEndian, b =>
    byteAt b 0 + byteAt b 1 * 2 ^ 8 + byteAt b 2 * 2 ^ 16 + byteAt b 3 * 2 ^ 24
  | .BigEndian, b =>
    byteAt b 3 + byteAt b 2 * 2 ^ 8 + byteAt b 1 * 2 ^ 16 + byteAt b 0 * 2 ^ 24

/-- Modelled from the spec: `ensureAlignment` of package `ndr`: the cursor moved
up to the next multiple of `byteSize`. -/
def ensureAlignment (p byteSize : Nat) : Nat :=
  if byteSize > 0 ∧ p % byteSize ≠ 0 then p + (byteSize - p % byteSize) else p

/-- Modelled from the spec: `ndr.ReadUint8`. -/
def ndr.ReadUint8 (b : Bytes) (p : Nat) : Read Nat :=
  if p > b.length then .error (.panic "slice bounds out of range")
  else if b.length - p < 1 then .ok (0, p)
  else .ok (byteAt b (ensureAlignment p 1), ensureAlignment p 1 + 1)

/-- Modelled from the spec: `ndr.ReadUint16`. -/
def ndr.ReadUint16 (b : Bytes) (p : Nat) (e : ByteOrder) : Read Nat :=
  if p > b.length then .error (.panic "slice bounds out of range")
  else if b.length - p < 2 then .ok (0, p)
  else if ensureAlignment p 2 + 2 > b.length then .error (.panic "slice bounds out of range")
  else
    .ok (e.Uint16 (slice b (ensureAlignment p 2) (ensureAlignment p 2 + 2)),
      ensureAlignment p 2 + 2)

/-- Modelled from the spec: `ndr.ReadUint32`. -/
def ndr.ReadUint32 (b : Bytes) (p : Nat) (e : ByteOrder) : Read Nat :=
  if p > b.length then .error (.panic "slice bounds out of range")
  else if b.length - p < 4 then .ok (0, p)
  else if ensureAlignment p 4 + 4 > b.length then .error (.panic "slice bounds out of range")
  else
    .ok (e.Uint32 (slice b (ensureAlignment p 4) (ensureAlignment p 4 + 4)),
      ensureAlignment p 4 + 4)

/-- Modelled from the spec: `ndr.ReadBytes`: the next `s` bytes, or no bytes
and an unmoved cursor when fewer are left. -/
def ndr.ReadBytes (b : Bytes) (p : Nat) (s : Nat) (_e : ByteOrder) : Read Bytes :=
  if p > b.length then .error (.panic "slice bounds out of range")
  else if b.length - p < s then .ok ([], p)
  else .ok (slice b p (p + s), p + s)

/-! ## Package `pac`: signature buffers (signature_data.go) -/

/-- Modelled from the spec: the constant
`chksumtype.KERB_CHECKSUM_HMAC_MD5_UNSIGNED` (package `iana/chksumtype` is not
among the sources): the checksum type -138 of `KERB_CHECKSUM_HMAC_MD5` as a
`uint32`. -/
def KERB_CHECKSUM_HMAC_MD5_UNSIGNED : Nat := 4294967158

/-- Modelled from the spec: the constant `chksumtype.HMAC_SHA1_96_AES128`
(package `iana/chksumtype` is not among the sources), with its RFC 3962 value. -/
def HMAC_SHA1_96_AES128 : Nat := 15

/-- Modelled from the spec: the constant `chksumtype.HMAC_SHA1_96_AES256`
(package `iana/chksumtype` is not among the sources), with its RFC 3962 value. -/
def HMAC_SHA1_96_AES256 : Nat := 16

/-- Go `pac.SignatureData`. -/
structure SignatureData where
  SignatureType : Nat
  Signature : Bytes
  RODCIdentifier : Nat
deriving DecidableEq, Repr

/-- What a `SignatureData.Unmarshal` that returns no error leaves behind: the
receiver `k`, the bytes `rb` it returns, and the bytes of the argument `b`
after the call (no statement of `Unmarshal` writes to them). -/
structure SignatureData.Unmarshalled where
  k : SignatureData
  rb : Bytes
  b : Bytes
deriving DecidableEq, Repr

/-- The `switch` of `SignatureData.Unmarshal`: the signature size `c` for a
signature type, 0 for a type that is none of the three. -/
def SignatureData.size (signatureType : Nat) : Nat :=
  if signatureType = KERB_CHECKSUM_HMAC_MD5_UNSIGNED then 16
  else if signatureType = HMAC_SHA1_96_AES128 then 12
  else if signatureType = HMAC_SHA1_96_AES256 then 12
  else 0

/-- Go `SignatureData.Unmarshal`. -/
def SignatureData.Unmarshal (b : Bytes) : Except Failure SignatureData.Unmarshalled :=
  let e := ByteOrder.LittleEndian
  match ndr.ReadUint32 b 0 e with
  | .error f => .error f
  | .ok (signatureType, p) =>
    let c := SignatureData.size signatureType
    let sp := p
    match ndr.ReadBytes b p c e with
    | .error f => .error f
    | .ok (signature, p) =>
      match ndr.ReadUint16 b p e with
      | .error f => .error f
      | .ok (rodc, p) =>
        if p > b.length then .error (.panic "slice bounds out of range")
        else if (b.drop p).any (fun v => decide (v ≠ 0)) then
          .error (.malformed "non-zero padding left over at end of data stream" [])
        else if sp + c > b.length then .error (.panic "slice bounds out of range")
        else
          .ok ⟨⟨signatureType, signature, rodc⟩,
            b.take sp ++ List.replicate c 0 ++ b.drop (sp + c), b⟩

/-- A server signature buffer: type 16 (`HMAC_SHA1_96_AES256`), twelve
signature bytes, RODC identifier `0x0102`. -/
def signatureBuffer : Bytes :=
  [16, 0, 0, 0, 0xa1, 0xa2, 0xa3, 0xa4, 0xa5, 0xa6, 0xa7, 0xa8, 0xa9, 0xaa, 0xab, 0xac,
   0x02, 0x01]

/-! ## Package `mstypes`: security identifiers (sid.go) -/

/-- Go `mstypes.RPCSIDIdentifierAuthority`. -/
structure RPCSIDIdentifierAuthority where
  Value : Bytes
deriving DecidableEq, Repr

/-- Go `mstypes.RPCSID`. -/
structure RPCSID where
  Revision : Nat
  SubAuthorityCount : Nat
  IdentifierAuthority : RPCSIDIdentifierAuthority
  SubAuthority : List Nat
deriving DecidableEq, Repr

/-- Decimal digits of `n`, least significant first (`fuel` bounds their number). -/
def decimalDigits : Nat → Nat → List Nat
  | 0, _ => []
  | fuel + 1, n => if n < 10 then [n] else n % 10 :: decimalDigits fuel (n / 10)

/-- Go `fmt` verb `%d` on an unsigned integer: its decimal numeral. -/
def decimal (n : Nat) : Bytes :=
  ((decimalDigits (n + 1) n).reverse).map (fun d => Fin.ofNat (48 + d))

/-- One digit of Go `hex.EncodeToString`, from the table `0123456789abcdef`. -/
def hexDigit (n : Nat) : Byte :=
  if n < 10 then Fin.ofNat (48 + n) else Fin.ofNat (87 + n)

/-- Go `hex.EncodeToString`. -/
def hexEncode : Bytes → Bytes
  | [] => []
  | b :: bs => hexDigit (b.val / 16) :: hexDigit (b.val % 16) :: hexEncode bs

/-- Go `RPCSID.ToString`. `binary.BigEndian.Uint64` panics on fewer than eight
bytes, that is for an identifier authority of fewer than six. -/
def RPCSID.ToString (s : RPCSID) : Except Failure Bytes :=
  let b : Bytes := [0, 0] ++ s.IdentifierAuthority.Value
  if b.length < 8 then .error (.panic "index out of range")
  else
    let i := bytesToNat (b.take 8)
    let str :=
      if i ≥ 4294967296 then ascii "S-1-0x" ++ hexEncode s.IdentifierAuthority.Value
      else ascii "S-1-" ++ decimal i
    .ok (s.SubAuthority.foldl (fun str sub => str ++ ascii "-" ++ decimal sub) str)

/-- The authority in the string form of the spec: "`<auth-decimal>` if
auth < 2^32 else `0x<hex>`", the authority being the big-endian value of the
six bytes. -/
def RPCSID.authorityText (value : Bytes) : Bytes :=
  if bytesToNat value < 2 ^ 32 then decimal (bytesToNat value)
  else ascii "0x" ++ hexEncode value

/-- The sub-authorities in the string form of the spec: "`-<sub>` repeated". -/
def RPCSID.subAuthorityText : List Nat → Bytes
  | [] => []
  | sub :: subs => ascii "-" ++ decimal sub ++ RPCSID.subAuthorityText subs

/-- The string form of the spec: "`S-1-<auth-decimal>` if auth < 2^32 else
`S-1-0x<hex>`, followed by `-<sub>` repeated". -/
def RPCSID.stringForm (s : RPCSID) : Bytes :=
  ascii "S-1-" ++ RPCSID.authorityText s.IdentifierAuthority.Value ++
    RPCSID.subAuthorityText s.SubAuthority

/-- The SID of scenario S6. -/
def sidS6 : RPCSID :=
  { Revision := 1, SubAuthorityCount := 4, IdentifierAuthority := ⟨[0, 0, 0, 0, 0, 5]⟩,
    SubAuthority := [21, 100, 200, 500] }

/-- A SID whose authority does not fit 32 bits. -/
def sidWide : RPCSID :=
  { Revision := 1, SubAuthorityCount := 1,
    IdentifierAuthority := ⟨[0x01, 0x02, 0x03, 0x04, 0x05, 0xab]⟩, SubAuthority := [7] }

/-- A record with the structural fields of `sidS6` and other revision and count. -/
def sidS6Other : RPCSID :=
  { Revision := 2, SubAuthorityCount := 0, IdentifierAuthority := ⟨[0, 0, 0, 0, 0, 5]⟩,
    SubAuthority := [21, 100, 200, 500] }

/-- Go `ReadRPCSIDIdentifierAuthority`. -/
def ReadRPCSIDIdentifierAuthority (b : Bytes) (p : Nat) (e : ByteOrder) :
    Read RPCSIDIdentifierAuthority :=
  match ndr.ReadBytes b p 6 e with
  | .error f => .error f
  | .ok (v, p) => .ok (⟨v⟩, p)

/-- The loop of `ReadRPCSID` that fills the `n` sub-authorities still to read. -/
def ReadRPCSID.loop (b : Bytes) (e : ByteOrder) : Nat → Nat → Read (List Nat)
  | 0, p => .ok ([], p)
  | n + 1, p =>
    match ndr.ReadUint32 b p e with
    | .error f => .error f
    | .ok (v, p) =>
      match ReadRPCSID.loop b e n p with
      | .error f => .error f
      | .ok (vs, p) => .ok (v :: vs, p)

/-- Go `ReadRPCSID` (`int` has 64 bits, so `int(uint32)` keeps the value). -/
def ReadRPCSID (b : Bytes) (p : Nat) (e : ByteOrder) : Read RPCSID :=
  match ndr.ReadUint32 b p e with
  | .error f => .error f
  | .ok (size, p) =>
    match ndr.ReadUint8 b p with
    | .error f => .error f
    | .ok (r, p) =>
      if r ≠ 1 then
        .error (.malformed "SID revision value read as %d when it must be 1" [r])
      else
        match ndr.ReadUint8 b p with
        | .error f => .error f
        | .ok (c, p) =>
          match ReadRPCSIDIdentifierAuthority b p e with
          | .error f => .error f
          | .ok (a, p) =>
            if size ≠ c then
              .error (.malformed
                "Number of elements (%d) within SID in the byte stream does not equal the SubAuthorityCount (%d)"
                [size, c])
            else
              match ReadRPCSID.loop b e c p with
              | .error f => .error f
              | .ok (s, p) =>
                .ok ({ Revision := r, SubAuthorityCount := c, IdentifierAuthority := a,
                       SubAuthority := s }, p)

/-- The NDR bytes of `sidS6`, little-endian: size 4, revision 1, count 4, the
authority, and the four sub-authorities. -/
def sidS6Bytes : Bytes :=
  [4, 0, 0, 0, 1, 4, 0, 0, 0, 0, 0, 5,
   21, 0, 0, 0, 100, 0, 0, 0, 200, 0, 0, 0, 244, 1, 0, 0]

/-! ## Package `mstypes`: string headers (rpc_unicode_string.go) -/

/-- Go `mstypes.RPCUnicodeString`. -/
structure RPCUnicodeString where
  Length : Nat
  MaximumLength : Nat
  BufferPrt : Nat
  Value : Bytes
deriving DecidableEq, Repr

/-- Go `ReadRPCUnicodeString`. -/
def ReadRPCUnicodeString (b : Bytes) (p : Nat) (e : ByteOrder) : Read RPCUnicodeString :=
  match ndr.ReadUint16 b p e with
  | .error f => .error f
  | .ok (l, p) =>
    match ndr.ReadUint16 b p e with
    | .error f => .error f
    | .ok (ml, p) =>
      if ml < l ∨ l % 2 ≠ 0 ∨ ml % 2 ≠ 0 then
        .error (.malformed "Invalid data for RPC_UNICODE_STRING" [])
      else
        match ndr.ReadUint32 b p e with
        | .error f => .error f
        | .ok (ptr, p) =>
          .ok ({ Length := l, MaximumLength := ml, BufferPrt := ptr, Value := [] }, p)

/-- A buffer of ten bytes: two of padding, then length 4, maximum length 6 and
four more bytes. -/
def unicodeHeaderAt2 : Bytes :=
  [0, 0, 4, 0, 6, 0, 0x10, 0x20, 0x30, 0x40]

/-- A buffer of eight bytes: length 4, maximum length 6, pointer 0x00020004. -/
def unicodeHeader : Bytes :=
  [4, 0, 6, 0, 4, 0, 2, 0]

/-! ## Package `mstypes`: FILETIME (filetime.go) -/

/-- Go constant `unixEpochDiff`. -/
def unixEpochDiff : Int := 116444736000000000

/-- Go `mstypes.FileTime`; both fields are `uint32`. -/
structure FileTime where
  LowDateTime : Nat
  HighDateTime : Nat
deriving DecidableEq, Repr

/-- Go `FileTime.MSEpoch`: `(int64(High) << 32) + int64(Low)` in `int64`. -/
def FileTime.MSEpoch (ft : FileTime) : Int :=
  wrapInt64 (wrapInt64 ((ft.HighDateTime : Int) * 2 ^ 32) + (ft.LowDateTime : Int))

/-- Go `FileTime.Time`: `time.Unix(0, ns).UTC()` is the instant `ns` nanoseconds
after the Unix epoch. -/
def FileTime.Time (ft : FileTime) : Time :=
  wrapInt64 (wrapInt64 (FileTime.MSEpoch ft - unixEpochDiff) * 100)

/-- Go `GetFileTime`. `UnixNano` is the instant in `int64`, `/` truncates
towards zero, `>>` on `int64` rounds down, and `uint32(x)` keeps the low 32
bits. -/
def GetFileTime (t : Time) : FileTime :=
  let ns := wrapInt64 t
  let fp := wrapInt64 (Int.tdiv ns 100 + unixEpochDiff)
  let hd := Int.fdiv fp (2 ^ 32)
  let ld := wrapInt64 (fp - wrapInt64 (hd * 2 ^ 32))
  { LowDateTime := (ld % 2 ^ 32).toNat, HighDateTime := (hd % 2 ^ 32).toNat }

/-- 2017-05-06 15:58:46.6838012 UTC as a FILETIME (value 131385599266838012). -/
def fileTime2017 : FileTime :=
  { LowDateTime := 0xa4e6d5fc, HighDateTime := 0x01d2c681 }

/-- Go `FileTime.Unix`: `(ft.MSEpoch() - unixEpochDiff) / 10000000` in `int64`,
the quotient truncated towards zero. -/
def FileTime.Unix (ft : FileTime) : Int :=
  Int.tdiv (wrapInt64 (FileTime.MSEpoch ft - unixEpochDiff)) 10000000

/-- A FILETIME whose high word has its top bit set. -/
def fileTimeHigh : FileTime :=
  { LowDateTime := 0, HighDateTime := 4294967295 }

/-- Go `ReadFileTime`: the low word, then the high word. -/
def ReadFileTime (b : Bytes) (p : Nat) (e : ByteOrder) : Read FileTime :=
  match ndr.ReadUint32 b p e with
  | .error f => .error f
  | .ok (l, p) =>
    match ndr.ReadUint32 b p e with
    | .error f => .error f
    | .ok (h, p) => .ok ({ LowDateTime := l, HighDateTime := h }, p)

/-! ## Package `pac`: client info (client_info.go) -/

/-- The loop of `ndr.ReadUTF16String` that reads the `n` code units still to
read, one `ReadUint16` each. -/
def ndr.ReadUTF16String.loop (b : Bytes) (e : ByteOrder) : Nat → Nat → Read (List Nat)
  | 0, p => .ok ([], p)
  | n + 1, p =>
    match ndr.ReadUint16 b p e with
    | .error f => .error f
    | .ok (v, p) =>
      match ndr.ReadUTF16String.loop b e n p with
      | .error f => .error f
      | .ok (vs, p) => .ok (v :: vs, p)

/-- Modelled from the spec: `ndr.ReadUTF16String`: `n / 2` code units, each read
as a uint16 and taken as one character. The string is kept as the list of its
code units. -/
def ndr.ReadUTF16String (n : Nat) (b : Bytes) (p : Nat) (e : ByteOrder) : Read (List Nat) :=
  ndr.ReadUTF16String.loop b e (n / 2) p

/-- Go `pac.ClientInfo`; `Name` is kept as the list of its UTF-16 code units. -/
structure ClientInfo where
  ClientID : FileTime
  NameLength : Nat
  Name : List Nat
deriving DecidableEq, Repr

/-- Go `ClientInfo.Unmarshal`: the struct as the call leaves it when it returns
`nil`, or the error (a panic included). -/
def ClientInfo.Unmarshal (b : Bytes) : Except Failure ClientInfo :=
  match ReadFileTime b 0 .LittleEndian with
  | .error f => .error f
  | .ok (clientID, p) =>
    match ndr.ReadUint16 b p .LittleEndian with
    | .error f => .error f
    | .ok (nameLength, p) =>
      if p > b.length then .error (.panic "slice bounds out of range")
      else if (b.drop p).length < nameLength then
        .error (.malformed "PAC ClientInfo length truncated" [])
      else
        match ndr.ReadUTF16String nameLength b p .LittleEndian with
        | .error f => .error f
        | .ok (name, p) =>
          if b.length ≥ p ∧ (b.drop p).any (fun v => v ≠ 0) then
            .error (.malformed "non-zero padding left over at end of data stream" [])
          else
            .ok { ClientID := clientID, NameLength := nameLength, Name := name }

/-- A client info buffer: the FILETIME of May 2017, name length 6, the name
"bob" in UTF-16LE and two bytes of zero padding. -/
def clientInfoBytes : Bytes :=
  [0xfc, 0xd5, 0xe6, 0xa4, 0x81, 0xc6, 0xd2, 0x01, 6, 0, 0x62, 0, 0x6f, 0, 0x62, 0, 0, 0]

/-! ## Package `pac`: credentials info (credentials_info.go) -/

/-- Zero value `RPCUnicodeString{}`. -/
def RPCUnicodeString.zero : RPCUnicodeString :=
  { Length := 0, MaximumLength := 0, BufferPrt := 0, Value := [] }

/-- Go `ReadRPCUnicodeString` with everything the call leaves behind: the
value returned, the error returned and the cursor `*p` afterwards (a run-time
panic is the outer error). With an error the value is `RPCUnicodeString{}` and
the cursor stands after the two uint16. -/
def ReadRPCUnicodeString.state (b : Bytes) (p : Nat) (e : ByteOrder) :
    Except Failure (RPCUnicodeString × Option Failure × Nat) :=
  match ndr.ReadUint16 b p e with
  | .error f => .error f
  | .ok (l, p) =>
    match ndr.ReadUint16 b p e with
    | .error f => .error f
    | .ok (ml, p) =>
      if ml < l ∨ l % 2 ≠ 0 ∨ ml % 2 ≠ 0 then
        .ok (RPCUnicodeString.zero,
          some (.malformed "Invalid data for RPC_UNICODE_STRING" []), p)
      else
        match ndr.ReadUint32 b p e with
        | .error f => .error f
        | .ok (ptr, p) =>
          .ok ({ Length := l, MaximumLength := ml, BufferPrt := ptr, Value := [] }, none, p)

/-- Go `pac.SECPKGSupplementalCred`. -/
structure SECPKGSupplementalCred where
  PackageName : RPCUnicodeString
  CredentialSize : Nat
  Credentials : List Nat
deriving DecidableEq, Repr

/-- Go `pac.CredentialData`. -/
structure CredentialData where
  CredentialCount : Nat
  Credentials : List SECPKGSupplementalCred
deriving DecidableEq, Repr

/-- Zero value `CredentialData{}`. -/
def CredentialData.zero : CredentialData :=
  { CredentialCount := 0, Credentials := [] }

/-- The loop of `ReadSECPKGSupplementalCred` over the `n` bytes still to read. -/
def ReadSECPKGSupplementalCred.loop (b : Bytes) : Nat → Nat → Read (List Nat)
  | 0, p => .ok ([], p)
  | n + 1, p =>
    match ndr.ReadUint8 b p with
    | .error f => .error f
    | .ok (v, p) =>
      match ReadSECPKGSupplementalCred.loop b n p with
      | .error f => .error f
      | .ok (vs, p) => .ok (v :: vs, p)

/-- Go `ReadSECPKGSupplementalCred`. The error of `ReadRPCUnicodeString` is
assigned to `_`. -/
def ReadSECPKGSupplementalCred (b : Bytes) (p : Nat) (e : ByteOrder) :
    Read SECPKGSupplementalCred :=
  match ReadRPCUnicodeString.state b p e with
  | .error f => .error f
  | .ok (n, _, p) =>
    match ndr.ReadUint32 b p e with
    | .error f => .error f
    | .ok (cs, p) =>
      match ReadSECPKGSupplementalCred.loop b cs p with
      | .error f => .error f
      | .ok (c, p) => .ok ({ PackageName := n, CredentialSize := cs, Credentials := c }, p)

/-- The loop of `ReadPACCredentialData` over the `n` credentials still to read. -/
def ReadPACCredentialData.loop (b : Bytes) (e : ByteOrder) :
    Nat → Nat → Read (List SECPKGSupplementalCred)
  | 0, p => .ok ([], p)
  | n + 1, p =>
    match ReadSECPKGSupplementalCred b p e with
    | .error f => .error f
    | .ok (v, p) =>
      match ReadPACCredentialData.loop b e n p with
      | .error f => .error f
      | .ok (vs, p) => .ok (v :: vs, p)

/-- Go `ReadPACCredentialData`. It has no error result. -/
def ReadPACCredentialData (b : Bytes) (p : Nat) (e : ByteOrder) : Read CredentialData :=
  match ndr.ReadUint32 b p e with
  | .error f => .error f
  | .ok (c, p) =>
    match ReadPACCredentialData.loop b e c p with
    | .error f => .error f
    | .ok (cr, p) => .ok ({ CredentialCount := c, Credentials := cr }, p)

/-- Go `pac.CredentialsInfo`. -/
structure CredentialsInfo where
  Version : Nat
  EType : Nat
  PACCredentialDataEncrypted : Bytes
  PACCredentialData : CredentialData
deriving DecidableEq, Repr

/-- Modelled from the spec: the constant `keyusage.KERB_NON_KERB_SALT` (package
`iana/keyusage` is not among the sources), with its value in MS-PAC. -/
def KERB_NON_KERB_SALT : Int := 16

/-- Go conversion `int32(x)` of a `uint32`. -/
def toInt32 (x : Nat) : Int :=
  if x % 2 ^ 32 < 2 ^ 31 then (x % 2 ^ 32 : Nat) else ((x % 2 ^ 32 : Nat) : Int) - 2 ^ 32

/-- Go `fmt` verb `%d` on a signed integer. -/
def intDecimal (i : Int) : Bytes :=
  if i < 0 then ascii "-" ++ decimal (-i).toNat else decimal i.toNat

/-- Arguments of one call of `crypto.DecryptMessage`. -/
structure DecryptCall where
  ciphertext : Bytes
  key : EncryptionKey
  usage : Int
deriving DecidableEq, Repr

/-- Outcome of `CredentialsInfo.Unmarshal` and `CredentialsInfo.DecryptEncPart`:
the error returned, the struct afterwards and the calls made to
`crypto.DecryptMessage`. -/
structure CredentialsResult where
  err : Option GoError
  c : CredentialsInfo
  decrypted : List DecryptCall
deriving DecidableEq, Repr

section Credentials

/- `crypto.DecryptMessage` is not among the sources: it is a parameter, its
error given by its message. -/
variable (DecryptMessage : Bytes → EncryptionKey → Int → Except String Bytes)

/-- Go `CredentialsInfo.DecryptEncPart` (a run-time panic is the outer error). -/
def CredentialsInfo.DecryptEncPart (c : CredentialsInfo) (k : EncryptionKey) (e : ByteOrder) :
    Except Failure CredentialsResult :=
  if k.KeyType ≠ toInt32 c.EType then
    .ok ⟨some (.errorf0
      "key provided is not the correct type. Type needed: %d, type provided: %d"
      [decimal c.EType, intDecimal k.KeyType]), c, []⟩
  else
    match DecryptMessage c.PACCredentialDataEncrypted k KERB_NON_KERB_SALT with
    | .error err =>
      .ok ⟨some (.other err), c, [⟨c.PACCredentialDataEncrypted, k, KERB_NON_KERB_SALT⟩]⟩
    | .ok pt =>
      match ReadPACCredentialData pt 0 e with
      | .error f => .error f
      | .ok (cd, _) =>
        .ok ⟨none, { c with PACCredentialData := cd },
          [⟨c.PACCredentialDataEncrypted, k, KERB_NON_KERB_SALT⟩]⟩

/-- Go `CredentialsInfo.Unmarshal` on the receiver `c` (a run-time panic is the
outer error). -/
def CredentialsInfo.Unmarshal (c : CredentialsInfo) (b : Bytes) (k : EncryptionKey) :
    Except Failure CredentialsResult :=
  match ndr.ReadUint32 b 0 .LittleEndian with
  | .error f => .error f
  | .ok (version, p) =>
    if version ≠ 0 then
      .ok ⟨some (.other "credentials info version is not zero"),
        { c with Version := version }, []⟩
    else
      match ndr.ReadUint32 b p .LittleEndian with
      | .error f => .error f
      | .ok (etype, p) =>
        match ndr.ReadBytes b p (b.length - p) .LittleEndian with
        | .error f => .error f
        | .ok (enc, _) =>
          match CredentialsInfo.DecryptEncPart DecryptMessage
              { c with Version := version, EType := etype, PACCredentialDataEncrypted := enc }
              k .LittleEndian with
          | .error f => .error f
          | .ok r =>
            match r.err with
            | some err =>
              .ok ⟨some (.errorf1 "error decrypting PAC Credentials Data: %v" [] err),
                r.c, r.decrypted⟩
            | none => .ok ⟨none, r.c, r.decrypted⟩

end Credentials

/-- Zero value `CredentialsInfo{}`. -/
def CredentialsInfo.zero : CredentialsInfo :=
  { Version := 0, EType := 0, PACCredentialDataEncrypted := [],
    PACCredentialData := CredentialData.zero }

/-- A credential data plaintext: count 1, then a string header with length 3
and maximum length 2, then credential size 2 and the two bytes. -/
def credentialPlaintext : Bytes :=
  [1, 0, 0, 0, 3, 0, 2, 0, 2, 0, 0, 0, 0xaa, 0xbb]

/-- A credentials info buffer: version 0, etype 18, then `credentialPlaintext`
in the place of the ciphertext. -/
def credentialsInfoBytes : Bytes :=
  [0, 0, 0, 0, 18, 0, 0, 0] ++ credentialPlaintext

/-- A credentials info buffer with version 1. -/
def credentialsInfoV1 : Bytes :=
  [1, 0, 0, 0, 18, 0, 0, 0] ++ credentialPlaintext

/-- A stand-in for `crypto.DecryptMessage` that returns the ciphertext. -/
def decryptIdentity : Bytes → EncryptionKey → Int → Except String Bytes :=
  fun ct _ _ => .ok ct

/-- A key of type 18. -/
def key18 : EncryptionKey := ⟨18, [1, 2, 3, 4]⟩

/-- A key of type 17. -/
def key17 : EncryptionKey := ⟨17, [1, 2, 3, 4]⟩

/-! ### A network whose first endpoint does not resolve -/

/-- Two configured endpoints, in order. -/
def kdcsTwo : GoMap Int Bytes :=
  [(1, ascii "gone.example.com:88"), (2, ascii "kdc.example.com:88")]

/-- The network of `scenarioNet` with the two endpoints of `kdcsTwo`: the name
of the first does not resolve, the second resolves and connects. -/
def unresolvedFirstNet : KDCNet :=
  { scenarioNet replyASRep replyASRep with
    GetKDCs := fun _ => .ok (2, kdcsTwo)
    ResolveUDPAddr := fun address =>
      if address = ascii "gone.example.com:88" then .error "no such host" else .ok address
    ResolveTCPAddr := fun address =>
      if address = ascii "gone.example.com:88" then .error "no such host" else .ok address }

/-! ### Sequences of calls on the replay cache -/

/-- One call on the cache: `AddEntry`, `IsReplay` or `ClearOldEntries`, each
with its clock reading. -/
inductive CacheOp where
  | addEntry (now : Time) (sname : PrincipalName) (a : Authenticator)
  | isReplay (now : Time) (sname : PrincipalName) (a : Authenticator)
  | clearOldEntries (now : Time) (d : Duration)
deriving DecidableEq, Repr

/-- Cache after one call. -/
def CacheOp.run (GetPrincipalNameString : PrincipalName → Bytes) (c : Cache) :
    CacheOp → Cache
  | .addEntry now sname a => Cache.AddEntry GetPrincipalNameString c now sname a
  | .isReplay now sname a => (Cache.IsReplay GetPrincipalNameString c now sname a).2
  | .clearOldEntries now d => Cache.ClearOldEntries c now d

/-- Cache after a sequence of calls, first call first. -/
def runOps (GetPrincipalNameString : PrincipalName → Bytes) (c : Cache)
    (ops : List CacheOp) : Cache :=
  ops.foldl (CacheOp.run GetPrincipalNameString) c

/-- The state invariant of the cache: every client record present has a
non-empty replay map, and every replay entry is stored under its own `CTime`. -/
def Cache.Invariant (c : Cache) : Prop :=
  ∀ (k : Bytes) (ce : clientEntries), GoMap.get c.Entries k = some ce →
    ce.ReplayMap.length ≠ 0 ∧
    (∃ t e, GoMap.get ce.ReplayMap t = some e) ∧
    ∀ (t : Time) (e : replayCacheEntry), GoMap.get ce.ReplayMap t = some e → e.CTime = t

/-- A sequence of calls: `alice` is entered at 1000, `bob` asks at 2000, the
entries older than 1500 are cleared at 3000, `alice` is entered again at 3500. -/
def cacheOpsExample : List CacheOp :=
  [.addEntry 1000 svcHTTP authAlice, .isReplay 2000 svcHost authBob,
   .clearOldEntries 3000 1500, .addEntry 3500 svcHTTP authAliceNext]

/-! ## Package `messages`: sequences of tickets (Ticket.go) -/

/-- Modelled from the spec: Go `asn1.RawValue` (package `asn1` is not among the
sources). -/
structure RawValue where
  Class : Nat
  Tag : Nat
  IsCompound : Bool
  Bytes : Gokrb5.Bytes
  FullBytes : Gokrb5.Bytes
deriving DecidableEq, Repr

/-- Modelled from the spec: `asn1.UnmarshalWithParams(b, &raw, params)` for a
`*asn1.RawValue`: the next element is taken as it stands, whatever its tag;
`FullBytes` are its identifier, length and contents octets. The value is the
raw value and the bytes after the element. -/
def asn1UnmarshalRawValue (b : Bytes) : Parse RawValue :=
  match b with
  | [] => .error "sequence truncated"
  | _ :: _ =>
    match parseTagAndLength b with
    | .error e => .error e
    | .ok (t, rest) =>
      if t.length > rest.length then .error "data truncated"
      else
        .ok (⟨t.cls, t.tag, t.isCompound, rest.take t.length,
              b.take (b.length - rest.length + t.length)⟩, rest.drop t.length)

/-- Modelled from the spec: `asn1tools.MarshalLengthBytes` (package `asn1tools`
is not among the sources): the "length-bytes" of the sequence, the DER length
octets of `l`. -/
def MarshalLengthBytes (l : Nat) : Bytes :=
  if l ≤ 127 then [Fin.ofNat l]
  else Fin.ofNat (128 + lengthLength l) :: marshalLength (lengthLength l) l

/-- Modelled from the spec: `asn1tools.GetNumberBytesInLengthHeader` (package
`asn1tools` is not among the sources): the number of length octets, "computed
from the length octet pattern" of the second byte; the error is the run-time
panic of indexing a slice of fewer than two bytes. -/
def GetNumberBytesInLengthHeader (b : Bytes) : Except String Nat :=
  if b.length < 2 then .error "index out of range"
  else if byteAt b 1 ≤ 127 then .ok 1
  else .ok (1 + byteAt b 1 - 128)

/-- Go constant `asn1.TagSequence`. -/
def TagSequence : Nat := 16

/-- What `UnmarshalTicketsSequence` returns: the tickets and a nil error, or
nil and an error; or a run-time panic. -/
inductive SequenceResult where
  | tickets (tkts : List Ticket)
  | failed (err : GoError)
  | panic (msg : String)
deriving DecidableEq, Repr

section TicketSequence

variable (marshalEncTicketPart : EncTicketPart → Except String Bytes)
variable (parseEncTicketPart : EncTicketPart → Bytes → Except String EncTicketPart)

/-- The loop `for p < len(b)` of `UnmarshalTicketsSequence`, for at most `fuel`
rounds: `none` when the rounds are used up before the loop ends. -/
def UnmarshalTicketsSequence.loop (b : Bytes) : Nat → Nat → List Ticket → Option SequenceResult
  | 0, p, tkts => if p < b.length then none else some (.tickets tkts)
  | fuel + 1, p, tkts =>
    if p < b.length then
      match asn1UnmarshalRawValue (b.drop p) with
      | .error e =>
        some (.failed (.errorf1
          "unmarshaling sequence of tickets failed geting length of ticket: %v" []
          (.other e)))
      | .ok (raw, _) =>
        match UnmarshalTicket parseEncTicketPart (b.drop p) with
        | .error e =>
          some (.failed (.errorf1 "unmarshaling sequence of tickets failed: %v" []
            (.other e)))
        | .ok t =>
          UnmarshalTicketsSequence.loop b fuel (p + raw.FullBytes.length) (tkts ++ [t])
    else some (.tickets tkts)

/-- Go `UnmarshalTicketsSequence`, with as many rounds as `in.Bytes` has bytes
(`none` if these were not enough). The closing call of `MarshalTicketSequence`,
whose results are dropped, is left out. -/
def UnmarshalTicketsSequence (raw : RawValue) : Option SequenceResult :=
  match GetNumberBytesInLengthHeader raw.Bytes with
  | .error msg => some (.panic msg)
  | .ok n => UnmarshalTicketsSequence.loop parseEncTicketPart raw.Bytes raw.Bytes.length (1 + n) []

/-- The loop of `MarshalTicketSequence` over the tickets that are left, `i` of
them being done and `btkts` holding their bytes. -/
def MarshalTicketSequence.loop : List Ticket → Nat → Bytes → Except GoError Bytes
  | [], _, btkts => .ok btkts
  | t :: tkts, i, btkts =>
    match Ticket.Marshal marshalEncTicketPart t with
    | .error _ =>
      .error (.errorf0 "error marshaling ticket number %d in seqence of tickets"
        [decimal (i + 1)])
    | .ok b => MarshalTicketSequence.loop tkts (i + 1) (btkts ++ b)

/-- Go `MarshalTicketSequence`: the raw value and the error. -/
def MarshalTicketSequence (tkts : List Ticket) : RawValue × Option GoError :=
  let raw : RawValue := ⟨2, 0, true, [], []⟩
  if tkts.length < 1 then (raw, none)
  else
    match MarshalTicketSequence.loop marshalEncTicketPart tkts 0 [] with
    | .error err => (raw, some err)
    | .ok btkts =>
      ({ raw with Bytes := Fin.ofNat (32 + TagSequence)
          :: (MarshalLengthBytes btkts.length ++ btkts) }, none)

end TicketSequence

/-! # Theorems -/

/-! ### Facts about maps -/

theorem GoMap.get_set_same {K V : Type} [DecidableEq K] (m : GoMap K V) (k : K) (v : V) :
    GoMap.get (GoMap.set m k v) k = some v := by
  simp [GoMap.get, GoMap.set]

theorem GoMap.get_delete_ne {K V : Type} [DecidableEq K] (m : GoMap K V) (k k' : K)
    (h : k' ≠ k) : GoMap.get (GoMap.delete m k) k' = GoMap.get m k' := by
  induction m with
  | nil => rfl
  | cons kv m ih =>
    by_cases h1 : kv.1 = k
    · have h2 : kv.1 ≠ k' := fun e => h (e.symm.trans h1)
      rw [GoMap.delete, if_pos h1, GoMap.get, if_neg h2, ih]
    · rw [GoMap.delete, if_neg h1]
      by_cases h3 : kv.1 = k'
      · rw [GoMap.get, if_pos h3, GoMap.get, if_pos h3]
      · rw [GoMap.get, if_neg h3, GoMap.get, if_neg h3, ih]

theorem GoMap.get_set_ne {K V : Type} [DecidableEq K] (m : GoMap K V) (k k' : K) (v : V)
    (h : k' ≠ k) : GoMap.get (GoMap.set m k v) k' = GoMap.get m k' := by
  have h2 : k ≠ k' := fun e => h e.symm
  simp [GoMap.get, GoMap.set, h2, GoMap.get_delete_ne m k k' h]

/-! ### Replay cache -/

theorem Cache.getClientEntry_AddEntry_same (key : PrincipalName → Bytes) (c : Cache)
    (now : Time) (sname : PrincipalName) (a : Authenticator) :
    Cache.getClientEntry key (Cache.AddEntry key c now sname a) a.CName (clientTime a)
      = some ⟨now, sname, clientTime a⟩ := by
  unfold Cache.AddEntry
  cases h : Cache.getClientEntries key c a.CName <;>
    simp [Cache.getClientEntry, Cache.getClientEntries, GoMap.get_set_same, GoMap.get]

theorem Cache.getClientEntry_AddEntry_other (key : PrincipalName → Bytes) (c : Cache)
    (now : Time) (sname : PrincipalName) (a : Authenticator) (cname : PrincipalName)
    (t : Time) (h : key cname = key a.CName → t ≠ clientTime a) :
    Cache.getClientEntry key (Cache.AddEntry key c now sname a) cname t
      = Cache.getClientEntry key c cname t := by
  unfold Cache.AddEntry
  by_cases hk : key cname = key a.CName
  · have ht := h hk
    cases hc : Cache.getClientEntries key c a.CName with
    | none =>
      have hc' : GoMap.get c.Entries (key a.CName) = none := hc
      simp only [Cache.getClientEntry, Cache.getClientEntries, hk, GoMap.get_set_same, hc']
      simp [GoMap.get, Ne.symm ht]
    | some ce =>
      have hc' : GoMap.get c.Entries (key a.CName) = some ce := hc
      simp only [Cache.getClientEntry, Cache.getClientEntries, hk, GoMap.get_set_same, hc']
      exact GoMap.get_set_ne _ _ _ _ ht
  · cases hc : Cache.getClientEntries key c a.CName <;>
      simp only [Cache.getClientEntry, Cache.getClientEntries, GoMap.get_set_ne _ _ _ _ hk]

theorem Cache.records_AddEntry (key : PrincipalName → Bytes) (c : Cache) (now : Time)
    (sname : PrincipalName) (a : Authenticator) :
    Cache.records key (Cache.AddEntry key c now sname a) sname a :=
  ⟨_, Cache.getClientEntry_AddEntry_same key c now sname a, rfl⟩

theorem Cache.IsReplay_of_records (key : PrincipalName → Bytes) (c : Cache) (now : Time)
    (sname : PrincipalName) (a : Authenticator) (h : Cache.records key c sname a) :
    Cache.IsReplay key c now sname a = (true, c) := by
  obtain ⟨e, he, hs⟩ := h
  simp [Cache.IsReplay, he, PrincipalName.Equal, hs]

theorem Cache.IsReplay_cases (key : PrincipalName → Bytes) (c : Cache) (now : Time)
    (sname : PrincipalName) (a : Authenticator) :
    Cache.IsReplay key c now sname a = (false, Cache.AddEntry key c now sname a) ∨
    (Cache.IsReplay key c now sname a = (true, c) ∧
      ∃ e, Cache.getClientEntry key c a.CName (clientTime a) = some e ∧
        e.SName.Equal sname = true) := by
  cases he : Cache.getClientEntry key c a.CName (clientTime a) with
  | none => left; simp [Cache.IsReplay, he]
  | some e =>
    by_cases hs : e.SName.Equal sname = true
    · right; exact ⟨by simp [Cache.IsReplay, he, hs], e, rfl, hs⟩
    · left; simp [Cache.IsReplay, he, hs]

theorem Cache.records_of_IsReplay (key : PrincipalName → Bytes) (c : Cache) (now : Time)
    (sname : PrincipalName) (a : Authenticator) :
    Cache.records key (Cache.IsReplay key c now sname a).2 sname a := by
  rcases Cache.IsReplay_cases key c now sname a with h | ⟨h, e, he, hs⟩
  · rw [h]; exact Cache.records_AddEntry key c now sname a
  · rw [h]; exact ⟨e, he, by simpa [PrincipalName.Equal] using hs⟩

theorem Cache.records_run (key : PrincipalName → Bytes) (c : Cache) (sname : PrincipalName)
    (a : Authenticator) (call : CacheCall) (h : Cache.records key c sname a)
    (hc : ¬ CacheCall.clashes key sname a call) :
    Cache.records key (CacheCall.run key c call) sname a := by
  have add : ∀ now' sname' a',
      ¬ (key a'.CName = key a.CName ∧ clientTime a' = clientTime a ∧
          sname'.NameString ≠ sname.NameString) →
      Cache.records key (Cache.AddEntry key c now' sname' a') sname a := by
    intro now' sname' a' hn
    by_cases hsame : key a.CName = key a'.CName ∧ clientTime a = clientTime a'
    · have hs : sname'.NameString = sname.NameString := by
        by_contra hne
        exact hn ⟨hsame.1.symm, hsame.2.symm, hne⟩
      refine ⟨⟨now', sname', clientTime a'⟩, ?_, hs⟩
      have := Cache.getClientEntry_AddEntry_same key c now' sname' a'
      unfold Cache.getClientEntry Cache.getClientEntries at this ⊢
      rw [hsame.1, hsame.2]
      exact this
    · obtain ⟨e, he, hs⟩ := h
      refine ⟨e, ?_, hs⟩
      rw [Cache.getClientEntry_AddEntry_other key c now' sname' a' a.CName (clientTime a)
        (fun hk ht => hsame ⟨hk, ht⟩)]
      exact he
  cases call with
  | addEntry now' sname' a' => exact add now' sname' a' hc
  | isReplay now' sname' a' =>
    show Cache.records key (Cache.IsReplay key c now' sname' a').2 sname a
    rcases Cache.IsReplay_cases key c now' sname' a' with h' | ⟨h', _⟩
    · rw [h']; exact add now' sname' a' hc
    · rw [h']; exact h

theorem Cache.records_runCalls (key : PrincipalName → Bytes) (sname : PrincipalName)
    (a : Authenticator) (calls : List CacheCall) :
    ∀ c : Cache, Cache.records key c sname a →
      (∀ call ∈ calls, ¬ CacheCall.clashes key sname a call) →
      Cache.records key (runCalls key c calls) sname a := by
  induction calls with
  | nil => intro c h _; exact h
  | cons call rest ih =>
    intro c h hc
    exact ih _ (Cache.records_run key c sname a call h (hc call (List.mem_cons_self _ _)))
      (fun call' hm => hc call' (List.mem_cons_of_mem _ hm))

/-- C1: from any cache state with no entry for `(a.CName, a.CTime + a.Cusec µs)`,
`IsReplay(sname, a)` returns false and the `IsReplay(sname, a)` that follows
returns true. -/
theorem C1_IsReplay_false_then_true (key : PrincipalName → Bytes) (c : Cache)
    (now now' : Time) (sname : PrincipalName) (a : Authenticator)
    (h : Cache.getClientEntry key c a.CName (clientTime a) = none) :
    (Cache.IsReplay key c now sname a).1 = false ∧
    (Cache.IsReplay key (Cache.IsReplay key c now sname a).2 now' sname a).1 = true := by
  constructor
  · simp [Cache.IsReplay, h]
  · rw [Cache.IsReplay_of_records key _ now' sname a
      (Cache.records_of_IsReplay key c now sname a)]

/-- C1 at scenario S5: on the fresh cache, `alice` presenting to
`HTTP/web.example.com` is not a replay the first time and is one the second. -/
theorem C1_IsReplay_false_then_true_witness :
    Cache.getClientEntry nameKey Cache.empty authAlice.CName (clientTime authAlice) = none ∧
    (Cache.IsReplay nameKey Cache.empty 100 svcHTTP authAlice).1 = false ∧
    (Cache.IsReplay nameKey (Cache.IsReplay nameKey Cache.empty 100 svcHTTP authAlice).2
      101 svcHTTP authAlice).1 = true :=
  ⟨rfl, C1_IsReplay_false_then_true nameKey Cache.empty 100 101 svcHTTP authAlice rfl⟩

/-- C2, as stated, fails: after the accepted `IsReplay(HTTP/…, a)`, an
intervening `IsReplay(host/…, a)` (other arguments: another service name)
overwrites the one entry kept for `(alice, ctime)`, and the repeated
`IsReplay(HTTP/…, a)` returns false. -/
theorem C2_counterexample :
    (Cache.IsReplay nameKey Cache.empty 100 svcHTTP authAlice).1 = false ∧
    (svcHost, authAlice) ≠ (svcHTTP, authAlice) ∧
    (Cache.IsReplay nameKey
      (runCalls nameKey (Cache.IsReplay nameKey Cache.empty 100 svcHTTP authAlice).2
        [CacheCall.isReplay 101 svcHost authAlice])
      102 svcHTTP authAlice).1 = false := by
  decide

/-- C2, amended: once `IsReplay(sname, a)` has returned false, a later
`IsReplay(sname, a)` returns true after every sequence of intervening
`IsReplay` and `AddEntry` calls none of which presents the same client record
and the same `ctime + cusec` under a different service name. -/
theorem C2_entry_persists (key : PrincipalName → Bytes) (c : Cache) (now now' : Time)
    (sname : PrincipalName) (a : Authenticator) (calls : List CacheCall)
    (_hfirst : (Cache.IsReplay key c now sname a).1 = false)
    (hcalls : ∀ call ∈ calls, ¬ CacheCall.clashes key sname a call) :
    (Cache.IsReplay key (runCalls key (Cache.IsReplay key c now sname a).2 calls)
      now' sname a).1 = true := by
  rw [Cache.IsReplay_of_records key _ now' sname a
    (Cache.records_runCalls key sname a calls _
      (Cache.records_of_IsReplay key c now sname a) hcalls)]

/-- C2 (amended) on a run: `alice` is accepted for `HTTP/…`, then `bob`
presents to `host/…` and `alice`'s entry is added once more for `HTTP/…`;
the repeated `IsReplay(HTTP/…, alice)` is a replay. -/
theorem C2_entry_persists_witness :
    (Cache.IsReplay nameKey Cache.empty 100 svcHTTP authAlice).1 = false ∧
    (Cache.IsReplay nameKey
      (runCalls nameKey (Cache.IsReplay nameKey Cache.empty 100 svcHTTP authAlice).2
        [CacheCall.isReplay 101 svcHost authBob, CacheCall.addEntry 102 svcHTTP authAlice])
      103 svcHTTP authAlice).1 = true :=
  ⟨by decide,
    C2_entry_persists nameKey Cache.empty 100 103 svcHTTP authAlice
      [CacheCall.isReplay 101 svcHost authBob, CacheCall.addEntry 102 svcHTTP authAlice]
      (by decide)
      (fun call hm => by
        simp only [List.mem_cons, List.mem_singleton, List.not_mem_nil, or_false] at hm
        rcases hm with rfl | rfl <;> simp only [CacheCall.clashes] <;> decide)⟩

/-! ### KDC transport -/

theorem dialKDCUDP_loop_ne_krb (net : KDCNet) (kdcs : GoMap Int Bytes) (n : Nat) :
    ∀ (i : Int) (e : KRBError), dialKDCUDP.loop net kdcs n i ≠ .error (.krb e) := by
  induction n with
  | zero => intro i e h; simp [dialKDCUDP.loop] at h
  | succ n ih =>
    intro i e h
    unfold dialKDCUDP.loop at h
    split at h
    · simp at h
    · split at h
      · simp at h
      · exact ih _ _ h

theorem dialKDCTCP_loop_ne_krb (net : KDCNet) (kdcs : GoMap Int Bytes) (n : Nat) :
    ∀ (i : Int) (e : KRBError), dialKDCTCP.loop net kdcs n i ≠ .error (.krb e) := by
  induction n with
  | zero => intro i e h; simp [dialKDCTCP.loop] at h
  | succ n ih =>
    intro i e h
    unfold dialKDCTCP.loop at h
    split at h
    · simp at h
    · split at h
      · simp at h
      · exact ih _ _ h

theorem sendUDP_ne_krb (net : KDCNet) (conn : Conn) (b r : Bytes) (e : KRBError) :
    sendUDP net conn b ≠ (r, some (.krb e)) := by
  intro h
  unfold sendUDP at h
  split at h
  · simp at h
  · simp only at h
    split at h
    · simp at h
    · split at h <;> simp at h

theorem sendTCP_ne_krb (net : KDCNet) (conn : Conn) (b r : Bytes) (e : KRBError) :
    sendTCP net conn b ≠ (r, some (.krb e)) := by
  intro h
  unfold sendTCP at h
  split at h
  · simp at h
  · split at h
    · simp at h
    · simp only at h
      split at h
      · simp at h
      · split at h <;> simp at h

theorem checkForKRBError_eq (net : KDCNet) (b rb : Bytes) (err : Option GoError)
    (h : checkForKRBError net b = (rb, err)) :
    rb = b ∧ err = (net.UnmarshalKRBError b).map GoError.krb := by
  unfold checkForKRBError at h
  split at h <;> rename_i hk <;> simp only [Prod.mk.injEq] at h <;>
    exact ⟨h.1.symm, by rw [← h.2, hk]; rfl⟩

/-- A KRB-ERROR comes out of `sendKDCUDP` only as the decoding of the response. -/
theorem sendKDCUDP_krb (net : KDCNet) (b rb : Bytes) (e : KRBError)
    (h : sendKDCUDP net b = (rb, some (.krb e))) : net.UnmarshalKRBError rb = some e := by
  unfold sendKDCUDP at h
  split at h
  · simp at h
  · split at h
    · rename_i hd
      simp only [Prod.mk.injEq, Option.some.injEq] at h
      rw [h.2] at hd
      exact absurd hd (dialKDCUDP_loop_ne_krb net _ _ _ e)
    · split at h
      · rename_i hs
        simp only [Prod.mk.injEq, Option.some.injEq] at h
        rw [h.1, h.2] at hs
        exact absurd hs (sendUDP_ne_krb net _ _ _ e)
      · obtain ⟨h1, h2⟩ := checkForKRBError_eq net _ _ _ h
        subst h1
        cases hk : net.UnmarshalKRBError rb with
        | none => rw [hk] at h2; simp at h2
        | some e' => rw [hk] at h2; simp at h2; rw [h2]

/-- A KRB-ERROR comes out of `sendKDCTCP` only as the decoding of the response. -/
theorem sendKDCTCP_krb (net : KDCNet) (b rb : Bytes) (e : KRBError)
    (h : sendKDCTCP net b = (rb, some (.krb e))) : net.UnmarshalKRBError rb = some e := by
  unfold sendKDCTCP at h
  split at h
  · simp at h
  · split at h
    · rename_i hd
      simp only [Prod.mk.injEq, Option.some.injEq] at h
      rw [h.2] at hd
      exact absurd hd (dialKDCTCP_loop_ne_krb net _ _ _ e)
    · split at h
      · rename_i hs
        simp only [Prod.mk.injEq, Option.some.injEq] at h
        rw [h.2] at hs
        exact absurd hs (sendTCP_ne_krb net _ _ _ e)
      · obtain ⟨h1, h2⟩ := checkForKRBError_eq net _ _ _ h
        subst h1
        cases hk : net.UnmarshalKRBError rb with
        | none => rw [hk] at h2; simp at h2
        | some e' => rw [hk] at h2; simp at h2; rw [h2]

/-- A failed `sendKDCTCP` that is not a KRB-ERROR returns no bytes. -/
theorem sendKDCTCP_failure_bytes (net : KDCNet) (b rb : Bytes) (err : GoError)
    (h : sendKDCTCP net b = (rb, some err)) (hk : ∀ e, err ≠ .krb e) : rb = [] := by
  unfold sendKDCTCP at h
  split at h
  · simp only [Prod.mk.injEq] at h; exact h.1.symm
  · split at h
    · simp only [Prod.mk.injEq] at h; exact h.1.symm
    · split at h
      · simp only [Prod.mk.injEq] at h; exact h.1.symm
      · obtain ⟨_, h2⟩ := checkForKRBError_eq net _ _ _ h
        cases hu : net.UnmarshalKRBError _ with
        | none => rw [hu] at h2; simp at h2
        | some e' => rw [hu] at h2; simp at h2; exact absurd h2 (hk e')

theorem SendToKDC.tryTCP_attempts (net : KDCNet) (b : Bytes) (errudp : GoError) :
    (SendToKDC.tryTCP net b errudp).attempts = [.udp, .tcp] := by
  unfold SendToKDC.tryTCP
  split <;> rfl

/-- C3: when the attempt on the primary transport yields a response that
decodes as a KRB-ERROR `e`, `SendToKDC` returns `e` with the raw response
bytes after that single attempt, unless the primary is UDP and the code is
`KRB_ERR_RESPONSE_TOO_BIG`, in which case TCP is attempted as well. -/
theorem C3_krb_error_short_circuits (net : KDCNet) (limit : Int) (b rb : Bytes)
    (e : KRBError)
    (hprim : sendKDC net (primaryTransport limit b) b = (rb, some (.krb e))) :
    net.UnmarshalKRBError rb = some e ∧
    (¬ (primaryTransport limit b = .udp ∧ e.ErrorCode = KRB_ERR_RESPONSE_TOO_BIG) →
      SendToKDC net limit b = ⟨rb, some (.krb e), [primaryTransport limit b]⟩) ∧
    (primaryTransport limit b = .udp ∧ e.ErrorCode = KRB_ERR_RESPONSE_TOO_BIG →
      (SendToKDC net limit b).attempts = [.udp, .tcp]) := by
  unfold primaryTransport at hprim ⊢
  unfold SendToKDC
  by_cases h1 : limit = 1
  · simp only [h1, if_true, sendKDC] at hprim ⊢
    refine ⟨sendKDCTCP_krb net b rb e hprim, ?_, ?_⟩
    · intro _; rw [hprim]
    · intro h; simp at h
  · by_cases h2 : (b.length : Int) ≤ limit
    · simp only [h1, h2, if_true, if_false, sendKDC] at hprim ⊢
      refine ⟨sendKDCUDP_krb net b rb e hprim, ?_, ?_⟩
      · intro hn
        have hc : e.ErrorCode ≠ KRB_ERR_RESPONSE_TOO_BIG := fun hc => hn ⟨trivial, hc⟩
        rw [hprim]
        simp only [hc, ne_eq, not_false_eq_true, if_true]
      · intro hc
        rw [hprim]
        simp only [hc.2, ne_eq, not_true_eq_false, if_false]
        exact SendToKDC.tryTCP_attempts net b _
    · simp only [h1, h2, if_false, sendKDC] at hprim ⊢
      refine ⟨sendKDCTCP_krb net b rb e hprim, ?_, ?_⟩
      · intro _; rw [hprim]
      · intro h; simp at h

/-- C3 at scenario S4: limit 1300, a request of 100 bytes, UDP answers
`KDC_ERR_C_PRINCIPAL_UNKNOWN`: the KRB-ERROR is returned with the response
bytes and TCP is not attempted. -/
theorem C3_krb_error_short_circuits_witness :
    sendKDC (scenarioNet replyPrincipalUnknown replyASRep)
        (primaryTransport 1300 (requestOf 100)) (requestOf 100)
      = (replyPrincipalUnknown,
          some (.krb ⟨KDC_ERR_C_PRINCIPAL_UNKNOWN, ascii "EXAMPLE.COM",
            ⟨2, [ascii "krbtgt", ascii "EXAMPLE.COM"]⟩⟩)) ∧
    SendToKDC (scenarioNet replyPrincipalUnknown replyASRep) 1300 (requestOf 100)
      = ⟨replyPrincipalUnknown,
          some (.krb ⟨KDC_ERR_C_PRINCIPAL_UNKNOWN, ascii "EXAMPLE.COM",
            ⟨2, [ascii "krbtgt", ascii "EXAMPLE.COM"]⟩⟩), [.udp]⟩ :=
  ⟨by decide,
    (C3_krb_error_short_circuits (scenarioNet replyPrincipalUnknown replyASRep) 1300
      (requestOf 100) replyPrincipalUnknown _ (by decide)).2.1 (by decide)⟩

/-- C4 at the failing input: limit 1300, a request of 2000 bytes, the KDC
refuses the TCP connection and answers the AS-REP over UDP. `SendToKDC`
makes both attempts and returns a nil error with the empty bytes of the
failed TCP attempt, not the UDP response. -/
theorem C4_SendToKDC_loses_udp_response :
    sendKDCTCP (tcpRefusedNet replyASRep) (requestOf 2000)
      = ([], some (.errorf0 "error in getting a TCP connection to any of the KDCs" [])) ∧
    sendKDCUDP (tcpRefusedNet replyASRep) (requestOf 2000) = (replyASRep, none) ∧
    SendToKDC (tcpRefusedNet replyASRep) 1300 (requestOf 2000) = ⟨[], none, [.tcp, .udp]⟩ ∧
    (SendToKDC (tcpRefusedNet replyASRep) 1300 (requestOf 2000)).rb ≠ replyASRep := by
  have htcp : sendKDCTCP (tcpRefusedNet replyASRep) (requestOf 2000)
      = ([], some (.errorf0 "error in getting a TCP connection to any of the KDCs" [])) := by
    decide
  have hudp : sendKDCUDP (tcpRefusedNet replyASRep) (requestOf 2000) = (replyASRep, none) := by
    decide
  have hlen : ¬ ((requestOf 2000).length : Int) ≤ 1300 := by
    rw [requestOf, List.length_replicate]
    decide
  have hsend : SendToKDC (tcpRefusedNet replyASRep) 1300 (requestOf 2000)
      = ⟨[], none, [.tcp, .udp]⟩ := by
    unfold SendToKDC
    simp only [show ¬ ((1300 : Int) = 1) by decide, hlen, if_false, htcp, hudp]
  refine ⟨htcp, hudp, hsend, ?_⟩
  rw [hsend]
  decide

/-- The defect behind C4, for every input: in the TCP-first branch, after a
TCP failure that is not a KRB-ERROR and a successful UDP attempt, the bytes
returned are those of the TCP attempt, which are empty. -/
theorem SendToKDC_tcp_first_udp_success (net : KDCNet) (limit : Int) (b rbt r : Bytes)
    (errtcp : GoError) (h1 : limit ≠ 1) (hlen : ¬ (b.length : Int) ≤ limit)
    (htcp : sendKDCTCP net b = (rbt, some errtcp)) (hk : ∀ e, errtcp ≠ .krb e)
    (hudp : sendKDCUDP net b = (r, none)) :
    SendToKDC net limit b = ⟨[], none, [.tcp, .udp]⟩ := by
  have hb := sendKDCTCP_failure_bytes net b rbt errtcp htcp hk
  subst hb
  unfold SendToKDC
  simp only [h1, hlen, if_false, htcp, hudp]

/-- C5: with a limit other than 1 and a request of at most that many bytes,
a UDP attempt that fails with a transport error or with the KRB-ERROR
`KRB_ERR_RESPONSE_TOO_BIG` is followed by a TCP attempt, and when that one
succeeds with a response `r` that is no KRB-ERROR, `SendToKDC` returns `r`
and a nil error. -/
theorem C5_udp_failure_falls_back_to_tcp (net : KDCNet) (limit : Int) (b rbu r : Bytes)
    (errudp : GoError) (h1 : limit ≠ 1) (hlen : (b.length : Int) ≤ limit)
    (hudp : sendKDCUDP net b = (rbu, some errudp))
    (hkind : ∀ e, errudp = .krb e → e.ErrorCode = KRB_ERR_RESPONSE_TOO_BIG)
    (htcp : sendKDCTCP net b = (r, none)) :
    SendToKDC net limit b = ⟨r, none, [.udp, .tcp]⟩ := by
  unfold SendToKDC
  simp only [h1, hlen, if_true, if_false, hudp]
  cases errudp with
  | krb e =>
    simp only [hkind e rfl, ne_eq, not_true_eq_false, if_false, SendToKDC.tryTCP, htcp]
  | other _ => simp only [SendToKDC.tryTCP, htcp]
  | errorf0 _ _ => simp only [SendToKDC.tryTCP, htcp]
  | errorf1 _ _ _ => simp only [SendToKDC.tryTCP, htcp]
  | errorf2 _ _ _ => simp only [SendToKDC.tryTCP, htcp]

/-- C5 at scenario S3: limit 1300, a request of 100 bytes, UDP answers
`KRB_ERR_RESPONSE_TOO_BIG`, TCP answers the AS-REP: the AS-REP is returned
with a nil error. -/
theorem C5_udp_failure_falls_back_to_tcp_witness :
    SendToKDC (scenarioNet replyTooBig replyASRep) 1300 (requestOf 100)
      = ⟨replyASRep, none, [.udp, .tcp]⟩ :=
  C5_udp_failure_falls_back_to_tcp (scenarioNet replyTooBig replyASRep) 1300 (requestOf 100)
    replyTooBig replyASRep
    (.krb ⟨KRB_ERR_RESPONSE_TOO_BIG, ascii "EXAMPLE.COM",
      ⟨2, [ascii "krbtgt", ascii "EXAMPLE.COM"]⟩⟩)
    (by decide) (by decide) (by decide)
    (fun e he => by cases he; rfl) (by decide)

/-- C6: with `udp-preference-limit = 1`, for every request and every network,
`SendToKDC` makes exactly one attempt, on TCP, and returns the TCP response on
success, the KRB-ERROR with the response bytes when the response decodes as
one, and a communication error wrapping the TCP error otherwise. -/
theorem C6_limit_one_uses_tcp_only (net : KDCNet) (b : Bytes) :
    (SendToKDC net 1 b).attempts = [.tcp] ∧
    (∀ rb, sendKDCTCP net b = (rb, none) → SendToKDC net 1 b = ⟨rb, none, [.tcp]⟩) ∧
    (∀ rb e, sendKDCTCP net b = (rb, some (.krb e)) →
      net.UnmarshalKRBError rb = some e ∧
      SendToKDC net 1 b = ⟨rb, some (.krb e), [.tcp]⟩) ∧
    (∀ rb err, sendKDCTCP net b = (rb, some err) → (∀ e, err ≠ .krb e) →
      SendToKDC net 1 b
        = ⟨rb, some (.errorf1 "communication error with KDC via TCP: %v" [] err), [.tcp]⟩) := by
  refine ⟨?_, ?_, ?_, ?_⟩
  · unfold SendToKDC
    simp only [if_true]
    split <;> rfl
  · intro rb h
    unfold SendToKDC
    simp only [if_true, h]
  · intro rb e h
    refine ⟨sendKDCTCP_krb net b rb e h, ?_⟩
    unfold SendToKDC
    simp only [if_true, h]
  · intro rb err h hk
    unfold SendToKDC
    simp only [if_true, h]

/-! ### DER primitives -/

theorem byte_val_ofNat (x : Nat) : (Fin.ofNat x : Byte).val = x % 256 := rfl

theorem lengthLength_cases (n : Nat) (h128 : 128 ≤ n) (hn : n < 2 ^ 31) :
    (n < 256 ∧ lengthLength n = 1) ∨ (256 ≤ n ∧ n < 65536 ∧ lengthLength n = 2) ∨
    (65536 ≤ n ∧ n < 16777216 ∧ lengthLength n = 3) ∨
    (16777216 ≤ n ∧ lengthLength n = 4) := by
  have e : ∀ (f m : Nat), lengthLength.loop (f + 1) m
      = if m > 0 then 1 + lengthLength.loop f (m / 256) else 0 := fun _ _ => rfl
  unfold lengthLength
  by_cases h1 : n < 256
  · left
    refine ⟨h1, ?_⟩
    rw [e, if_pos (by omega), e, if_neg (by omega)]
  · by_cases h2 : n < 65536
    · right; left
      refine ⟨by omega, h2, ?_⟩
      rw [e, if_pos (by omega), e, if_pos (by omega), e, if_neg (by omega)]
    · by_cases h3 : n < 16777216
      · right; right; left
        refine ⟨by omega, h3, ?_⟩
        rw [e, if_pos (by omega), e, if_pos (by omega), e, if_pos (by omega), e,
          if_neg (by omega)]
      · right; right; right
        refine ⟨by omega, ?_⟩
        rw [e, if_pos (by omega), e, if_pos (by omega), e, if_pos (by omega), e,
          if_pos (by omega), e, if_neg (by omega)]

theorem parseLengthOctets_marshal (n : Nat) (rest : Bytes) (h128 : 128 ≤ n)
    (hn : n < 2 ^ 31) :
    1 ≤ lengthLength n ∧ lengthLength n ≤ 4 ∧
    parseLengthOctets (lengthLength n) 0 (marshalLength (lengthLength n) n ++ rest)
      = .ok (n, rest) := by
  rcases lengthLength_cases n h128 hn with ⟨h, e⟩ | ⟨h, h', e⟩ | ⟨h, h', e⟩ | ⟨h, e⟩
  · rw [e]
    refine ⟨by omega, by omega, ?_⟩
    simp only [marshalLength, parseLengthOctets, byte_val_ofNat, List.cons_append,
      List.nil_append]
    rw [if_neg (by omega), if_neg (by omega)]
    congr 2; omega
  · rw [e]
    refine ⟨by omega, by omega, ?_⟩
    simp only [marshalLength, parseLengthOctets, byte_val_ofNat, List.cons_append,
      List.nil_append]
    rw [if_neg (by omega), if_neg (by omega), if_neg (by omega), if_neg (by omega)]
    congr 2; omega
  · rw [e]
    refine ⟨by omega, by omega, ?_⟩
    simp only [marshalLength, parseLengthOctets, byte_val_ofNat, List.cons_append,
      List.nil_append]
    rw [if_neg (by omega), if_neg (by omega), if_neg (by omega), if_neg (by omega),
      if_neg (by omega), if_neg (by omega)]
    congr 2; omega
  · rw [e]
    refine ⟨by omega, by omega, ?_⟩
    simp only [marshalLength, parseLengthOctets, byte_val_ofNat, List.cons_append,
      List.nil_append]
    rw [if_neg (by omega), if_neg (by omega), if_neg (by omega), if_neg (by omega),
      if_neg (by omega), if_neg (by omega), if_neg (by omega), if_neg (by omega)]
    congr 2; omega

theorem parseTagAndLength_marshal (cls tag n : Nat) (isCompound : Bool) (rest : Bytes)
    (hcls : cls < 4) (htag : tag < 31) (hn : n < 2 ^ 31) :
    parseTagAndLength (marshalTagAndLength cls isCompound tag n ++ rest)
      = .ok (⟨cls, tag, n, isCompound⟩, rest) := by
  have hid : ∀ c : Nat, c ≤ 1 →
      (cls * 64 + c * 32 + tag) % 256 % 32 = tag ∧ (cls * 64 + c * 32 + tag) % 256 / 64 = cls ∧
      (cls * 64 + c * 32 + tag) % 256 / 32 % 2 = c := by
    intro c hc; omega
  have key : ∀ c : Nat, c ≤ 1 → ∀ (bytes : Bytes) (len : Nat) (rest' : Bytes),
      (match bytes with
        | [] => (.error "truncated tag or length" : Parse tagAndLength)
        | l :: r =>
          if l.val < 128 then
            .ok (⟨cls, tag, l.val, decide (c = 1)⟩, r)
          else if l.val % 128 = 0 then .error "indefinite length found (not DER)"
          else
            match parseLengthOctets (l.val % 128) 0 r with
            | .error e => .error e
            | .ok (length, r) =>
              if length < 128 then .error "non-minimal length"
              else .ok (⟨cls, tag, length, decide (c = 1)⟩, r)) = .ok (⟨cls, tag, len, decide (c = 1)⟩, rest') →
      parseTagAndLength ((Fin.ofNat (cls * 64 + c * 32 + tag) : Byte) :: bytes)
        = .ok (⟨cls, tag, len, decide (c = 1)⟩, rest') := by
    intro c hc bytes len rest' h
    obtain ⟨h1, h2, h3⟩ := hid c hc
    rw [parseTagAndLength.eq_def]
    simp only [byte_val_ofNat, h1, h2, h3]
    rw [if_neg (by omega)]
    exact h
  have body : ∀ c : Nat, c ≤ 1 →
      parseTagAndLength ((Fin.ofNat (cls * 64 + c * 32 + tag) : Byte) ::
        ((if n ≥ 128 then
          Fin.ofNat (128 + lengthLength n) :: marshalLength (lengthLength n) n
        else [Fin.ofNat n]) ++ rest)) = .ok (⟨cls, tag, n, decide (c = 1)⟩, rest) := by
    intro c hc
    apply key c hc
    by_cases h128 : n ≥ 128
    · rw [if_pos h128]
      obtain ⟨k1, k4, hp⟩ := parseLengthOctets_marshal n rest h128 hn
      simp only [List.cons_append, byte_val_ofNat]
      have e1 : (128 + lengthLength n) % 256 = 128 + lengthLength n := by omega
      have e2 : (128 + lengthLength n) % 128 = lengthLength n := by omega
      rw [e1, if_neg (by omega), e2, if_neg (by omega), hp]
      simp only
      rw [if_neg (by omega)]
    · rw [if_neg h128]
      simp only [List.singleton_append, byte_val_ofNat]
      have : n % 256 = n := by omega
      rw [this, if_pos (by omega)]
  cases isCompound with
  | false => simpa [marshalTagAndLength] using body 0 (by omega)
  | true => simpa [marshalTagAndLength] using body 1 (by omega)
theorem byteOfInt_val (x : Int) : ((byteOfInt x).val : Int) = x % 256 := by
  unfold byteOfInt
  rw [byte_val_ofNat]
  omega

theorem int64Length_cases (i : Int) (h : -(2 ^ 63) ≤ i ∧ i < 2 ^ 63) :
    (int64Length i = 1 ∧ -128 ≤ i ∧ i < 128) ∨
    (int64Length i = 2 ∧ -32768 ≤ i ∧ i < 32768 ∧ ¬ (-128 ≤ i ∧ i < 128)) ∨
    (int64Length i = 3 ∧ -8388608 ≤ i ∧ i < 8388608 ∧ ¬ (-32768 ≤ i ∧ i < 32768)) ∨
    (int64Length i = 4 ∧ -2147483648 ≤ i ∧ i < 2147483648 ∧ ¬ (-8388608 ≤ i ∧ i < 8388608)) ∨
    (int64Length i = 5 ∧ -549755813888 ≤ i ∧ i < 549755813888 ∧
      ¬ (-2147483648 ≤ i ∧ i < 2147483648)) ∨
    (int64Length i = 6 ∧ -140737488355328 ≤ i ∧ i < 140737488355328 ∧
      ¬ (-549755813888 ≤ i ∧ i < 549755813888)) ∨
    (int64Length i = 7 ∧ -36028797018963968 ≤ i ∧ i < 36028797018963968 ∧
      ¬ (-140737488355328 ≤ i ∧ i < 140737488355328)) ∨
    (int64Length i = 8 ∧ ¬ (-36028797018963968 ≤ i ∧ i < 36028797018963968)) := by
  obtain ⟨hl, hu⟩ := h
  norm_num at hl hu
  have e : ∀ (f : Nat) (j : Int), int64Length.loop (f + 1) j
      = if j > 127 ∨ j < -128 then 1 + int64Length.loop f (j / 256) else 1 := fun _ _ => rfl
  have e0 : ∀ j : Int, int64Length.loop 0 j = 1 := fun _ => rfl
  unfold int64Length
  by_cases h1 : -128 ≤ i ∧ i < 128
  · left
    refine ⟨?_, h1.1, h1.2⟩
    rw [e, if_neg (by omega)]
  by_cases h2 : -32768 ≤ i ∧ i < 32768
  · right; left
    refine ⟨?_, h2.1, h2.2, h1⟩
    rw [e, if_pos (by omega), e, if_neg (by omega)]
  by_cases h3 : -8388608 ≤ i ∧ i < 8388608
  · right; right; left
    refine ⟨?_, h3.1, h3.2, h2⟩
    rw [e, if_pos (by omega), e, if_pos (by omega), e, if_neg (by omega)]
  by_cases h4 : -2147483648 ≤ i ∧ i < 2147483648
  · right; right; right; left
    refine ⟨?_, h4.1, h4.2, h3⟩
    rw [e, if_pos (by omega), e, if_pos (by omega), e, if_pos (by omega), e, if_neg (by omega)]
  by_cases h5 : -549755813888 ≤ i ∧ i < 549755813888
  · right; right; right; right; left
    refine ⟨?_, h5.1, h5.2, h4⟩
    rw [e, if_pos (by omega), e, if_pos (by omega), e, if_pos (by omega), e, if_pos (by omega),
      e, if_neg (by omega)]
  by_cases h6 : -140737488355328 ≤ i ∧ i < 140737488355328
  · right; right; right; right; right; left
    refine ⟨?_, h6.1, h6.2, h5⟩
    rw [e, if_pos (by omega), e, if_pos (by omega), e, if_pos (by omega), e, if_pos (by omega),
      e, if_pos (by omega), e, if_neg (by omega)]
  by_cases h7 : -36028797018963968 ≤ i ∧ i < 36028797018963968
  · right; right; right; right; right; right; left
    refine ⟨?_, h7.1, h7.2, h6⟩
    rw [e, if_pos (by omega), e, if_pos (by omega), e, if_pos (by omega), e, if_pos (by omega),
      e, if_pos (by omega), e, if_pos (by omega), e, if_neg (by omega)]
  · right; right; right; right; right; right; right
    refine ⟨?_, h7⟩
    rw [e, if_pos (by omega), e, if_pos (by omega), e, if_pos (by omega), e, if_pos (by omega),
      e, if_pos (by omega), e, if_pos (by omega), e, if_pos (by omega), e0]
theorem parseInt64_int64Bytes_1 (i : Int) (h : -128 ≤ i ∧ i < 128) :
    parseInt64 (int64Bytes 1 i) = .ok i := by
  have h0 := byteOfInt_val (i / 256 ^ 0)
  simp only [int64Bytes, parseInt64, checkInteger, bytesToNat, List.length_cons,
    List.length_nil]
  generalize (byteOfInt (i / 256 ^ 0)).val = d0 at *
  norm_num at h0 ⊢
  split_ifs <;> first | omega | (simp only [Except.ok.injEq]; omega)

theorem parseInt64_int64Bytes_2 (i : Int) (h : -32768 ≤ i ∧ i < 32768 ∧ ¬ (-128 ≤ i ∧ i < 128)) :
    parseInt64 (int64Bytes 2 i) = .ok i := by
  have h0 := byteOfInt_val (i / 256 ^ 0)
  have h1 := byteOfInt_val (i / 256 ^ 1)
  simp only [int64Bytes, parseInt64, checkInteger, bytesToNat, List.length_cons,
    List.length_nil]
  generalize (byteOfInt (i / 256 ^ 0)).val = d0 at *
  generalize (byteOfInt (i / 256 ^ 1)).val = d1 at *
  norm_num at h0 h1 ⊢
  split_ifs <;> first | omega | (simp only [Except.ok.injEq]; omega)

theorem parseInt64_int64Bytes_3 (i : Int) (h : -8388608 ≤ i ∧ i < 8388608 ∧ ¬ (-32768 ≤ i ∧ i < 32768)) :
    parseInt64 (int64Bytes 3 i) = .ok i := by
  have h0 := byteOfInt_val (i / 256 ^ 0)
  have h1 := byteOfInt_val (i / 256 ^ 1)
  have h2 := byteOfInt_val (i / 256 ^ 2)
  simp only [int64Bytes, parseInt64, checkInteger, bytesToNat, List.length_cons,
    List.length_nil]
  generalize (byteOfInt (i / 256 ^ 0)).val = d0 at *
  generalize (byteOfInt (i / 256 ^ 1)).val = d1 at *
  generalize (byteOfInt (i / 256 ^ 2)).val = d2 at *
  norm_num at h0 h1 h2 ⊢
  split_ifs <;> first | omega | (simp only [Except.ok.injEq]; omega)

theorem parseInt64_int64Bytes_4 (i : Int) (h : -2147483648 ≤ i ∧ i < 2147483648 ∧ ¬ (-8388608 ≤ i ∧ i < 8388608)) :
    parseInt64 (int64Bytes 4 i) = .ok i := by
  have h0 := byteOfInt_val (i / 256 ^ 0)
  have h1 := byteOfInt_val (i / 256 ^ 1)
  have h2 := byteOfInt_val (i / 256 ^ 2)
  have h3 := byteOfInt_val (i / 256 ^ 3)
  simp only [int64Bytes, parseInt64, checkInteger, bytesToNat, List.length_cons,
    List.length_nil]
  generalize (byteOfInt (i / 256 ^ 0)).val = d0 at *
  generalize (byteOfInt (i / 256 ^ 1)).val = d1 at *
  generalize (byteOfInt (i / 256 ^ 2)).val = d2 at *
  generalize (byteOfInt (i / 256 ^ 3)).val = d3 at *
  norm_num at h0 h1 h2 h3 ⊢
  split_ifs <;> first | omega | (simp only [Except.ok.injEq]; omega)

theorem parseInt64_int64Bytes_5 (i : Int) (h : -549755813888 ≤ i ∧ i < 549755813888 ∧ ¬ (-2147483648 ≤ i ∧ i < 2147483648)) :
    parseInt64 (int64Bytes 5 i) = .ok i := by
  have h0 := byteOfInt_val (i / 256 ^ 0)
  have h1 := byteOfInt_val (i / 256 ^ 1)
  have h2 := byteOfInt_val (i / 256 ^ 2)
  have h3 := byteOfInt_val (i / 256 ^ 3)
  have h4 := byteOfInt_val (i / 256 ^ 4)
  simp only [int64Bytes, parseInt64, checkInteger, bytesToNat, List.length_cons,
    List.length_nil]
  generalize (byteOfInt (i / 256 ^ 0)).val = d0 at *
  generalize (byteOfInt (i / 256 ^ 1)).val = d1 at *
  generalize (byteOfInt (i / 256 ^ 2)).val = d2 at *
  generalize (byteOfInt (i / 256 ^ 3)).val = d3 at *
  generalize (byteOfInt (i / 256 ^ 4)).val = d4 at *
  norm_num at h0 h1 h2 h3 h4 ⊢
  split_ifs <;> first | omega | (simp only [Except.ok.injEq]; omega)

theorem parseInt64_int64Bytes_6 (i : Int) (h : -140737488355328 ≤ i ∧ i < 140737488355328 ∧ ¬ (-549755813888 ≤ i ∧ i < 549755813888)) :
    parseInt64 (int64Bytes 6 i) = .ok i := by
  have h0 := byteOfInt_val (i / 256 ^ 0)
  have h1 := byteOfInt_val (i / 256 ^ 1)
  have h2 := byteOfInt_val (i / 256 ^ 2)
  have h3 := byteOfInt_val (i / 256 ^ 3)
  have h4 := byteOfInt_val (i / 256 ^ 4)
  have h5 := byteOfInt_val (i / 256 ^ 5)
  simp only [int64Bytes, parseInt64, checkInteger, bytesToNat, List.length_cons,
    List.length_nil]
  generalize (byteOfInt (i / 256 ^ 0)).val = d0 at *
  generalize (byteOfInt (i / 256 ^ 1)).val = d1 at *
  generalize (byteOfInt (i / 256 ^ 2)).val = d2 at *
  generalize (byteOfInt (i / 256 ^ 3)).val = d3 at *
  generalize (byteOfInt (i / 256 ^ 4)).val = d4 at *
  generalize (byteOfInt (i / 256 ^ 5)).val = d5 at *
  norm_num at h0 h1 h2 h3 h4 h5 ⊢
  split_ifs <;> first | omega | (simp only [Except.ok.injEq]; omega)

theorem parseInt64_int64Bytes_7 (i : Int) (h : -36028797018963968 ≤ i ∧ i < 36028797018963968 ∧ ¬ (-140737488355328 ≤ i ∧ i < 140737488355328)) :
    parseInt64 (int64Bytes 7 i) = .ok i := by
  have h0 := byteOfInt_val (i / 256 ^ 0)
  have h1 := byteOfInt_val (i / 256 ^ 1)
  have h2 := byteOfInt_val (i / 256 ^ 2)
  have h3 := byteOfInt_val (i / 256 ^ 3)
  have h4 := byteOfInt_val (i / 256 ^ 4)
  have h5 := byteOfInt_val (i / 256 ^ 5)
  have h6 := byteOfInt_val (i / 256 ^ 6)
  simp only [int64Bytes, parseInt64, checkInteger, bytesToNat, List.length_cons,
    List.length_nil]
  generalize (byteOfInt (i / 256 ^ 0)).val = d0 at *
  generalize (byteOfInt (i / 256 ^ 1)).val = d1 at *
  generalize (byteOfInt (i / 256 ^ 2)).val = d2 at *
  generalize (byteOfInt (i / 256 ^ 3)).val = d3 at *
  generalize (byteOfInt (i / 256 ^ 4)).val = d4 at *
  generalize (byteOfInt (i / 256 ^ 5)).val = d5 at *
  generalize (byteOfInt (i / 256 ^ 6)).val = d6 at *
  norm_num at h0 h1 h2 h3 h4 h5 h6 ⊢
  split_ifs <;> first | omega | (simp only [Except.ok.injEq]; omega)

theorem parseInt64_int64Bytes_8 (i : Int) (h : -9223372036854775808 ≤ i ∧ i < 9223372036854775808 ∧ ¬ (-36028797018963968 ≤ i ∧ i < 36028797018963968)) :
    parseInt64 (int64Bytes 8 i) = .ok i := by
  have h0 := byteOfInt_val (i / 256 ^ 0)
  have h1 := byteOfInt_val (i / 256 ^ 1)
  have h2 := byteOfInt_val (i / 256 ^ 2)
  have h3 := byteOfInt_val (i / 256 ^ 3)
  have h4 := byteOfInt_val (i / 256 ^ 4)
  have h5 := byteOfInt_val (i / 256 ^ 5)
  have h6 := byteOfInt_val (i / 256 ^ 6)
  have h7 := byteOfInt_val (i / 256 ^ 7)
  simp only [int64Bytes, parseInt64, checkInteger, bytesToNat, List.length_cons,
    List.length_nil]
  generalize (byteOfInt (i / 256 ^ 0)).val = d0 at *
  generalize (byteOfInt (i / 256 ^ 1)).val = d1 at *
  generalize (byteOfInt (i / 256 ^ 2)).val = d2 at *
  generalize (byteOfInt (i / 256 ^ 3)).val = d3 at *
  generalize (byteOfInt (i / 256 ^ 4)).val = d4 at *
  generalize (byteOfInt (i / 256 ^ 5)).val = d5 at *
  generalize (byteOfInt (i / 256 ^ 6)).val = d6 at *
  generalize (byteOfInt (i / 256 ^ 7)).val = d7 at *
  norm_num at h0 h1 h2 h3 h4 h5 h6 h7 ⊢
  split_ifs <;> first | omega | (simp only [Except.ok.injEq]; omega)
theorem int64Bytes_length (n : Nat) (i : Int) : (int64Bytes n i).length = n := by
  induction n with
  | zero => rfl
  | succ n ih => simp [int64Bytes, ih]

/-- An INTEGER written by `marshalInt64` is read back by `parseInt64`. -/
theorem parseInt64_marshalInt64 (i : Int) (h : -(2 ^ 63) ≤ i ∧ i < 2 ^ 63) :
    parseInt64 (marshalInt64 i) = .ok i := by
  have hr := h
  norm_num at hr
  unfold marshalInt64
  rcases int64Length_cases i h with ⟨e, c⟩ | ⟨e, c⟩ | ⟨e, c⟩ | ⟨e, c⟩ | ⟨e, c⟩ | ⟨e, c⟩ |
    ⟨e, c⟩ | ⟨e, c⟩ <;> rw [e]
  · exact parseInt64_int64Bytes_1 i c
  · exact parseInt64_int64Bytes_2 i c
  · exact parseInt64_int64Bytes_3 i c
  · exact parseInt64_int64Bytes_4 i c
  · exact parseInt64_int64Bytes_5 i c
  · exact parseInt64_int64Bytes_6 i c
  · exact parseInt64_int64Bytes_7 i c
  · exact parseInt64_int64Bytes_8 i ⟨hr.1, hr.2, c⟩

theorem parseInt32_marshalInt64 (i : Int) (h : -(2 ^ 31) ≤ i ∧ i < 2 ^ 31) :
    parseInt32 (marshalInt64 i) = .ok i := by
  have h64 : -(2 ^ 63) ≤ i ∧ i < 2 ^ 63 := by
    norm_num at h ⊢
    omega
  unfold parseInt32
  rw [parseInt64_marshalInt64 i h64]
  simp only
  rw [if_neg (by omega)]

theorem marshalInt64_length (i : Int) (h : -(2 ^ 63) ≤ i ∧ i < 2 ^ 63) :
    (marshalInt64 i).length ≤ 8 := by
  unfold marshalInt64
  rw [int64Bytes_length]
  rcases int64Length_cases i h with ⟨e, _⟩ | ⟨e, _⟩ | ⟨e, _⟩ | ⟨e, _⟩ | ⟨e, _⟩ | ⟨e, _⟩ |
    ⟨e, _⟩ | ⟨e, _⟩ <;> omega

/-! ### Reading back what was written -/

theorem der_cons (cls tag : Nat) (isCompound : Bool) (body : Bytes) :
    ∃ b bs, der cls isCompound tag body = b :: bs ∧ bs ≠ [] := by
  unfold der marshalTagAndLength
  split_ifs <;> exact ⟨_, _, rfl, by simp⟩

theorem der_length_ge (cls tag : Nat) (isCompound : Bool) (body : Bytes) :
    body.length + 2 ≤ (der cls isCompound tag body).length := by
  unfold der marshalTagAndLength
  split_ifs <;> simp

theorem parseTagAndLength_der (cls tag : Nat) (isCompound : Bool) (body rest : Bytes)
    (hcls : cls < 4) (htag : tag < 31) (hn : body.length < 2 ^ 31) :
    parseTagAndLength (der cls isCompound tag body ++ rest)
      = .ok (⟨cls, tag, body.length, isCompound⟩, body ++ rest) := by
  unfold der
  rw [List.append_assoc]
  exact parseTagAndLength_marshal cls tag body.length isCompound (body ++ rest) hcls htag hn

/-- Reading back a field without a tag of its own. -/
theorem parseField_plain {α : Type} (application optional : Bool) (tag : Nat)
    (compound : Bool) (parseBody : Bytes → Except String α) (body rest : Bytes) (v : α)
    (htag : tag < 31) (hn : body.length < 2 ^ 31) (hv : parseBody body = .ok v) :
    parseField ⟨none, application, optional⟩ tag compound parseBody
      (der 0 compound tag body ++ rest) = .ok (some v, rest) := by
  have hp := parseTagAndLength_der 0 tag compound body rest (by omega) htag hn
  obtain ⟨b, bs, hb, _⟩ := der_cons 0 tag compound body
  unfold parseField
  rw [hb] at hp ⊢
  simp only [List.cons_append] at hp ⊢
  rw [hp]
  simp [hv]

/-- Reading back a field under an explicit tag. -/
theorem parseField_explicit {α : Type} (n : Nat) (application optional : Bool) (tag : Nat)
    (compound : Bool) (parseBody : Bytes → Except String α) (body rest : Bytes) (v : α)
    (hn31 : n < 31) (htag : tag < 31)
    (hn : (der 0 compound tag body).length < 2 ^ 31) (hv : parseBody body = .ok v) :
    parseField ⟨some n, application, optional⟩ tag compound parseBody
      (der (if application then 1 else 2) true n (der 0 compound tag body) ++ rest)
        = .ok (some v, rest) := by
  have hlen := der_length_ge 0 tag compound body
  have hcls : (if application = true then 1 else 2) < 4 := by split_ifs <;> omega
  have hp := parseTagAndLength_der (if application then 1 else 2) n true
    (der 0 compound tag body) rest hcls hn31 hn
  have hp2 := parseTagAndLength_der 0 tag compound body rest (by omega) htag (by omega)
  obtain ⟨b, bs, hb, _⟩ := der_cons (if application then 1 else 2) n true
    (der 0 compound tag body)
  obtain ⟨b', bs', hb', _⟩ := der_cons 0 tag compound body
  unfold parseField
  rw [hb] at hp ⊢
  simp only [List.cons_append] at hp ⊢
  rw [hp]
  have hne : der 0 compound tag body ++ rest ≠ [] := by rw [hb']; simp
  simp only [hne, if_false, true_and, or_true, and_self, if_true]
  rw [if_pos (by omega), hp2]
  simp [hv]

/-- An optional field is absent when the contents are used up. -/
theorem parseField_optional_nil {α : Type} (explicitTag : Option Nat) (application : Bool)
    (tag : Nat) (compound : Bool) (parseBody : Bytes → Except String α) :
    parseField ⟨explicitTag, application, true⟩ tag compound parseBody []
      = .ok (none, []) := by
  simp [parseField]

/-- An optional field under an explicit tag is absent when the next element
carries another explicit tag. -/
theorem parseField_optional_other {α : Type} (n m : Nat) (tag : Nat)
    (compound : Bool) (parseBody : Bytes → Except String α) (inner rest : Bytes)
    (hm : m < 31) (hnm : m ≠ n) (hn : inner.length < 2 ^ 31) (hne : inner ≠ []) :
    parseField ⟨some n, false, true⟩ tag compound parseBody
      (der 2 true m inner ++ rest) = .ok (none, der 2 true m inner ++ rest) := by
  have hp := parseTagAndLength_der 2 m true inner rest (by omega) hm hn
  obtain ⟨b, bs, hb, _⟩ := der_cons 2 m true inner
  unfold parseField
  rw [hb] at hp ⊢
  simp only [List.cons_append] at hp ⊢
  rw [hp]
  simp [hne, hnm]

theorem parseRequired_explicit {α : Type} (n : Nat) (application : Bool) (tag : Nat)
    (compound : Bool) (parseBody : Bytes → Except String α) (body rest : Bytes) (v : α)
    (hn31 : n < 31) (htag : tag < 31)
    (hn : (der 0 compound tag body).length < 2 ^ 31) (hv : parseBody body = .ok v) :
    parseRequired (some n) application tag compound parseBody
      (der (if application then 1 else 2) true n (der 0 compound tag body) ++ rest)
        = .ok (v, rest) := by
  unfold parseRequired
  rw [parseField_explicit n application false tag compound parseBody body rest v hn31 htag
    hn hv]

theorem parseRequired_plain {α : Type} (tag : Nat)
    (compound : Bool) (parseBody : Bytes → Except String α) (body rest : Bytes) (v : α)
    (htag : tag < 31) (hn : body.length < 2 ^ 31) (hv : parseBody body = .ok v) :
    parseRequired none false tag compound parseBody (der 0 compound tag body ++ rest)
      = .ok (v, rest) := by
  unfold parseRequired
  rw [parseField_plain false false tag compound parseBody body rest v htag hn hv]
theorem parseSequenceOfStrings_der (ss : List Bytes) :
    ∀ fuel : Nat, (derGeneralStrings ss).length ≤ fuel →
      (derGeneralStrings ss).length < 2 ^ 31 →
      parseSequenceOfStrings fuel (derGeneralStrings ss) = .ok ss := by
  induction ss with
  | nil => intro fuel _ _; cases fuel <;> rfl
  | cons s ss ih =>
    intro fuel hf hn
    have hlen := der_length_ge 0 27 false s
    obtain ⟨b, bs, hb, _⟩ := der_cons 0 27 false s
    have hs : derGeneralStrings (s :: ss) = der 0 false 27 s ++ derGeneralStrings ss := rfl
    rw [hs, List.length_append] at hf hn
    have hp := parseRequired_plain 27 false (fun body => .ok body) s (derGeneralStrings ss) s
      (by omega) (by omega) rfl
    rw [hs]
    cases fuel with
    | zero => omega
    | succ fuel =>
      rw [hb] at hp ⊢
      simp only [List.cons_append] at hp ⊢
      rw [parseSequenceOfStrings, hp]
      simp only
      rw [ih fuel (by omega) (by omega)]

theorem parseRequired_context {α : Type} (n : Nat) (tag : Nat)
    (compound : Bool) (parseBody : Bytes → Except String α) (body rest : Bytes) (v : α)
    (hn31 : n < 31) (htag : tag < 31)
    (hn : (der 0 compound tag body).length < 2 ^ 31) (hv : parseBody body = .ok v) :
    parseRequired (some n) false tag compound parseBody
      (der 2 true n (der 0 compound tag body) ++ rest) = .ok (v, rest) :=
  parseRequired_explicit n false tag compound parseBody body rest v hn31 htag hn hv

theorem parseField_context {α : Type} (n : Nat) (optional : Bool) (tag : Nat)
    (compound : Bool) (parseBody : Bytes → Except String α) (body rest : Bytes) (v : α)
    (hn31 : n < 31) (htag : tag < 31)
    (hn : (der 0 compound tag body).length < 2 ^ 31) (hv : parseBody body = .ok v) :
    parseField ⟨some n, false, optional⟩ tag compound parseBody
      (der 2 true n (der 0 compound tag body) ++ rest) = .ok (some v, rest) :=
  parseField_explicit n false optional tag compound parseBody body rest v hn31 htag hn hv

theorem parsePrincipalName_marshal (pn : PrincipalName) (rest : Bytes)
    (hnt : -(2 ^ 31) ≤ pn.NameType ∧ pn.NameType < 2 ^ 31)
    (hn : (marshalPrincipalName pn).length < 2 ^ 31) :
    parsePrincipalName
      (derExplicit 0 (derInteger pn.NameType) ++
        derExplicit 1 (derSequence (derGeneralStrings pn.NameString)) ++ rest) = .ok pn := by
  have l0 := der_length_ge 0 16 true (der 2 true 0 (der 0 false 2 (marshalInt64 pn.NameType)) ++
    der 2 true 1 (der 0 true 16 (derGeneralStrings pn.NameString)))
  have l1 := der_length_ge 2 0 true (der 0 false 2 (marshalInt64 pn.NameType))
  have l2 := der_length_ge 2 1 true (der 0 true 16 (derGeneralStrings pn.NameString))
  have l3 := der_length_ge 0 16 true (derGeneralStrings pn.NameString)
  simp only [marshalPrincipalName, derSequence, derInteger, derExplicit] at hn ⊢
  rw [List.length_append] at l0
  unfold parsePrincipalName
  rw [List.append_assoc]
  rw [parseRequired_context 0 2 false parseInt32 (marshalInt64 pn.NameType) _ pn.NameType
    (by omega) (by omega) (by omega) (parseInt32_marshalInt64 _ hnt)]
  simp only
  rw [parseRequired_context 1 16 true (fun body => parseSequenceOfStrings body.length body)
    (derGeneralStrings pn.NameString) rest
    pn.NameString (by omega) (by omega) (by omega)
    (parseSequenceOfStrings_der _ _ (le_refl _) (by omega))]

theorem parseEncryptedData_marshal (prior ed : EncryptedData) (rest : Bytes)
    (het : -(2 ^ 31) ≤ ed.EType ∧ ed.EType < 2 ^ 31)
    (hkv : -(2 ^ 63) ≤ ed.KVNO ∧ ed.KVNO < 2 ^ 63)
    (hprior : ed.KVNO = 0 → prior.KVNO = 0)
    (hn : (marshalEncryptedData ed).length < 2 ^ 31) :
    parseEncryptedData prior
      (derExplicit 0 (derInteger ed.EType) ++
        (if ed.KVNO = 0 then [] else derExplicit 1 (derInteger ed.KVNO)) ++
        derExplicit 2 (derOctetString ed.Cipher) ++ rest) = .ok ed := by
  obtain ⟨etype, kvno, cipher⟩ := ed
  have l1 := der_length_ge 2 0 true (der 0 false 2 (marshalInt64 etype))
  have l2 := der_length_ge 2 1 true (der 0 false 2 (marshalInt64 kvno))
  have l3 := der_length_ge 2 2 true (der 0 false 4 cipher)
  have l4 := der_length_ge 0 4 false cipher
  unfold parseEncryptedData
  by_cases hk : kvno = 0
  · simp only [marshalEncryptedData, derSequence, derInteger, derExplicit, derOctetString, hk,
      if_true, List.append_nil] at hn ⊢
    have l0 := der_length_ge 0 16 true (der 2 true 0 (der 0 false 2 (marshalInt64 etype)) ++
      der 2 true 2 (der 0 false 4 cipher))
    rw [List.length_append] at l0
    rw [List.append_assoc]
    rw [parseRequired_context 0 2 false parseInt32 (marshalInt64 etype) _ etype
      (by omega) (by omega) (by omega) (parseInt32_marshalInt64 _ het)]
    simp only
    rw [parseField_optional_other 1 2 2 false parseInt64 (der 0 false 4 cipher) rest
      (by omega) (by omega) (by omega) (by intro h; rw [h] at l4; simp at l4)]
    simp only
    rw [parseRequired_context 2 4 false (fun body => .ok body) cipher rest cipher (by omega)
      (by omega) (by omega) rfl]
    simp only [Option.getD_none, hprior hk]
  · simp only [marshalEncryptedData, derSequence, derInteger, derExplicit, derOctetString, hk,
      if_false] at hn ⊢
    have l0 := der_length_ge 0 16 true (der 2 true 0 (der 0 false 2 (marshalInt64 etype)) ++
      der 2 true 1 (der 0 false 2 (marshalInt64 kvno)) ++ der 2 true 2 (der 0 false 4 cipher))
    rw [List.length_append, List.length_append] at l0
    rw [List.append_assoc, List.append_assoc]
    rw [parseRequired_context 0 2 false parseInt32 (marshalInt64 etype) _ etype
      (by omega) (by omega) (by omega) (parseInt32_marshalInt64 _ het)]
    simp only
    rw [parseField_context 1 true 2 false parseInt64 (marshalInt64 kvno) _ kvno
      (by omega) (by omega) (by omega) (parseInt64_marshalInt64 _ hkv)]
    simp only
    rw [parseRequired_context 2 4 false (fun body => .ok body) cipher rest cipher (by omega)
      (by omega) (by omega) rfl]
    simp only [Option.getD_some]
/-- The four wire fields written by `asn1.Marshal` are read back by the
decoder, whatever the version number; the decrypted part stays as it was in
the receiving struct. -/
theorem parseTicket_marshalTicketFields
    (parseEncTicketPart : EncTicketPart → Bytes → Except String EncTicketPart)
    (prior t : Ticket) (hrep : Ticket.Representable t)
    (hprior : t.EncPart.KVNO = 0 → prior.EncPart.KVNO = 0) :
    parseTicket parseEncTicketPart prior (marshalTicketFields t)
      = .ok ⟨t.TktVNO, t.Realm, t.SName, t.EncPart, prior.DecryptedEncPart⟩ := by
  obtain ⟨hvno, hnt, het, hkv, hn⟩ := hrep
  have l0 := der_length_ge 0 16 true (marshalTicketFields t)
  have l1 := der_length_ge 2 0 true (der 0 false 2 (marshalInt64 t.TktVNO))
  have l2 := der_length_ge 2 1 true (der 0 false 27 t.Realm)
  have l3 := der_length_ge 2 2 true (marshalPrincipalName t.SName)
  have l4 := der_length_ge 2 3 true (marshalEncryptedData t.EncPart)
  have hpn := parsePrincipalName_marshal t.SName [] hnt
  have hed := parseEncryptedData_marshal prior.EncPart t.EncPart [] het hkv hprior
  unfold derSequence at hn
  unfold marshalTicketFields at l0 hn ⊢
  simp only [derInteger, derGeneralString, derExplicit, List.length_append] at l0 hn ⊢
  simp only [List.append_nil] at hpn hed
  unfold parseTicket
  rw [List.append_assoc, List.append_assoc]
  rw [parseRequired_context 0 2 false parseInt64 (marshalInt64 t.TktVNO) _ t.TktVNO
    (by omega) (by omega) (by omega) (parseInt64_marshalInt64 _ hvno)]
  simp only
  rw [parseRequired_context 1 27 false (fun body => .ok body) t.Realm _ t.Realm
    (by omega) (by omega) (by omega) rfl]
  simp only
  have e3 : marshalPrincipalName t.SName = der 0 true 16
      (derExplicit 0 (derInteger t.SName.NameType) ++
        derExplicit 1 (derSequence (derGeneralStrings t.SName.NameString))) := rfl
  have e4 : marshalEncryptedData t.EncPart = der 0 true 16
      (derExplicit 0 (derInteger t.EncPart.EType) ++
        (if t.EncPart.KVNO = 0 then [] else derExplicit 1 (derInteger t.EncPart.KVNO)) ++
        derExplicit 2 (derOctetString t.EncPart.Cipher)) := rfl
  rw [e3] at l0 hn l3 ⊢
  rw [parseRequired_context 2 16 true parsePrincipalName _ _ t.SName
    (by omega) (by omega) (by omega) (hpn (by rw [e3]; omega))]
  simp only
  rw [e4] at l0 hn l4 ⊢
  rw [← List.append_nil (der 2 true 3 _)]
  rw [parseRequired_context 3 16 true (parseEncryptedData prior.EncPart) _ [] t.EncPart
    (by omega) (by omega) (by omega) (hed (by rw [e4]; omega))]
  simp only
  rw [parseField_optional_nil]
  simp only [Option.getD_none]

/-- What `Ticket.Marshal` writes for a ticket without a decrypted part is read
back by `asn1.UnmarshalWithParams` with the same four wire fields, whatever
follows the element; the first byte written is `0x61`. -/
theorem asn1UnmarshalTicket_marshal
    (parseEncTicketPart : EncTicketPart → Bytes → Except String EncTicketPart)
    (prior t : Ticket) (rest : Bytes) (hrep : Ticket.Representable t)
    (hprior : t.EncPart.KVNO = 0 → prior.EncPart.KVNO = 0) :
    asn1UnmarshalTicket parseEncTicketPart prior
        (AddASNAppTag (derSequence (marshalTicketFields t)) asnAppTag.Ticket ++ rest)
      = .ok (⟨t.TktVNO, t.Realm, t.SName, t.EncPart, prior.DecryptedEncPart⟩, rest) := by
  have hn := hrep.2.2.2.2
  unfold asn1UnmarshalTicket AddASNAppTag asnAppTag.Ticket derSequence
  unfold derSequence at hn
  exact parseRequired_explicit 1 true 16 true _ (marshalTicketFields t) rest _ (by omega)
    (by omega) hn (parseTicket_marshalTicketFields parseEncTicketPart prior t hrep hprior)

theorem AddASNAppTag_head (b : Bytes) :
    (AddASNAppTag b asnAppTag.Ticket).head? = some 0x61 := by
  unfold AddASNAppTag der marshalTagAndLength asnAppTag.Ticket
  rfl

/-! ### Tickets -/

theorem lengthLength.loop_mono (fuel : Nat) :
    ∀ i j : Nat, i ≤ j → lengthLength.loop fuel i ≤ lengthLength.loop fuel j := by
  induction fuel with
  | zero => intro i j _; exact le_refl _
  | succ fuel ih =>
    intro i j h
    unfold lengthLength.loop
    by_cases hi : i > 0
    · have hj : j > 0 := by omega
      rw [if_pos hi, if_pos hj]
      have := ih (i / 256) (j / 256) (Nat.div_le_div_right h)
      omega
    · rw [if_neg hi]
      exact Nat.zero_le _

theorem marshalLength_length (n i : Nat) : (marshalLength n i).length = n := by
  induction n with
  | zero => rfl
  | succ n ih => simp [marshalLength, ih]

theorem der_length_lt (cls tag : Nat) (isCompound : Bool) (x y : Bytes)
    (h : x.length < y.length) :
    (der cls isCompound tag x).length < (der cls isCompound tag y).length := by
  have hm := lengthLength.loop_mono 8 x.length y.length (by omega)
  unfold der marshalTagAndLength lengthLength
  simp only [List.length_append, List.length_cons, marshalLength_length]
  split_ifs <;> simp only [List.length_cons, List.length_nil, marshalLength_length] <;> omega

/-- A well-formed ticket is read back as written, by `UnmarshalTicket` and by
`Ticket.Unmarshal` on a fresh receiver, whatever its version number. -/
theorem Ticket.roundtrip (marshalEncTicketPart : EncTicketPart → Except String Bytes)
    (parseEncTicketPart : EncTicketPart → Bytes → Except String EncTicketPart)
    (t : Ticket) (hdec : t.DecryptedEncPart = EncTicketPart.zero)
    (hrep : Ticket.Representable t) :
    ∃ b, Ticket.Marshal marshalEncTicketPart t = .ok b ∧ b.head? = some 0x61 ∧
      UnmarshalTicket parseEncTicketPart b = .ok t ∧
      Ticket.Unmarshal parseEncTicketPart Ticket.zero b = .ok t := by
  have hu := asn1UnmarshalTicket_marshal parseEncTicketPart Ticket.zero t [] hrep
    (fun _ => rfl)
  rw [List.append_nil] at hu
  have ht : (⟨t.TktVNO, t.Realm, t.SName, t.EncPart, Ticket.zero.DecryptedEncPart⟩ : Ticket)
      = t := by
    obtain ⟨a, b, c, d, e⟩ := t
    simp only at hdec
    rw [hdec]
    rfl
  rw [ht] at hu
  refine ⟨AddASNAppTag (derSequence (marshalTicketFields t)) asnAppTag.Ticket, ?_,
    AddASNAppTag_head _, ?_, ?_⟩
  · simp [Ticket.Marshal, asn1MarshalTicket, hdec]
  · simp [UnmarshalTicket, hu]
  · simp [Ticket.Unmarshal, hu]

/-- C7: for every well-formed ticket (version 5, no decrypted part attached,
values within their Go types), `Ticket.Marshal` succeeds, its output starts
with the byte `0x61`, and `UnmarshalTicket` as well as `Ticket.Unmarshal` on a
fresh `Ticket` succeed on it and yield the ticket, equal in every field. -/
theorem C7_ticket_roundtrip (marshalEncTicketPart : EncTicketPart → Except String Bytes)
    (parseEncTicketPart : EncTicketPart → Bytes → Except String EncTicketPart)
    (t : Ticket) (hwf : Ticket.WellFormed t) :
    ∃ b, Ticket.Marshal marshalEncTicketPart t = .ok b ∧ b.head? = some 0x61 ∧
      UnmarshalTicket parseEncTicketPart b = .ok t ∧
      Ticket.Unmarshal parseEncTicketPart Ticket.zero b = .ok t :=
  Ticket.roundtrip marshalEncTicketPart parseEncTicketPart t hwf.2.1 hwf.2.2

set_option maxRecDepth 100000 in
/-- C7 at scenario S1: the ticket for `krbtgt/EXAMPLE.COM` with etype 18,
kvno 1 and a cipher of 32 zero bytes is well-formed and makes the round trip. -/
theorem C7_ticket_roundtrip_witness :
    Ticket.WellFormed ticketS1 ∧
    ∃ b, Ticket.Marshal noEncTicketPartEncoder ticketS1 = .ok b ∧ b.head? = some 0x61 ∧
      UnmarshalTicket noEncTicketPartDecoder b = .ok ticketS1 ∧
      Ticket.Unmarshal noEncTicketPartDecoder Ticket.zero b = .ok ticketS1 :=
  ⟨by unfold Ticket.WellFormed Ticket.Representable; decide,
    C7_ticket_roundtrip noEncTicketPartEncoder noEncTicketPartDecoder ticketS1
      (by unfold Ticket.WellFormed Ticket.Representable; decide)⟩

/-- C8 at the failing input: the ticket of scenario S1 before and after its
inner part was decrypted. The two agree on `TktVNO`, `Realm`, `SName` and
`EncPart`, yet whatever the encoding of an `EncTicketPart` is, `Ticket.Marshal`
does not return the same for both: for the decrypted ticket the inner part is
written after the four wire fields (or its encoding fails and so does
`Marshal`). -/
theorem C8_Marshal_writes_decrypted_part
    (marshalEncTicketPart : EncTicketPart → Except String Bytes) :
    (ticketS1Decrypted.TktVNO = ticketS1.TktVNO ∧ ticketS1Decrypted.Realm = ticketS1.Realm ∧
      ticketS1Decrypted.SName = ticketS1.SName ∧
      ticketS1Decrypted.EncPart = ticketS1.EncPart) ∧
    Ticket.Marshal marshalEncTicketPart ticketS1
      = .ok (AddASNAppTag (derSequence (marshalTicketFields ticketS1)) asnAppTag.Ticket) ∧
    (∀ body, marshalEncTicketPart encPartS1 = .ok body →
      Ticket.Marshal marshalEncTicketPart ticketS1Decrypted
        = .ok (AddASNAppTag (derSequence (marshalTicketFields ticketS1 ++ derSequence body))
            asnAppTag.Ticket)) ∧
    Ticket.Marshal marshalEncTicketPart ticketS1Decrypted
      ≠ Ticket.Marshal marshalEncTicketPart ticketS1 := by
  have hz : ticketS1.DecryptedEncPart = EncTicketPart.zero := rfl
  have hd : ticketS1Decrypted.DecryptedEncPart = encPartS1 := rfl
  have hnz : encPartS1 ≠ EncTicketPart.zero := by decide
  have hf : marshalTicketFields ticketS1Decrypted = marshalTicketFields ticketS1 := rfl
  have h1 : Ticket.Marshal marshalEncTicketPart ticketS1
      = .ok (AddASNAppTag (derSequence (marshalTicketFields ticketS1)) asnAppTag.Ticket) := by
    simp [Ticket.Marshal, asn1MarshalTicket, hz]
  have h2 : ∀ body, marshalEncTicketPart encPartS1 = .ok body →
      Ticket.Marshal marshalEncTicketPart ticketS1Decrypted
        = .ok (AddASNAppTag (derSequence (marshalTicketFields ticketS1 ++ derSequence body))
            asnAppTag.Ticket) := by
    intro body hb
    simp [Ticket.Marshal, asn1MarshalTicket, hd, hnz, hb, hf]
  refine ⟨⟨rfl, rfl, rfl, rfl⟩, h1, h2, ?_⟩
  cases hb : marshalEncTicketPart encPartS1 with
  | error e =>
    rw [h1]
    simp [Ticket.Marshal, asn1MarshalTicket, hd, hnz, hb]
  | ok body =>
    rw [h1, h2 body hb]
    intro h
    have hl : (AddASNAppTag (derSequence (marshalTicketFields ticketS1 ++ derSequence body))
          asnAppTag.Ticket).length
        = (AddASNAppTag (derSequence (marshalTicketFields ticketS1)) asnAppTag.Ticket).length := by
      injection h with h'
      rw [h']
    have h0 : body.length + 2 ≤ (derSequence body).length := der_length_ge 0 16 true body
    have hlt : (marshalTicketFields ticketS1).length
        < (marshalTicketFields ticketS1 ++ derSequence body).length := by
      rw [List.length_append]
      omega
    have hlt2 : (AddASNAppTag (derSequence (marshalTicketFields ticketS1)) asnAppTag.Ticket).length
        < (AddASNAppTag (derSequence (marshalTicketFields ticketS1 ++ derSequence body))
          asnAppTag.Ticket).length :=
      der_length_lt 1 asnAppTag.Ticket true _ _ (der_length_lt 0 16 true _ _ hlt)
    omega

/-- C9, as stated, fails: the DER encoding of a ticket with `tkt-vno` 4 is
unmarshalled without error, by `UnmarshalTicket` and by `Ticket.Unmarshal`,
into a ticket whose `TktVNO` is 4. -/
theorem C9_counterexample :
    Ticket.Marshal noEncTicketPartEncoder ticketV4 = .ok ticketV4Bytes ∧
    ticketV4.TktVNO ≠ 5 ∧
    UnmarshalTicket noEncTicketPartDecoder ticketV4Bytes = .ok ticketV4 ∧
    Ticket.Unmarshal noEncTicketPartDecoder Ticket.zero ticketV4Bytes = .ok ticketV4 := by
  decide

/-- C9, amended: `Ticket.Unmarshal` and `UnmarshalTicket` make no check of the
version: the DER encoding that `Marshal` writes for a ticket with any
`tkt-vno` (no decrypted part attached, values within their Go types) is
unmarshalled without error into that ticket, `TktVNO` included. -/
theorem C9_unmarshal_accepts_any_version
    (marshalEncTicketPart : EncTicketPart → Except String Bytes)
    (parseEncTicketPart : EncTicketPart → Bytes → Except String EncTicketPart)
    (t : Ticket) (hdec : t.DecryptedEncPart = EncTicketPart.zero)
    (hrep : Ticket.Representable t) :
    ∃ b t', Ticket.Marshal marshalEncTicketPart t = .ok b ∧
      UnmarshalTicket parseEncTicketPart b = .ok t' ∧
      Ticket.Unmarshal parseEncTicketPart Ticket.zero b = .ok t' ∧
      t'.TktVNO = t.TktVNO ∧ t' = t := by
  obtain ⟨b, hm, _, hu, hu'⟩ :=
    Ticket.roundtrip marshalEncTicketPart parseEncTicketPart t hdec hrep
  exact ⟨b, t, hm, hu, hu', rfl, rfl⟩

set_option maxRecDepth 100000 in
/-- C9 (amended) on the ticket with `tkt-vno` 4. -/
theorem C9_unmarshal_accepts_any_version_witness :
    ticketV4.DecryptedEncPart = EncTicketPart.zero ∧ Ticket.Representable ticketV4 ∧
    ∃ b t', Ticket.Marshal noEncTicketPartEncoder ticketV4 = .ok b ∧
      UnmarshalTicket noEncTicketPartDecoder b = .ok t' ∧
      Ticket.Unmarshal noEncTicketPartDecoder Ticket.zero b = .ok t' ∧
      t'.TktVNO = ticketV4.TktVNO ∧ t' = ticketV4 :=
  ⟨rfl, by unfold Ticket.Representable; decide,
    C9_unmarshal_accepts_any_version noEncTicketPartEncoder noEncTicketPartDecoder ticketV4
      rfl (by unfold Ticket.Representable; decide)⟩

/-! ### Keys for a ticket -/

/-- The one call that `DecryptEncPart` makes to the keytab. -/
theorem Ticket.DecryptEncPart_asked {P : Type} (deps : TicketDeps P)
    (parseEncTicketPart : EncTicketPart → Bytes → Except String EncTicketPart)
    (t : Ticket) (ktprinc : Bytes) :
    (Ticket.DecryptEncPart deps parseEncTicketPart t ktprinc).asked
      = [⟨(Ticket.DecryptEncPart.principal t ktprinc).1.NameString,
          (Ticket.DecryptEncPart.principal t ktprinc).2, t.EncPart.KVNO, t.EncPart.EType⟩] := by
  unfold Ticket.DecryptEncPart
  simp only
  split
  · rfl
  · split
    · rfl
    · split <;> rfl

theorem Ticket.GetPACType.loop_asked {P : Type} (deps : TicketDeps P) (t : Ticket)
    (ktprinc : Bytes) (ads : List AuthorizationDataEntry) :
    (Ticket.GetPACType.loop deps t ktprinc ads).asked = [] ∨
    (Ticket.GetPACType.loop deps t ktprinc ads).asked
      = [⟨if ktprinc ≠ [] then splitByte 47 ktprinc else t.SName.NameString, t.Realm,
          t.EncPart.KVNO, t.EncPart.EType⟩] := by
  induction ads with
  | nil => left; rfl
  | cons ad ads ih =>
    unfold Ticket.GetPACType.loop
    split
    · split
      · exact ih
      · left; rfl
      · split
        · split
          · left; rfl
          · simp only
            split <;> (right; rfl)
        · exact ih
    · exact ih

/-- The call that `GetPACType` makes to the keytab, when it makes one. -/
theorem Ticket.GetPACType_asked {P : Type} (deps : TicketDeps P) (t : Ticket)
    (ktprinc : Bytes) :
    (Ticket.GetPACType deps t ktprinc).asked = [] ∨
    (Ticket.GetPACType deps t ktprinc).asked
      = [⟨if ktprinc ≠ [] then splitByte 47 ktprinc else t.SName.NameString, t.Realm,
          t.EncPart.KVNO, t.EncPart.EType⟩] :=
  Ticket.GetPACType.loop_asked deps t ktprinc _

/-- Without an override, and with an override that names no realm, the key
that `GetPACType` asks for is the one `DecryptEncPart` asks for. -/
theorem keyRequests_agree_without_realm {P : Type} (deps : TicketDeps P)
    (parseEncTicketPart : EncTicketPart → Bytes → Except String EncTicketPart)
    (t : Ticket) (ktprinc : Bytes) (h : (64 : Byte) ∉ ktprinc) :
    (Ticket.GetPACType deps t ktprinc).asked = [] ∨
    (Ticket.GetPACType deps t ktprinc).asked
      = (Ticket.DecryptEncPart deps parseEncTicketPart t ktprinc).asked := by
  rcases Ticket.GetPACType_asked deps t ktprinc with h' | h'
  · left; exact h'
  · right
    rw [h', Ticket.DecryptEncPart_asked]
    unfold Ticket.DecryptEncPart.principal ParseSPNString
    by_cases hk : ktprinc = []
    · simp [hk]
    · simp [hk, h]

/-- C10 at the failing input: the ticket for `HTTP/web.example.com` in realm
`EXAMPLE.COM` with a PAC, a keytab holding the key of
`HTTP/web.example.com@EXAMPLE.COM`, and the override
`HTTP/web.example.com@EXAMPLE.COM`. `DecryptEncPart` asks the keytab for the
name `HTTP`, `web.example.com` in realm `EXAMPLE.COM`; `GetPACType` asks for
the name `HTTP`, `web.example.com@EXAMPLE.COM`, finds no key and returns
`KRB_AP_ERR_NOKEY`. -/
theorem C10_GetPACType_asks_for_another_key :
    (Ticket.DecryptEncPart depsHTTP noEncTicketPartDecoder ticketPAC
        (ascii "HTTP/web.example.com@EXAMPLE.COM")).asked
      = [⟨[ascii "HTTP", ascii "web.example.com"], ascii "EXAMPLE.COM", 1, 18⟩] ∧
    Ticket.GetPACType depsHTTP ticketPAC (ascii "HTTP/web.example.com@EXAMPLE.COM")
      = .returned true [1, 2, 3]
          (some (.krb (NewKRBError ticketPAC.SName ticketPAC.Realm KRB_AP_ERR_NOKEY)))
          [⟨[ascii "HTTP", ascii "web.example.com@EXAMPLE.COM"], ascii "EXAMPLE.COM", 1, 18⟩] ∧
    (Ticket.GetPACType depsHTTP ticketPAC (ascii "HTTP/web.example.com@EXAMPLE.COM")).asked
      ≠ (Ticket.DecryptEncPart depsHTTP noEncTicketPartDecoder ticketPAC
          (ascii "HTTP/web.example.com@EXAMPLE.COM")).asked := by
  decide

/-! ### Signature buffers -/

theorem ensureAlignment_of_dvd (p n : Nat) (h : p % n = 0) : ensureAlignment p n = p := by
  simp [ensureAlignment, h]

theorem ndr.ReadUint32_zero (b : Bytes) (e : ByteOrder) :
    ndr.ReadUint32 b 0 e
      = if b.length < 4 then .ok (0, 0) else .ok (e.Uint32 (slice b 0 4), 4) := by
  unfold ndr.ReadUint32
  rw [ensureAlignment_of_dvd 0 4 rfl]
  by_cases h : b.length < 4
  · simp [h]
  · have h' : ¬ (4 > b.length) := by omega
    simp [h, h']

theorem slice_length (b : Bytes) (lo hi : Nat) (h : hi ≤ b.length) :
    (slice b lo hi).length = hi - lo := by
  unfold slice
  rw [List.length_take, List.length_drop]
  omega

/-- What a `SignatureData.Unmarshal` without error has read: nothing from fewer
than four bytes; else the type, the signature of the size of that type right
after it, and the RODC identifier after that when two more bytes are there. -/
theorem SignatureData.Unmarshal_ok (b : Bytes) (r : SignatureData.Unmarshalled)
    (h : SignatureData.Unmarshal b = .ok r) :
    (b.length < 4 ∧ r.k.SignatureType = 0 ∧ r.k.Signature = [] ∧ r.rb = b ∧ r.b = b) ∨
    (4 ≤ b.length ∧
      4 + SignatureData.size (ByteOrder.LittleEndian.Uint32 (slice b 0 4)) ≤ b.length ∧
      r.k.SignatureType = ByteOrder.LittleEndian.Uint32 (slice b 0 4) ∧
      r.k.Signature = slice b 4 (4 + SignatureData.size r.k.SignatureType) ∧
      r.k.RODCIdentifier
        = (if b.length < 4 + SignatureData.size r.k.SignatureType + 2 then 0
          else ByteOrder.LittleEndian.Uint16
            (slice b (4 + SignatureData.size r.k.SignatureType)
              (4 + SignatureData.size r.k.SignatureType + 2))) ∧
      r.rb = b.take 4 ++ List.replicate (SignatureData.size r.k.SignatureType) 0
        ++ b.drop (4 + SignatureData.size r.k.SignatureType) ∧
      r.b = b) := by
  unfold SignatureData.Unmarshal at h
  simp only [ndr.ReadUint32_zero] at h
  by_cases hlen : b.length < 4
  · left
    simp only [hlen, if_true] at h
    have hs : SignatureData.size 0 = 0 := by decide
    simp only [hs, ndr.ReadBytes] at h
    rw [if_neg (by omega), if_neg (by omega)] at h
    simp only at h
    split at h
    · simp at h
    · rename_i rodc p hr
      split_ifs at h
      simp only [Except.ok.injEq] at h
      subst h
      refine ⟨hlen, rfl, ?_, ?_, rfl⟩
      · simp [slice]
      · simp
  · right
    simp only [hlen, if_false] at h
    generalize ht : ByteOrder.LittleEndian.Uint32 (slice b 0 4) = t at h ⊢
    generalize hc : SignatureData.size t = c at h
    unfold ndr.ReadBytes at h
    rw [if_neg (by omega)] at h
    by_cases hsig : b.length - 4 < c
    · -- too few bytes for the signature: the zeroing panics
      simp only [hsig, if_true] at h
      split at h
      · simp at h
      · split_ifs at h
        omega
    · simp only [hsig, if_false] at h
      unfold ndr.ReadUint16 at h
      rw [if_neg (by omega)] at h
      have hal : ensureAlignment (4 + c) 2 = 4 + c := by
        apply ensureAlignment_of_dvd
        have : c = 16 ∨ c = 12 ∨ c = 0 := by
          rw [← hc]; unfold SignatureData.size; split_ifs <;> simp
        omega
      rw [hal] at h
      by_cases hr : b.length - (4 + c) < 2
      · simp only [hr, if_true] at h
        split_ifs at h
        simp only [Except.ok.injEq] at h
        subst h
        simp only [hc]
        refine ⟨by omega, by omega, trivial, trivial, ?_, trivial, trivial⟩
        rw [if_pos (by omega)]
      · simp only [hr, if_false] at h
        rw [if_neg (by omega)] at h
        simp only at h
        split_ifs at h
        simp only [Except.ok.injEq] at h
        subst h
        simp only [hc]
        refine ⟨by omega, by omega, trivial, trivial, ?_, trivial, trivial⟩
        rw [if_neg (by omega)]
theorem zeroed_getElem? (b : Bytes) (sp c i : Nat) (h : sp + c ≤ b.length) :
    (b.take sp ++ List.replicate c 0 ++ b.drop (sp + c))[i]?
      = if sp ≤ i ∧ i < sp + c then some 0 else b[i]? := by
  have hl : (b.take sp).length = sp := by rw [List.length_take]; omega
  by_cases h1 : i < sp
  · rw [if_neg (by omega), List.append_assoc, List.getElem?_append_left (by omega)]
    rw [List.getElem?_take]
    simp [h1]
  · rw [List.append_assoc, List.getElem?_append_right (by omega), hl]
    by_cases h2 : i < sp + c
    · rw [if_pos (by omega), List.getElem?_append_left (by simp; omega)]
      simp [List.getElem?_replicate]
      omega
    · rw [if_neg (by omega), List.getElem?_append_right (by simp; omega)]
      simp only [List.length_replicate, List.getElem?_drop]
      congr 1
      omega

/-- C11: when `SignatureData.Unmarshal` returns no error, the bytes it returns
are as many as the input, are zero at the offsets of the parsed signature (4 up
to `4 + len(Signature) - 1`) and equal to the input at every other offset, and
the input is as it was. -/
theorem C11_signature_zeroed_in_copy (b : Bytes) (r : SignatureData.Unmarshalled)
    (h : SignatureData.Unmarshal b = .ok r) :
    r.rb.length = b.length ∧
    (∀ i, i < b.length →
      r.rb[i]? = if 4 ≤ i ∧ i < 4 + r.k.Signature.length then some 0 else b[i]?) ∧
    r.b = b := by
  rcases SignatureData.Unmarshal_ok b r h with ⟨_, _, hs, hrb, hb⟩ | ⟨h4, hc, ht, hs, _, hrb, hb⟩
  · refine ⟨by rw [hrb], ?_, hb⟩
    intro i _
    rw [hrb, hs, if_neg (by simp)]
  · rw [← ht] at hc
    have hsl : r.k.Signature.length = SignatureData.size r.k.SignatureType := by
      rw [hs, slice_length _ _ _ hc]
      omega
    refine ⟨?_, ?_, hb⟩
    · rw [hrb]
      simp only [List.length_append, List.length_take, List.length_replicate,
        List.length_drop]
      omega
    · intro i _
      rw [hrb, hsl]
      exact zeroed_getElem? b 4 _ i hc

/-- C11 on a server signature buffer of type 16: the twelve signature bytes
are zero in the returned copy, the type and the RODC identifier are kept. -/
theorem C11_signature_zeroed_in_copy_witness :
    SignatureData.Unmarshal signatureBuffer
      = .ok ⟨⟨16, [0xa1, 0xa2, 0xa3, 0xa4, 0xa5, 0xa6, 0xa7, 0xa8, 0xa9, 0xaa, 0xab, 0xac],
          0x0102⟩,
        [16, 0, 0, 0, 0, 0, 0, 0, 0, 0, 0, 0, 0, 0, 0, 0, 0x02, 0x01], signatureBuffer⟩ ∧
    ([16, 0, 0, 0, 0, 0, 0, 0, 0, 0, 0, 0, 0, 0, 0, 0, 0x02, 0x01] : Bytes).length
      = signatureBuffer.length :=
  ⟨by decide,
    (C11_signature_zeroed_in_copy signatureBuffer
      ⟨⟨16, [0xa1, 0xa2, 0xa3, 0xa4, 0xa5, 0xa6, 0xa7, 0xa8, 0xa9, 0xaa, 0xab, 0xac],
          0x0102⟩,
        [16, 0, 0, 0, 0, 0, 0, 0, 0, 0, 0, 0, 0, 0, 0, 0, 0x02, 0x01], signatureBuffer⟩
      (by decide)).1⟩

/-- C12: when `SignatureData.Unmarshal` returns no error and the signature
type, read little-endian from the first four bytes, is
`KERB_CHECKSUM_HMAC_MD5`, the signature is the 16 bytes after the type; when it
is `HMAC_SHA1_96_AES128` or `HMAC_SHA1_96_AES256`, the 12 bytes after the type;
and the RODC identifier is the little-endian `uint16` after the signature (0
when fewer than two bytes follow the signature). -/
theorem C12_signature_by_type (b : Bytes) (r : SignatureData.Unmarshalled)
    (h : SignatureData.Unmarshal b = .ok r)
    (hknown : r.k.SignatureType = KERB_CHECKSUM_HMAC_MD5_UNSIGNED ∨
      r.k.SignatureType = HMAC_SHA1_96_AES128 ∨ r.k.SignatureType = HMAC_SHA1_96_AES256) :
    r.k.SignatureType = ByteOrder.LittleEndian.Uint32 (slice b 0 4) ∧
    (r.k.SignatureType = KERB_CHECKSUM_HMAC_MD5_UNSIGNED →
      r.k.Signature = slice b 4 20 ∧ r.k.Signature.length = 16 ∧
      r.k.RODCIdentifier
        = if b.length < 22 then 0 else ByteOrder.LittleEndian.Uint16 (slice b 20 22)) ∧
    (r.k.SignatureType = HMAC_SHA1_96_AES128 ∨ r.k.SignatureType = HMAC_SHA1_96_AES256 →
      r.k.Signature = slice b 4 16 ∧ r.k.Signature.length = 12 ∧
      r.k.RODCIdentifier
        = if b.length < 18 then 0 else ByteOrder.LittleEndian.Uint16 (slice b 16 18)) := by
  rcases SignatureData.Unmarshal_ok b r h with ⟨_, ht, _⟩ | ⟨h4, hc, ht, hs, hr, _⟩
  · rw [ht] at hknown
    have hn : ¬ ((0 : Nat) = KERB_CHECKSUM_HMAC_MD5_UNSIGNED ∨ 0 = HMAC_SHA1_96_AES128 ∨
        0 = HMAC_SHA1_96_AES256) := by decide
    exact absurd hknown hn
  · rw [← ht] at hc
    refine ⟨ht, ?_, ?_⟩
    · intro hm
      have hsz : SignatureData.size r.k.SignatureType = 16 := by rw [hm]; decide
      rw [hsz] at hs hr hc
      exact ⟨hs, by rw [hs, slice_length _ _ _ hc], hr⟩
    · intro ha
      have hsz : SignatureData.size r.k.SignatureType = 12 := by
        rcases ha with ha | ha <;> rw [ha] <;> decide
      rw [hsz] at hs hr hc
      exact ⟨hs, by rw [hs, slice_length _ _ _ hc], hr⟩

/-- C12 on a buffer of type 16: a signature of twelve bytes and the RODC
identifier `0x0102` read after it. -/
theorem C12_signature_by_type_witness :
    (SignatureData.Unmarshal signatureBuffer).toOption.map (fun r => r.k)
      = some ⟨16, [0xa1, 0xa2, 0xa3, 0xa4, 0xa5, 0xa6, 0xa7, 0xa8, 0xa9, 0xaa, 0xab, 0xac],
          0x0102⟩ ∧
    ([0xa1, 0xa2, 0xa3, 0xa4, 0xa5, 0xa6, 0xa7, 0xa8, 0xa9, 0xaa, 0xab, 0xac] : Bytes).length
      = 12 :=
  ⟨by decide,
    ((C12_signature_by_type signatureBuffer
      ⟨⟨16, [0xa1, 0xa2, 0xa3, 0xa4, 0xa5, 0xa6, 0xa7, 0xa8, 0xa9, 0xaa, 0xab, 0xac],
          0x0102⟩,
        [16, 0, 0, 0, 0, 0, 0, 0, 0, 0, 0, 0, 0, 0, 0, 0, 0x02, 0x01], signatureBuffer⟩
      (by decide) (by decide)).2.2 (by decide)).2.1⟩

/-! ### Replay cache: other triples, stored record, eviction -/

/-- The second call after a first call on the empty cache: it reports a replay
exactly when it presents the record key, the client time and the service
name-string of the first. -/
theorem Cache.IsReplay_after_first (key : PrincipalName → Bytes) (now now' : Time)
    (S S' : PrincipalName) (a a' : Authenticator) :
    (Cache.IsReplay key (Cache.IsReplay key Cache.empty now S a).2 now' S' a').1 = true ↔
      (key a'.CName = key a.CName ∧ clientTime a' = clientTime a ∧
        S'.NameString = S.NameString) := by
  have h1 : Cache.IsReplay key Cache.empty now S a
      = (false, Cache.AddEntry key Cache.empty now S a) := by
    simp [Cache.IsReplay, Cache.getClientEntry, Cache.getClientEntries, Cache.empty, GoMap.get]
  rw [h1]
  constructor
  · intro htrue
    rcases Cache.IsReplay_cases key (Cache.AddEntry key Cache.empty now S a) now' S' a' with
      h | ⟨_, e, he, hs⟩
    · rw [h] at htrue
      exact absurd htrue (by simp)
    · by_cases hk : key a'.CName = key a.CName
      · by_cases ht : clientTime a' = clientTime a
        · have hsame := Cache.getClientEntry_AddEntry_same key Cache.empty now S a
          unfold Cache.getClientEntry Cache.getClientEntries at he hsame
          rw [hk, ht, hsame] at he
          simp only [Option.some.injEq] at he
          subst he
          simp only [PrincipalName.Equal, decide_eq_true_eq] at hs
          exact ⟨hk, ht, hs.symm⟩
        · exfalso
          simp [Cache.getClientEntry, Cache.getClientEntries, Cache.AddEntry, Cache.empty,
            GoMap.get, GoMap.set, GoMap.delete, hk, Ne.symm ht] at he
      · exfalso
        simp [Cache.getClientEntry, Cache.getClientEntries, Cache.AddEntry, Cache.empty,
          GoMap.get, GoMap.set, GoMap.delete, Ne.symm hk] at he
  · rintro ⟨hk, ht, hS⟩
    have hsame := Cache.getClientEntry_AddEntry_same key Cache.empty now S a
    have hget : Cache.getClientEntry key (Cache.AddEntry key Cache.empty now S a) a'.CName
        (clientTime a') = some ⟨now, S, clientTime a⟩ := by
      unfold Cache.getClientEntry Cache.getClientEntries at hsame ⊢
      rw [hk, ht, hsame]
    unfold Cache.IsReplay
    simp only []
    rw [hget]
    simp [PrincipalName.Equal, hS]

/-- C13, as the code has it: after `IsReplay(S, a)` on the empty cache,
`IsReplay(S', a')` returns false whenever `(S', a')` differs from `(S, a)` in
the record key of the client (`GetPrincipalNameString` of its name), in
`ctime + cusec` or in the name-string of the service. -/
theorem C13_other_triple_is_no_replay (key : PrincipalName → Bytes) (now now' : Time)
    (S S' : PrincipalName) (a a' : Authenticator)
    (hdiff : key a'.CName ≠ key a.CName ∨ clientTime a' ≠ clientTime a ∨
      S'.NameString ≠ S.NameString) :
    (Cache.IsReplay key (Cache.IsReplay key Cache.empty now S a).2 now' S' a').1 = false := by
  cases hr : (Cache.IsReplay key (Cache.IsReplay key Cache.empty now S a).2 now' S' a').1 with
  | false => rfl
  | true =>
    obtain ⟨hk, ht, hS⟩ := (Cache.IsReplay_after_first key now now' S S' a a').mp hr
    rcases hdiff with h | h | h
    · exact absurd hk h
    · exact absurd ht h
    · exact absurd hS h

/-- C13 at scenario S5 and beyond: after `alice` presented to `HTTP/…`, the
same authenticator for `host/…` is no replay, nor is `bob`'s. -/
theorem C13_other_triple_is_no_replay_witness :
    (nameKey authAlice.CName ≠ nameKey authAlice.CName ∨
      clientTime authAlice ≠ clientTime authAlice ∨
      svcHost.NameString ≠ svcHTTP.NameString) ∧
    (Cache.IsReplay nameKey (Cache.IsReplay nameKey Cache.empty 100 svcHTTP authAlice).2 101
      svcHost authAlice).1 = false ∧
    (nameKey authBob.CName ≠ nameKey authAlice.CName ∨
      clientTime authBob ≠ clientTime authAlice ∨
      svcHTTP.NameString ≠ svcHTTP.NameString) ∧
    (Cache.IsReplay nameKey (Cache.IsReplay nameKey Cache.empty 100 svcHTTP authAlice).2 101
      svcHTTP authBob).1 = false :=
  ⟨Or.inr (Or.inr (by decide)),
    C13_other_triple_is_no_replay nameKey 100 101 svcHTTP svcHost authAlice authAlice
      (Or.inr (Or.inr (by decide))),
    Or.inl (by decide),
    C13_other_triple_is_no_replay nameKey 100 101 svcHTTP svcHTTP authAlice authBob
      (Or.inl (by decide))⟩

/-- C13, as the spec has it, fails: the client names `[a, b]` and `[a/b]` are
not component-wise equal, yet `strings.Join` with `/` gives both the record key
`a/b`. After `IsReplay(S, a)` on the empty cache for the first, `IsReplay(S,
a')` for the second, with the same client time and service, returns true. -/
theorem C13_counterexample :
    authASlashB.CName.NameString ≠ authAB.CName.NameString ∧
    nameKey authASlashB.CName = nameKey authAB.CName ∧
    clientTime authASlashB = clientTime authAB ∧
    (Cache.IsReplay nameKey Cache.empty 100 svcHTTP authAB).1 = false ∧
    (Cache.IsReplay nameKey (Cache.IsReplay nameKey Cache.empty 100 svcHTTP authAB).2 101
      svcHTTP authASlashB).1 = true := by
  decide

/-- For a client that is in the cache already, `AddEntry` writes the replay
entry and leaves the stored sequence number and sub-key as they were. -/
theorem Cache.AddEntry_known_client (key : PrincipalName → Bytes) (c : Cache) (now : Time)
    (sname : PrincipalName) (a : Authenticator) (ce : clientEntries)
    (h : Cache.getClientEntries key c a.CName = some ce) :
    Cache.getClientEntries key (Cache.AddEntry key c now sname a) a.CName
      = some ⟨GoMap.set ce.ReplayMap (clientTime a) ⟨now, sname, clientTime a⟩,
          ce.SeqNumber, ce.SubKey⟩ := by
  unfold Cache.AddEntry
  simp only [h]
  exact GoMap.get_set_same _ _ _

/-- For a client that is new to the cache, `AddEntry` stores the replay entry
with the sequence number and the sub-key of the authenticator. -/
theorem Cache.AddEntry_new_client (key : PrincipalName → Bytes) (c : Cache) (now : Time)
    (sname : PrincipalName) (a : Authenticator)
    (h : Cache.getClientEntries key c a.CName = none) :
    Cache.getClientEntries key (Cache.AddEntry key c now sname a) a.CName
      = some ⟨[(clientTime a, ⟨now, sname, clientTime a⟩)], a.SeqNumber, a.SubKey⟩ := by
  unfold Cache.AddEntry
  simp only [h]
  exact GoMap.get_set_same _ _ _

/-- C14 at the failing input: `alice` is in the cache with sequence number 7
and the zero sub-key; `AddEntry` with her next authenticator (sequence number
8, a sub-key of type 18) writes the replay entry, but the record still holds
sequence number 7 and the zero sub-key. -/
theorem C14_AddEntry_keeps_old_sequence_number :
    authAliceNext.SeqNumber = 8 ∧ authAliceNext.SubKey = ⟨18, [1, 2, 3, 4]⟩ ∧
    (Cache.getClientEntries nameKey
      (Cache.AddEntry nameKey (Cache.AddEntry nameKey Cache.empty 100 svcHTTP authAlice) 101
        svcHTTP authAliceNext) authAliceNext.CName).map
        (fun ce => (ce.SeqNumber, ce.SubKey, GoMap.get ce.ReplayMap (clientTime authAliceNext)))
      = some (7, ⟨0, []⟩, some ⟨101, svcHTTP, clientTime authAliceNext⟩) := by
  decide
theorem GoMap.get_eq_none_of_not_mem {K V : Type} [DecidableEq K] (m : GoMap K V) (k : K)
    (h : k ∉ m.map Prod.fst) : GoMap.get m k = none := by
  induction m with
  | nil => rfl
  | cons kv m ih =>
    simp only [List.map_cons, List.mem_cons, not_or] at h
    rw [GoMap.get, if_neg (fun e => h.1 e.symm)]
    exact ih h.2

theorem GoMap.mem_keys_delete {K V : Type} [DecidableEq K] (m : GoMap K V) (k k' : K)
    (h : k' ∈ (GoMap.delete m k).map Prod.fst) : k' ∈ m.map Prod.fst ∧ k' ≠ k := by
  induction m with
  | nil => simp [GoMap.delete] at h
  | cons kv m ih =>
    unfold GoMap.delete at h
    by_cases hk : kv.1 = k
    · rw [if_pos hk] at h
      exact ⟨List.mem_cons_of_mem _ (ih h).1, (ih h).2⟩
    · rw [if_neg hk] at h
      simp only [List.map_cons, List.mem_cons] at h ⊢
      rcases h with h | h
      · exact ⟨Or.inl h, by rw [h]; exact hk⟩
      · exact ⟨Or.inr (ih h).1, (ih h).2⟩

theorem GoMap.nodup_delete {K V : Type} [DecidableEq K] (m : GoMap K V) (k : K)
    (h : (m.map Prod.fst).Nodup) : ((GoMap.delete m k).map Prod.fst).Nodup := by
  induction m with
  | nil => exact List.nodup_nil
  | cons kv m ih =>
    simp only [List.map_cons, List.nodup_cons] at h
    unfold GoMap.delete
    by_cases hk : kv.1 = k
    · rw [if_pos hk]; exact ih h.2
    · rw [if_neg hk]
      simp only [List.map_cons, List.nodup_cons]
      exact ⟨fun hm => h.1 (GoMap.mem_keys_delete m k kv.1 hm).1, ih h.2⟩

/-- A `range` visits no key twice. -/
theorem GoMap.nodup_bindings {K V : Type} [DecidableEq K] (m : GoMap K V) :
    ((GoMap.bindings m).map Prod.fst).Nodup := by
  induction m with
  | nil => exact List.nodup_nil
  | cons kv m ih =>
    unfold GoMap.bindings
    simp only [List.map_cons, List.nodup_cons]
    exact ⟨fun hm => (GoMap.mem_keys_delete _ _ _ hm).2 rfl, GoMap.nodup_delete _ _ ih⟩

/-- A `range` visits every key with its value. -/
theorem GoMap.get_bindings {K V : Type} [DecidableEq K] (m : GoMap K V) (k : K) :
    GoMap.get (GoMap.bindings m) k = GoMap.get m k := by
  induction m with
  | nil => rfl
  | cons kv m ih =>
    unfold GoMap.bindings
    by_cases hk : kv.1 = k
    · rw [GoMap.get, if_pos hk, GoMap.get, if_pos hk]
    · rw [GoMap.get, if_neg hk, GoMap.get, if_neg hk,
        GoMap.get_delete_ne _ _ _ (fun e => hk e.symm), ih]

theorem GoMap.get_filterMap {K V : Type} [DecidableEq K] (f : V → Option V) (m : GoMap K V)
    (k : K) (h : (m.map Prod.fst).Nodup) :
    GoMap.get (m.filterMap (fun kv => (f kv.2).map (fun v => (kv.1, v)))) k
      = (GoMap.get m k).bind f := by
  induction m with
  | nil => rfl
  | cons kv m ih =>
    simp only [List.map_cons, List.nodup_cons] at h
    rw [List.filterMap_cons]
    by_cases hk : kv.1 = k
    · rw [GoMap.get, if_pos hk, Option.some_bind]
      cases hf : f kv.2 with
      | none =>
        simp only [Option.map_none']
        apply GoMap.get_eq_none_of_not_mem
        intro hm
        apply h.1
        rw [hk]
        simp only [List.mem_map, List.mem_filterMap] at hm ⊢
        obtain ⟨x, ⟨y, hy, hxy⟩, hx⟩ := hm
        refine ⟨y, hy, ?_⟩
        cases hfy : f y.2 with
        | none => rw [hfy] at hxy; simp at hxy
        | some v => rw [hfy] at hxy; simp at hxy; rw [← hx, ← hxy]
      | some v =>
        simp only [Option.map_some']
        rw [GoMap.get, if_pos hk]
    · rw [GoMap.get, if_neg hk]
      cases hf : f kv.2 with
      | none => simp only [Option.map_none']; exact ih h.2
      | some v =>
        simp only [Option.map_some']
        rw [GoMap.get, if_neg hk]
        exact ih h.2

/-- After a `range` that deletes or rewrites, a key holds what the body left
of its value. -/
theorem GoMap.get_rangeUpdate {K V : Type} [DecidableEq K] (f : V → Option V) (m : GoMap K V)
    (k : K) : GoMap.get (GoMap.rangeUpdate f m) k = (GoMap.get m k).bind f := by
  unfold GoMap.rangeUpdate
  rw [GoMap.get_filterMap f _ k (GoMap.nodup_bindings m), GoMap.get_bindings]

/-- C15: after `ClearOldEntries(d)` at time `now`, the cache holds under every
client key and client time the entry it held before when
`now - PresentedTime` is at most `d`, unaltered, and no entry otherwise; and
every client record that remains has a replay map that is not empty. -/
theorem C15_ClearOldEntries_keeps_young_entries (c : Cache) (now : Time) (d : Duration) :
    (∀ (k : Bytes) (t : Time),
      Cache.entryAt (Cache.ClearOldEntries c now d) k t
        = (Cache.entryAt c k t).bind
            (fun e => if Time.Sub now e.PresentedTime ≤ d then some e else none)) ∧
    (∀ (k : Bytes) (ce : clientEntries),
      GoMap.get (Cache.ClearOldEntries c now d).Entries k = some ce →
        ce.ReplayMap ≠ [] ∧ ∃ t e, GoMap.get ce.ReplayMap t = some e) := by
  have young : ∀ e : replayCacheEntry,
      (if Time.Sub now e.PresentedTime > d then none else some e)
        = (if Time.Sub now e.PresentedTime ≤ d then some e else none) := by
    intro e
    by_cases h : Time.Sub now e.PresentedTime ≤ d
    · rw [if_pos h, if_neg (not_lt.mpr h)]
    · rw [if_neg h, if_pos (not_le.mp h)]
  constructor
  · intro k t
    unfold Cache.entryAt Cache.ClearOldEntries
    simp only [GoMap.get_rangeUpdate]
    cases hce : GoMap.get c.Entries k with
    | none => rfl
    | some ce =>
      simp only [Option.some_bind]
      have hget : GoMap.get (ClearOldEntries.replayMap now d ce.ReplayMap) t
          = (GoMap.get ce.ReplayMap t).bind
              (fun e => if Time.Sub now e.PresentedTime ≤ d then some e else none) := by
        unfold ClearOldEntries.replayMap
        rw [GoMap.get_rangeUpdate]
        congr 1
        funext e
        exact young e
      by_cases hempty : (ClearOldEntries.replayMap now d ce.ReplayMap).length = 0
      · rw [if_pos hempty]
        rw [← hget, List.length_eq_zero.mp hempty]
        rfl
      · rw [if_neg hempty]
        exact hget
  · intro k ce hce
    unfold Cache.ClearOldEntries at hce
    simp only [GoMap.get_rangeUpdate] at hce
    cases hold : GoMap.get c.Entries k with
    | none => rw [hold] at hce; simp at hce
    | some ce0 =>
      rw [hold] at hce
      simp only [Option.some_bind] at hce
      split_ifs at hce with hempty
      simp only [Option.some.injEq] at hce
      subst hce
      simp only
      have hne : ClearOldEntries.replayMap now d ce0.ReplayMap ≠ [] :=
        fun h => hempty (by rw [h]; rfl)
      refine ⟨hne, ?_⟩
      cases hm : ClearOldEntries.replayMap now d ce0.ReplayMap with
      | nil => exact absurd hm hne
      | cons kv m => exact ⟨kv.1, kv.2, by simp [GoMap.get]⟩

/-! ### Security identifiers: string form -/

theorem ascii_dash : ascii "-" = [45] := by decide

theorem ascii_S1 : ascii "S-1-" = [83, 45, 49, 45] := by decide

theorem ascii_0x : ascii "0x" = [48, 120] := by decide

theorem ascii_S1_0x : ascii "S-1-0x" = ascii "S-1-" ++ ascii "0x" := by decide

theorem bytesToNat_zero_cons (bs : Bytes) : bytesToNat ((0 : Byte) :: bs) = bytesToNat bs := by
  simp [bytesToNat]

theorem RPCSID.foldl_subAuthority (subs : List Nat) (str : Bytes) :
    subs.foldl (fun str sub => str ++ ascii "-" ++ decimal sub) str
      = str ++ RPCSID.subAuthorityText subs := by
  induction subs generalizing str with
  | nil => simp [RPCSID.subAuthorityText]
  | cons sub subs ih =>
    rw [List.foldl_cons, ih, RPCSID.subAuthorityText]
    simp [List.append_assoc]

/-- On a six-byte authority `ToString` returns the string form of the spec. -/
theorem RPCSID.ToString_eq_stringForm (s : RPCSID)
    (h : s.IdentifierAuthority.Value.length = 6) :
    RPCSID.ToString s = .ok (RPCSID.stringForm s) := by
  have hlen : (([0, 0] : Bytes) ++ s.IdentifierAuthority.Value).length = 8 := by
    simp [h]
  have htake : (([0, 0] : Bytes) ++ s.IdentifierAuthority.Value).take 8
      = [0, 0] ++ s.IdentifierAuthority.Value := by
    apply List.take_of_length_le
    omega
  have hval : bytesToNat (([0, 0] : Bytes) ++ s.IdentifierAuthority.Value)
      = bytesToNat s.IdentifierAuthority.Value := by
    show bytesToNat ((0 : Byte) :: (0 : Byte) :: s.IdentifierAuthority.Value) = _
    rw [bytesToNat_zero_cons, bytesToNat_zero_cons]
  unfold RPCSID.ToString
  simp only []
  rw [if_neg (by omega), htake, hval, RPCSID.foldl_subAuthority]
  unfold RPCSID.stringForm RPCSID.authorityText
  by_cases hi : bytesToNat s.IdentifierAuthority.Value < 2 ^ 32
  · rw [if_neg (by omega), if_pos hi]
  · rw [if_pos (by omega), if_neg hi, ascii_S1_0x]
    simp [List.append_assoc]

/-- C16: for every RPCSID whose identifier authority has six bytes, `ToString`
returns "S-1-", then the authority (the decimal numeral of its big-endian value
when that is below 2^32, otherwise "0x" and the hex digits of the six bytes),
then "-" and the decimal numeral of each sub-authority in order. -/
theorem C16_ToString_string_form (s : RPCSID)
    (h : s.IdentifierAuthority.Value.length = 6) :
    RPCSID.ToString s
      = .ok (ascii "S-1-"
          ++ (if bytesToNat s.IdentifierAuthority.Value < 2 ^ 32
              then decimal (bytesToNat s.IdentifierAuthority.Value)
              else ascii "0x" ++ hexEncode s.IdentifierAuthority.Value)
          ++ RPCSID.subAuthorityText s.SubAuthority) :=
  RPCSID.ToString_eq_stringForm s h

/-- Scenario S6: authority [0,0,0,0,0,5] and sub-authorities [21,100,200,500]
give "S-1-5-21-100-200-500". -/
theorem C16_ToString_string_form_witness :
    sidS6.IdentifierAuthority.Value.length = 6 ∧
    RPCSID.ToString sidS6 = .ok (ascii "S-1-5-21-100-200-500") :=
  ⟨by decide, (C16_ToString_string_form sidS6 (by decide)).trans (by decide)⟩
theorem decimalDigits_lt (fuel n : Nat) : ∀ d ∈ decimalDigits fuel n, d < 10 := by
  induction fuel generalizing n with
  | zero => intro d hd; simp [decimalDigits] at hd
  | succ fuel ih =>
    intro d hd
    rw [decimalDigits] at hd
    split at hd
    · simp at hd; omega
    · rcases List.mem_cons.mp hd with h | h
      · omega
      · exact ih _ d h

/-- Value of a list of decimal digits, least significant first. -/
theorem decimalDigits_value (fuel n : Nat) (h : n < fuel) :
    (decimalDigits fuel n).foldr (fun d acc => d + 10 * acc) 0 = n := by
  induction fuel generalizing n with
  | zero => omega
  | succ fuel ih =>
    rw [decimalDigits]
    split
    · simp
    · rw [List.foldr_cons, ih (n / 10) (by omega)]
      omega

theorem decimal_digit (n : Nat) : ∀ c ∈ decimal n, 48 ≤ c.val ∧ c.val ≤ 57 := by
  intro c hc
  unfold decimal at hc
  rcases List.mem_map.mp hc with ⟨d, hd, rfl⟩
  have := decimalDigits_lt (n + 1) n d (List.mem_reverse.mp hd)
  rw [byte_val_ofNat]
  omega

/-- The numeral is read back to the number it was written from. -/
theorem decimal_value (n : Nat) :
    (((decimal n).map (fun c => c.val - 48)).reverse).foldr (fun d acc => d + 10 * acc) 0
      = n := by
  have hmap : (decimal n).map (fun c => c.val - 48) = (decimalDigits (n + 1) n).reverse := by
    unfold decimal
    rw [List.map_map]
    conv_rhs => rw [← List.map_id (decimalDigits (n + 1) n).reverse]
    apply List.map_congr_left
    intro d hd
    have := decimalDigits_lt (n + 1) n d (List.mem_reverse.mp hd)
    show (Fin.ofNat (48 + d) : Byte).val - 48 = d
    rw [byte_val_ofNat]
    omega
  rw [hmap, List.reverse_reverse]
  exact decimalDigits_value (n + 1) n (by omega)

theorem decimal_injective (n m : Nat) (h : decimal n = decimal m) : n = m := by
  rw [← decimal_value n, ← decimal_value m, h]

theorem hexDigit_val (n : Nat) (h : n < 16) :
    (hexDigit n).val = if n < 10 then 48 + n else 87 + n := by
  unfold hexDigit
  split
  · rw [byte_val_ofNat]; omega
  · rw [byte_val_ofNat]; omega

theorem hexDigit_injective (n m : Nat) (hn : n < 16) (hm : m < 16)
    (h : hexDigit n = hexDigit m) : n = m := by
  have h' := congrArg Fin.val h
  rw [hexDigit_val n hn, hexDigit_val m hm] at h'
  split_ifs at h' <;> omega

theorem hexEncode_injective (a b : Bytes) (h : hexEncode a = hexEncode b) : a = b := by
  induction a generalizing b with
  | nil =>
    cases b with
    | nil => rfl
    | cons y ys => simp [hexEncode] at h
  | cons x xs ih =>
    cases b with
    | nil => simp [hexEncode] at h
    | cons y ys =>
      simp only [hexEncode, List.cons.injEq] at h
      obtain ⟨h1, h2, h3⟩ := h
      have e1 := hexDigit_injective _ _ (by omega) (by omega) h1
      have e2 := hexDigit_injective _ _ (by omega) (by omega) h2
      have hxy : x = y := Fin.ext (by omega)
      rw [hxy, ih ys h3]

theorem hexEncode_no_dash (a : Bytes) : ∀ c ∈ hexEncode a, c ≠ (45 : Byte) := by
  induction a with
  | nil => intro c hc; simp [hexEncode] at hc
  | cons x xs ih =>
    intro c hc
    simp only [hexEncode, List.mem_cons] at hc
    have key : ∀ n, n < 16 → hexDigit n ≠ (45 : Byte) := by
      intro n hn e
      have e' := congrArg Fin.val e
      rw [hexDigit_val n hn] at e'
      have : ((45 : Byte).val) = 45 := rfl
      split_ifs at e' <;> omega
    rcases hc with rfl | rfl | hc
    · exact key _ (by omega)
    · exact key _ (by omega)
    · exact ih c hc

theorem decimal_no_dash (n : Nat) : ∀ c ∈ decimal n, c ≠ (45 : Byte) := by
  intro c hc e
  have := decimal_digit n c hc
  rw [e] at this
  have h45 : ((45 : Byte).val) = 45 := rfl
  omega

/-- Two texts without "-" followed by remainders that are empty or begin with
"-" are equal exactly when they are equal part by part. -/
theorem token_split (u v r1 r2 : Bytes)
    (hu : ∀ c ∈ u, c ≠ (45 : Byte)) (hv : ∀ c ∈ v, c ≠ (45 : Byte))
    (h1 : r1 = [] ∨ ∃ t, r1 = (45 : Byte) :: t) (h2 : r2 = [] ∨ ∃ t, r2 = (45 : Byte) :: t)
    (h : u ++ r1 = v ++ r2) : u = v ∧ r1 = r2 := by
  induction u generalizing v with
  | nil =>
    cases v with
    | nil => exact ⟨rfl, by simpa using h⟩
    | cons c v =>
      exfalso
      simp only [List.nil_append, List.cons_append] at h
      rcases h1 with h1 | ⟨t, h1⟩
      · rw [h1] at h; simp at h
      · rw [h1] at h
        have := (List.cons.inj h).1
        exact hv c (List.mem_cons_self _ _) this.symm
  | cons a u ih =>
    cases v with
    | nil =>
      exfalso
      simp only [List.nil_append, List.cons_append] at h
      rcases h2 with h2 | ⟨t, h2⟩
      · rw [h2] at h; simp at h
      · rw [h2] at h
        have := (List.cons.inj h).1
        exact hu a (List.mem_cons_self _ _) this
    | cons c v =>
      simp only [List.cons_append, List.cons.injEq] at h
      obtain ⟨hac, h⟩ := h
      have := ih v (fun x hx => hu x (List.mem_cons_of_mem _ hx))
        (fun x hx => hv x (List.mem_cons_of_mem _ hx)) h
      exact ⟨by rw [hac, this.1], this.2⟩

theorem RPCSID.subAuthorityText_head (subs : List Nat) :
    RPCSID.subAuthorityText subs = [] ∨
      ∃ t, RPCSID.subAuthorityText subs = (45 : Byte) :: t := by
  cases subs with
  | nil => exact Or.inl rfl
  | cons sub subs =>
    right
    rw [RPCSID.subAuthorityText, ascii_dash]
    exact ⟨_, rfl⟩

theorem RPCSID.subAuthorityText_injective (xs ys : List Nat)
    (h : RPCSID.subAuthorityText xs = RPCSID.subAuthorityText ys) : xs = ys := by
  induction xs generalizing ys with
  | nil =>
    cases ys with
    | nil => rfl
    | cons y ys => rw [RPCSID.subAuthorityText, RPCSID.subAuthorityText, ascii_dash] at h; simp at h
  | cons x xs ih =>
    cases ys with
    | nil => rw [RPCSID.subAuthorityText, RPCSID.subAuthorityText, ascii_dash] at h; simp at h
    | cons y ys =>
      rw [RPCSID.subAuthorityText, RPCSID.subAuthorityText, ascii_dash] at h
      simp only [List.append_assoc, List.singleton_append, List.cons_append, List.nil_append,
        List.cons.injEq, true_and] at h
      have := token_split _ _ _ _ (decimal_no_dash x) (decimal_no_dash y)
        (RPCSID.subAuthorityText_head xs) (RPCSID.subAuthorityText_head ys) h
      rw [decimal_injective x y this.1, ih ys this.2]

theorem bytesToNat_lt (bs : Bytes) : bytesToNat bs < 256 ^ bs.length := by
  induction bs with
  | nil => simp [bytesToNat]
  | cons b bs ih =>
    rw [bytesToNat, List.length_cons, pow_succ]
    have hb := b.isLt
    have : b.val * 256 ^ bs.length ≤ 255 * 256 ^ bs.length :=
      Nat.mul_le_mul_right _ (by omega)
    omega

theorem bytesToNat_injective (a b : Bytes) (hlen : a.length = b.length)
    (h : bytesToNat a = bytesToNat b) : a = b := by
  induction a generalizing b with
  | nil =>
    cases b with
    | nil => rfl
    | cons y ys => simp at hlen
  | cons x xs ih =>
    cases b with
    | nil => simp at hlen
    | cons y ys =>
      simp only [List.length_cons, Nat.add_right_cancel_iff] at hlen
      rw [bytesToNat, bytesToNat, hlen] at h
      have hx := bytesToNat_lt xs
      have hy := bytesToNat_lt ys
      rw [hlen] at hx
      have hp : 0 < 256 ^ ys.length := by positivity
      have hxy : x.val = y.val := by
        rcases Nat.lt_trichotomy x.val y.val with hlt | heq | hgt
        · exfalso
          have : (x.val + 1) * 256 ^ ys.length ≤ y.val * 256 ^ ys.length :=
            Nat.mul_le_mul_right _ hlt
          rw [Nat.add_mul] at this
          omega
        · exact heq
        · exfalso
          have : (y.val + 1) * 256 ^ ys.length ≤ x.val * 256 ^ ys.length :=
            Nat.mul_le_mul_right _ hgt
          rw [Nat.add_mul] at this
          omega
      rw [hxy] at h
      have hrest : bytesToNat xs = bytesToNat ys := by omega
      rw [Fin.ext hxy, ih ys hlen hrest]

theorem RPCSID.authorityText_no_dash (value : Bytes) :
    ∀ c ∈ RPCSID.authorityText value, c ≠ (45 : Byte) := by
  intro c hc
  unfold RPCSID.authorityText at hc
  split at hc
  · exact decimal_no_dash _ c hc
  · rw [ascii_0x] at hc
    simp only [List.cons_append, List.nil_append, List.mem_cons] at hc
    rcases hc with rfl | rfl | hc
    · decide
    · decide
    · exact hexEncode_no_dash _ c hc

theorem RPCSID.authorityText_injective (a b : Bytes) (hlen : a.length = b.length)
    (h : RPCSID.authorityText a = RPCSID.authorityText b) : a = b := by
  have hx : ∀ n (t : Bytes), decimal n ≠ (48 : Byte) :: (120 : Byte) :: t := by
    intro n t e
    have := decimal_digit n (120 : Byte) (by rw [e]; simp)
    have h120 : ((120 : Byte).val) = 120 := rfl
    omega
  unfold RPCSID.authorityText at h
  split at h <;> split at h
  · exact bytesToNat_injective a b hlen (decimal_injective _ _ h)
  · rw [ascii_0x] at h
    exact absurd h (hx _ _)
  · rw [ascii_0x] at h
    exact absurd h.symm (hx _ _)
  · exact hexEncode_injective a b (List.append_cancel_left h)

/-- C17: the string form determines the structural fields: two RPCSIDs with
six-byte identifier authorities whose `ToString` results are equal have equal
identifier-authority bytes and equal sub-authority lists. -/
theorem C17_ToString_determines_fields (s1 s2 : RPCSID)
    (h1 : s1.IdentifierAuthority.Value.length = 6)
    (h2 : s2.IdentifierAuthority.Value.length = 6)
    (h : RPCSID.ToString s1 = RPCSID.ToString s2) :
    s1.IdentifierAuthority.Value = s2.IdentifierAuthority.Value ∧
    s1.SubAuthority = s2.SubAuthority := by
  rw [RPCSID.ToString_eq_stringForm s1 h1, RPCSID.ToString_eq_stringForm s2 h2] at h
  have h' := Except.ok.inj h
  unfold RPCSID.stringForm at h'
  rw [List.append_assoc, List.append_assoc] at h'
  have h'' := List.append_cancel_left h'
  have := token_split _ _ _ _ (RPCSID.authorityText_no_dash _) (RPCSID.authorityText_no_dash _)
    (RPCSID.subAuthorityText_head _) (RPCSID.subAuthorityText_head _) h''
  exact ⟨RPCSID.authorityText_injective _ _ (by rw [h1, h2]) this.1,
    RPCSID.subAuthorityText_injective _ _ this.2⟩

/-- The SID of scenario S6 and a record with other revision and count fields
but the same string: authority and sub-authorities agree. -/
theorem C17_ToString_determines_fields_witness :
    (sidS6.IdentifierAuthority.Value.length = 6 ∧
      sidS6Other.IdentifierAuthority.Value.length = 6 ∧
      RPCSID.ToString sidS6 = RPCSID.ToString sidS6Other) ∧
    sidS6.IdentifierAuthority.Value = sidS6Other.IdentifierAuthority.Value ∧
    sidS6.SubAuthority = sidS6Other.SubAuthority :=
  ⟨⟨by decide, by decide, by decide⟩,
    C17_ToString_determines_fields sidS6 sidS6Other (by decide) (by decide) (by decide)⟩

/-! ### Security identifiers and string headers: reads -/

theorem ensureAlignment_ge (p n : Nat) : p ≤ ensureAlignment p n := by
  unfold ensureAlignment
  split <;> omega

theorem ensureAlignment_four (p : Nat) : ensureAlignment p 4 % 4 = 0 := by
  unfold ensureAlignment
  split <;> omega

theorem ensureAlignment_two (p : Nat) : ensureAlignment p 2 % 2 = 0 := by
  unfold ensureAlignment
  split <;> omega

theorem ndr.ReadUint32_ok (b : Bytes) (p : Nat) (e : ByteOrder)
    (h : ensureAlignment p 4 + 4 ≤ b.length) :
    ndr.ReadUint32 b p e
      = .ok (e.Uint32 (slice b (ensureAlignment p 4) (ensureAlignment p 4 + 4)),
          ensureAlignment p 4 + 4) := by
  have := ensureAlignment_ge p 4
  unfold ndr.ReadUint32
  rw [if_neg (by omega), if_neg (by omega), if_neg (by omega)]

theorem ndr.ReadUint16_ok (b : Bytes) (p : Nat) (e : ByteOrder)
    (h : ensureAlignment p 2 + 2 ≤ b.length) :
    ndr.ReadUint16 b p e
      = .ok (e.Uint16 (slice b (ensureAlignment p 2) (ensureAlignment p 2 + 2)),
          ensureAlignment p 2 + 2) := by
  have := ensureAlignment_ge p 2
  unfold ndr.ReadUint16
  rw [if_neg (by omega), if_neg (by omega), if_neg (by omega)]

theorem ndr.ReadUint8_ok (b : Bytes) (p : Nat) (h : p + 1 ≤ b.length) :
    ndr.ReadUint8 b p = .ok (byteAt b p, p + 1) := by
  unfold ndr.ReadUint8
  rw [if_neg (by omega), if_neg (by omega), ensureAlignment_of_dvd p 1 (Nat.mod_one p)]

theorem ndr.ReadBytes_ok (b : Bytes) (p s : Nat) (e : ByteOrder) (h : p + s ≤ b.length) :
    ndr.ReadBytes b p s e = .ok (slice b p (p + s), p + s) := by
  unfold ndr.ReadBytes
  rw [if_neg (by omega), if_neg (by omega)]

/-- The loop reads `n` consecutive values from an aligned cursor. -/
theorem ReadRPCSID.loop_ok (b : Bytes) (e : ByteOrder) (n q : Nat) (hq : q % 4 = 0)
    (h : q + 4 * n ≤ b.length) :
    ReadRPCSID.loop b e n q
      = .ok ((List.range n).map (fun i => e.Uint32 (slice b (q + 4 * i) (q + 4 * i + 4))),
          q + 4 * n) := by
  induction n generalizing q with
  | zero => simp [ReadRPCSID.loop]
  | succ n ih =>
    have hal : ensureAlignment q 4 = q := ensureAlignment_of_dvd q 4 hq
    rw [ReadRPCSID.loop, ndr.ReadUint32_ok b q e (by rw [hal]; omega), hal]
    simp only []
    rw [ih (q + 4) (by omega) (by omega)]
    simp only []
    rw [List.range_succ_eq_map, List.map_cons, List.map_map]
    have hfun : ((fun i => e.Uint32 (slice b (q + 4 * i) (q + 4 * i + 4))) ∘ Nat.succ)
        = (fun i => e.Uint32 (slice b (q + 4 + 4 * i) (q + 4 + 4 * i + 4))) := by
      funext i
      show e.Uint32 (slice b (q + 4 * (i + 1)) (q + 4 * (i + 1) + 4)) = _
      have e1 : q + 4 * (i + 1) = q + 4 + 4 * i := by omega
      rw [e1]
    rw [hfun]
    have e2 : q + 4 + 4 * n = q + 4 * (n + 1) := by omega
    rw [e2]
    rfl

/-- What `ReadRPCSID` does on a buffer that holds the twelve bytes of the
header at the aligned cursor `p0`. -/
theorem ReadRPCSID_header (b : Bytes) (p : Nat) (e : ByteOrder)
    (h : ensureAlignment p 4 + 12 ≤ b.length) :
    ReadRPCSID b p e
      = if byteAt b (ensureAlignment p 4 + 4) ≠ 1 then
          .error (.malformed "SID revision value read as %d when it must be 1"
            [byteAt b (ensureAlignment p 4 + 4)])
        else if e.Uint32 (slice b (ensureAlignment p 4) (ensureAlignment p 4 + 4))
            ≠ byteAt b (ensureAlignment p 4 + 5) then
          .error (.malformed
            "Number of elements (%d) within SID in the byte stream does not equal the SubAuthorityCount (%d)"
            [e.Uint32 (slice b (ensureAlignment p 4) (ensureAlignment p 4 + 4)),
              byteAt b (ensureAlignment p 4 + 5)])
        else
          match ReadRPCSID.loop b e (byteAt b (ensureAlignment p 4 + 5))
              (ensureAlignment p 4 + 12) with
          | .error f => .error f
          | .ok (s, q) =>
            .ok ({ Revision := byteAt b (ensureAlignment p 4 + 4),
                   SubAuthorityCount := byteAt b (ensureAlignment p 4 + 5),
                   IdentifierAuthority :=
                     ⟨slice b (ensureAlignment p 4 + 6) (ensureAlignment p 4 + 12)⟩,
                   SubAuthority := s }, q) := by
  unfold ReadRPCSID
  rw [ndr.ReadUint32_ok b p e (by omega)]
  simp only []
  rw [ndr.ReadUint8_ok b _ (by omega)]
  simp only []
  by_cases hr : byteAt b (ensureAlignment p 4 + 4) ≠ 1
  · rw [if_pos hr, if_pos hr]
  · rw [if_neg hr, if_neg hr, ndr.ReadUint8_ok b _ (by omega)]
    simp only []
    unfold ReadRPCSIDIdentifierAuthority
    rw [ndr.ReadBytes_ok b _ 6 e (by omega)]

/-- C18: on a buffer that holds, from the aligned cursor `p0`, the twelve bytes
of the header and the four bytes of each of the `c` sub-authorities counted by
the byte at `p0 + 5`, `ReadRPCSID` returns a Malformed error exactly when the
revision byte is not 1 or the size prefix differs from that count; otherwise it
returns the RPCSID with Revision 1, SubAuthorityCount equal to the size prefix,
the six authority bytes, and the `c` uint32 values that follow, in order. -/
theorem C18_ReadRPCSID_malformed_iff (b : Bytes) (p : Nat) (e : ByteOrder)
    (h : ensureAlignment p 4 + 12 + 4 * byteAt b (ensureAlignment p 4 + 5) ≤ b.length) :
    ((∃ etext args, ReadRPCSID b p e = .error (.malformed etext args)) ↔
      (byteAt b (ensureAlignment p 4 + 4) ≠ 1 ∨
        e.Uint32 (slice b (ensureAlignment p 4) (ensureAlignment p 4 + 4))
          ≠ byteAt b (ensureAlignment p 4 + 5))) ∧
    (¬ (byteAt b (ensureAlignment p 4 + 4) ≠ 1 ∨
        e.Uint32 (slice b (ensureAlignment p 4) (ensureAlignment p 4 + 4))
          ≠ byteAt b (ensureAlignment p 4 + 5)) →
      ReadRPCSID b p e
        = .ok ({ Revision := 1,
                 SubAuthorityCount :=
                   e.Uint32 (slice b (ensureAlignment p 4) (ensureAlignment p 4 + 4)),
                 IdentifierAuthority :=
                   ⟨slice b (ensureAlignment p 4 + 6) (ensureAlignment p 4 + 12)⟩,
                 SubAuthority :=
                   (List.range (byteAt b (ensureAlignment p 4 + 5))).map (fun i =>
                     e.Uint32 (slice b (ensureAlignment p 4 + 12 + 4 * i)
                       (ensureAlignment p 4 + 12 + 4 * i + 4))) },
               ensureAlignment p 4 + 12 + 4 * byteAt b (ensureAlignment p 4 + 5))) := by
  have h4 := ensureAlignment_four p
  have hloop := ReadRPCSID.loop_ok b e (byteAt b (ensureAlignment p 4 + 5))
    (ensureAlignment p 4 + 12) (by omega) h
  have hhead := ReadRPCSID_header b p e (by omega)
  by_cases hr : byteAt b (ensureAlignment p 4 + 4) ≠ 1
  · rw [if_pos hr] at hhead
    exact ⟨⟨fun _ => Or.inl hr, fun _ => ⟨_, _, hhead⟩⟩, fun hn => absurd (Or.inl hr) hn⟩
  · rw [if_neg hr] at hhead
    by_cases hs : e.Uint32 (slice b (ensureAlignment p 4) (ensureAlignment p 4 + 4))
        ≠ byteAt b (ensureAlignment p 4 + 5)
    · rw [if_pos hs] at hhead
      exact ⟨⟨fun _ => Or.inr hs, fun _ => ⟨_, _, hhead⟩⟩, fun hn => absurd (Or.inr hs) hn⟩
    · rw [if_neg hs, hloop] at hhead
      simp only [] at hhead
      have hr1 : byteAt b (ensureAlignment p 4 + 4) = 1 := not_not.mp hr
      have hs1 := not_not.mp hs
      rw [hr1, ← hs1] at hhead
      refine ⟨⟨?_, ?_⟩, fun _ => ?_⟩
      · rintro ⟨t, a, ht⟩
        rw [hhead] at ht
        exact absurd ht (by simp)
      · intro hor
        rcases hor with h1 | h2
        · exact absurd h1 hr
        · exact absurd h2 hs
      · rw [hhead, ← hs1]

/-- The NDR bytes of the SID of scenario S6 are read back to that SID. -/
theorem C18_ReadRPCSID_malformed_iff_witness :
    ensureAlignment 0 4 + 12 + 4 * byteAt sidS6Bytes (ensureAlignment 0 4 + 5)
      ≤ sidS6Bytes.length ∧
    ReadRPCSID sidS6Bytes 0 .LittleEndian = .ok (sidS6, 28) :=
  ⟨by decide,
    ((C18_ReadRPCSID_malformed_iff sidS6Bytes 0 .LittleEndian (by decide)).2
      (by decide)).trans (by decide)⟩
/-- What `ReadRPCUnicodeString` does on a buffer that holds the two uint16
values at the cursor rounded up to a multiple of 2 and the uint32 value at the
next multiple of 4. -/
theorem ReadRPCUnicodeString_header (b : Bytes) (p : Nat) (e : ByteOrder)
    (h : ensureAlignment (ensureAlignment p 2 + 4) 4 + 4 ≤ b.length) :
    ReadRPCUnicodeString b p e
      = if e.Uint16 (slice b (ensureAlignment p 2 + 2) (ensureAlignment p 2 + 4))
              < e.Uint16 (slice b (ensureAlignment p 2) (ensureAlignment p 2 + 2)) ∨
            e.Uint16 (slice b (ensureAlignment p 2) (ensureAlignment p 2 + 2)) % 2 ≠ 0 ∨
            e.Uint16 (slice b (ensureAlignment p 2 + 2) (ensureAlignment p 2 + 4)) % 2 ≠ 0 then
          .error (.malformed "Invalid data for RPC_UNICODE_STRING" [])
        else
          .ok ({ Length := e.Uint16 (slice b (ensureAlignment p 2) (ensureAlignment p 2 + 2)),
                 MaximumLength :=
                   e.Uint16 (slice b (ensureAlignment p 2 + 2) (ensureAlignment p 2 + 4)),
                 BufferPrt :=
                   e.Uint32 (slice b (ensureAlignment (ensureAlignment p 2 + 4) 4)
                     (ensureAlignment (ensureAlignment p 2 + 4) 4 + 4)),
                 Value := [] },
               ensureAlignment (ensureAlignment p 2 + 4) 4 + 4) := by
  have h2 := ensureAlignment_two p
  have hge := ensureAlignment_ge (ensureAlignment p 2 + 4) 4
  have hal : ensureAlignment (ensureAlignment p 2 + 2) 2 = ensureAlignment p 2 + 2 :=
    ensureAlignment_of_dvd _ 2 (by omega)
  unfold ReadRPCUnicodeString
  rw [ndr.ReadUint16_ok b p e (by omega)]
  simp only []
  rw [ndr.ReadUint16_ok b _ e (by rw [hal]; omega), hal]
  simp only []
  split
  · rfl
  · rw [ndr.ReadUint32_ok b _ e h]

/-- C19, as the code has it: on a buffer that holds two uint16 values at the
cursor rounded up to a multiple of 2 and a uint32 value at the next multiple of
4 (for a cursor that is a multiple of 4: at least 8 bytes at the cursor),
`ReadRPCUnicodeString` returns a Malformed error exactly when maximum-length <
length, or length is odd, or maximum-length is odd; otherwise it returns the
header with these three values, in that order, and an empty Value. -/
theorem C19_ReadRPCUnicodeString_aligned (b : Bytes) (p : Nat) (e : ByteOrder)
    (h : ensureAlignment (ensureAlignment p 2 + 4) 4 + 4 ≤ b.length) :
    ((∃ etext args, ReadRPCUnicodeString b p e = .error (.malformed etext args)) ↔
      (e.Uint16 (slice b (ensureAlignment p 2 + 2) (ensureAlignment p 2 + 4))
          < e.Uint16 (slice b (ensureAlignment p 2) (ensureAlignment p 2 + 2)) ∨
        e.Uint16 (slice b (ensureAlignment p 2) (ensureAlignment p 2 + 2)) % 2 ≠ 0 ∨
        e.Uint16 (slice b (ensureAlignment p 2 + 2) (ensureAlignment p 2 + 4)) % 2 ≠ 0)) ∧
    (¬ (e.Uint16 (slice b (ensureAlignment p 2 + 2) (ensureAlignment p 2 + 4))
          < e.Uint16 (slice b (ensureAlignment p 2) (ensureAlignment p 2 + 2)) ∨
        e.Uint16 (slice b (ensureAlignment p 2) (ensureAlignment p 2 + 2)) % 2 ≠ 0 ∨
        e.Uint16 (slice b (ensureAlignment p 2 + 2) (ensureAlignment p 2 + 4)) % 2 ≠ 0) →
      ReadRPCUnicodeString b p e
        = .ok ({ Length := e.Uint16 (slice b (ensureAlignment p 2) (ensureAlignment p 2 + 2)),
                 MaximumLength :=
                   e.Uint16 (slice b (ensureAlignment p 2 + 2) (ensureAlignment p 2 + 4)),
                 BufferPrt :=
                   e.Uint32 (slice b (ensureAlignment (ensureAlignment p 2 + 4) 4)
                     (ensureAlignment (ensureAlignment p 2 + 4) 4 + 4)),
                 Value := [] },
               ensureAlignment (ensureAlignment p 2 + 4) 4 + 4)) := by
  have hhead := ReadRPCUnicodeString_header b p e h
  split at hhead
  · rename_i hc
    exact ⟨⟨fun _ => hc, fun _ => ⟨_, _, hhead⟩⟩, fun hn => absurd hc hn⟩
  · rename_i hc
    refine ⟨⟨?_, fun hc' => absurd hc' hc⟩, fun _ => hhead⟩
    rintro ⟨t, a, ht⟩
    rw [hhead] at ht
    exact absurd ht (by simp)

/-- Eight bytes at cursor 0: length 4, maximum length 6 and pointer 0x00020004
are returned. -/
theorem C19_ReadRPCUnicodeString_aligned_witness :
    ensureAlignment (ensureAlignment 0 2 + 4) 4 + 4 ≤ unicodeHeader.length ∧
    ReadRPCUnicodeString unicodeHeader 0 .LittleEndian
      = .ok ({ Length := 4, MaximumLength := 6, BufferPrt := 0x00020004, Value := [] }, 8) :=
  ⟨by decide,
    ((C19_ReadRPCUnicodeString_aligned unicodeHeader 0 .LittleEndian (by decide)).2
      (by decide)).trans (by decide)⟩

/-- C19, as the spec has it, fails: a buffer of ten bytes holds eight bytes at
cursor 2, with length 4 and maximum length 6 (both even, 4 ≤ 6); the uint32 is
read at the next multiple of 4, which is 8, and reaches past the end: the call
panics and returns neither a Malformed error nor a header. -/
theorem C19_counterexample :
    2 + 8 ≤ unicodeHeaderAt2.length ∧
    ndr.ReadUint16 unicodeHeaderAt2 2 .LittleEndian = .ok (4, 4) ∧
    ndr.ReadUint16 unicodeHeaderAt2 4 .LittleEndian = .ok (6, 6) ∧
    ¬ ((6 : Nat) < 4 ∨ 4 % 2 ≠ 0 ∨ 6 % 2 ≠ 0) ∧
    ReadRPCUnicodeString unicodeHeaderAt2 2 .LittleEndian
      = .error (.panic "slice bounds out of range") := by
  decide

/-! ### FILETIME round trip -/

theorem wrapInt64_of_range (x : Int) (h1 : -2 ^ 63 ≤ x) (h2 : x < 2 ^ 63) :
    wrapInt64 x = x := by
  unfold wrapInt64
  omega

/-- Under the range condition the high word is below 2^31 and `MSEpoch` is the
value `high * 2^32 + low`. -/
theorem FileTime.MSEpoch_of_range (ft : FileTime)
    (hl : ft.LowDateTime < 2 ^ 32) (hh : ft.HighDateTime < 2 ^ 32)
    (h1 : -2 ^ 63 ≤ (FileTime.MSEpoch ft - unixEpochDiff) * 100) :
    ft.HighDateTime < 2 ^ 31 ∧
    FileTime.MSEpoch ft = (ft.HighDateTime : Int) * 2 ^ 32 + (ft.LowDateTime : Int) := by
  unfold FileTime.MSEpoch unixEpochDiff at h1
  unfold FileTime.MSEpoch
  unfold wrapInt64 at h1 ⊢
  omega

/-- C20: for every FileTime (two 32-bit fields) for which
(MSEpoch(ft) - 116444736000000000) * 100 fits in an int64,
`GetFileTime(ft.Time())` is `ft`, in both fields. -/
theorem C20_FileTime_roundtrip (ft : FileTime)
    (hl : ft.LowDateTime < 2 ^ 32) (hh : ft.HighDateTime < 2 ^ 32)
    (h1 : -2 ^ 63 ≤ (FileTime.MSEpoch ft - unixEpochDiff) * 100)
    (h2 : (FileTime.MSEpoch ft - unixEpochDiff) * 100 < 2 ^ 63) :
    GetFileTime (FileTime.Time ft) = ft := by
  obtain ⟨hh31, hm⟩ := FileTime.MSEpoch_of_range ft hl hh h1
  obtain ⟨lo, hi⟩ := ft
  simp only at hl hh hh31 hm h1 h2
  rw [hm] at h1 h2
  unfold unixEpochDiff at h1 h2
  have hin : wrapInt64 ((hi : Int) * 2 ^ 32 + (lo : Int) - 116444736000000000)
      = (hi : Int) * 2 ^ 32 + (lo : Int) - 116444736000000000 :=
    wrapInt64_of_range _ (by omega) (by omega)
  have hns : FileTime.Time ⟨lo, hi⟩
      = ((hi : Int) * 2 ^ 32 + (lo : Int) - 116444736000000000) * 100 := by
    unfold FileTime.Time
    rw [hm]
    unfold unixEpochDiff
    rw [hin]
    exact wrapInt64_of_range _ (by omega) (by omega)
  have hunix : wrapInt64 (((hi : Int) * 2 ^ 32 + (lo : Int) - 116444736000000000) * 100)
      = ((hi : Int) * 2 ^ 32 + (lo : Int) - 116444736000000000) * 100 :=
    wrapInt64_of_range _ (by omega) (by omega)
  have hfp : wrapInt64 ((hi : Int) * 2 ^ 32 + (lo : Int) - 116444736000000000
        + 116444736000000000) = (hi : Int) * 2 ^ 32 + (lo : Int) := by
    rw [wrapInt64_of_range _ (by omega) (by omega)]
    omega
  have hhd : Int.fdiv ((hi : Int) * 2 ^ 32 + (lo : Int)) (2 ^ 32) = (hi : Int) := by
    rw [Int.fdiv_eq_ediv _ (by decide : (0 : Int) ≤ 2 ^ 32)]
    omega
  have hshl : wrapInt64 ((hi : Int) * 2 ^ 32) = (hi : Int) * 2 ^ 32 :=
    wrapInt64_of_range _ (by omega) (by omega)
  have hld : wrapInt64 ((hi : Int) * 2 ^ 32 + (lo : Int) - (hi : Int) * 2 ^ 32) = (lo : Int) := by
    rw [wrapInt64_of_range _ (by omega) (by omega)]
    omega
  have e1 : ((lo : Int) % 2 ^ 32).toNat = lo := by omega
  have e2 : ((hi : Int) % 2 ^ 32).toNat = hi := by omega
  unfold GetFileTime
  simp only []
  rw [hns, hunix, Int.mul_tdiv_cancel _ (by decide : (100 : Int) ≠ 0)]
  unfold unixEpochDiff
  rw [hfp, hhd, hshl, hld, e1, e2]

/-- The FILETIME of 2017-05-06 15:58:46.6838012 UTC goes to the instant
1494086326683801200 ns and comes back. -/
theorem C20_FileTime_roundtrip_witness :
    (fileTime2017.LowDateTime < 2 ^ 32 ∧ fileTime2017.HighDateTime < 2 ^ 32 ∧
      -2 ^ 63 ≤ (FileTime.MSEpoch fileTime2017 - unixEpochDiff) * 100 ∧
      (FileTime.MSEpoch fileTime2017 - unixEpochDiff) * 100 < 2 ^ 63) ∧
    FileTime.Time fileTime2017 = 1494086326683801200 ∧
    GetFileTime (FileTime.Time fileTime2017) = fileTime2017 :=
  ⟨⟨by decide, by decide, by decide, by decide⟩, by decide,
    C20_FileTime_roundtrip fileTime2017 (by decide) (by decide) (by decide) (by decide)⟩

/-! ### FILETIME values -/

/-- C21, as the code has it: for every FileTime with a 32-bit LowDateTime and a
HighDateTime below 2^31, `MSEpoch` is high * 2^32 + low and `Unix` is that
value minus 116444736000000000, divided by 10^7 with the quotient truncated
towards zero; for a HighDateTime from 2^31 on, `MSEpoch` is high * 2^32 + low
minus 2^64. -/
theorem C21_MSEpoch_below_two_pow_63 (ft : FileTime) (hl : ft.LowDateTime < 2 ^ 32)
    (hh : ft.HighDateTime < 2 ^ 32) :
    (ft.HighDateTime < 2 ^ 31 →
      FileTime.MSEpoch ft = (ft.HighDateTime : Int) * 2 ^ 32 + (ft.LowDateTime : Int) ∧
      FileTime.Unix ft
        = Int.tdiv ((ft.HighDateTime : Int) * 2 ^ 32 + (ft.LowDateTime : Int)
            - 116444736000000000) 10000000) ∧
    (2 ^ 31 ≤ ft.HighDateTime →
      FileTime.MSEpoch ft
        = (ft.HighDateTime : Int) * 2 ^ 32 + (ft.LowDateTime : Int) - 2 ^ 64) := by
  constructor
  · intro h31
    have hm : FileTime.MSEpoch ft
        = (ft.HighDateTime : Int) * 2 ^ 32 + (ft.LowDateTime : Int) := by
      unfold FileTime.MSEpoch wrapInt64
      omega
    refine ⟨hm, ?_⟩
    unfold FileTime.Unix
    rw [hm]
    unfold unixEpochDiff
    rw [wrapInt64_of_range _ (by omega) (by omega)]
  · intro h31
    unfold FileTime.MSEpoch wrapInt64
    omega

/-- The FILETIME of May 2017: value 131385599266838012, Unix time 1494086326. -/
theorem C21_MSEpoch_below_two_pow_63_witness :
    (fileTime2017.LowDateTime < 2 ^ 32 ∧ fileTime2017.HighDateTime < 2 ^ 32 ∧
      fileTime2017.HighDateTime < 2 ^ 31) ∧
    FileTime.MSEpoch fileTime2017 = 131385599266838012 ∧
    FileTime.Unix fileTime2017 = 1494086326 :=
  ⟨⟨by decide, by decide, by decide⟩,
    ((C21_MSEpoch_below_two_pow_63 fileTime2017 (by decide) (by decide)).1
      (by decide)).1.trans (by decide),
    ((C21_MSEpoch_below_two_pow_63 fileTime2017 (by decide) (by decide)).1
      (by decide)).2.trans (by decide)⟩

/-- C21, as the spec has it, fails: for low 0 and high 2^32 - 1 the value
high * 2^32 + low is 18446744069414584320, while `MSEpoch` returns -4294967296
and `Unix` returns -11644474029, not 1833029933341. -/
theorem C21_counterexample :
    fileTimeHigh.LowDateTime < 2 ^ 32 ∧ fileTimeHigh.HighDateTime < 2 ^ 32 ∧
    (fileTimeHigh.HighDateTime : Int) * 2 ^ 32 + (fileTimeHigh.LowDateTime : Int)
      = 18446744069414584320 ∧
    FileTime.MSEpoch fileTimeHigh = -4294967296 ∧
    FileTime.Unix fileTimeHigh = -11644474029 ∧
    Int.tdiv (18446744069414584320 - 116444736000000000) 10000000 = 1833029933341 := by
  decide

/-! ### Client info -/

/-- The loop reads `n` consecutive code units from an even cursor. -/
theorem ndr.ReadUTF16String_loop_ok (b : Bytes) (e : ByteOrder) (n q : Nat) (hq : q % 2 = 0)
    (h : q + 2 * n ≤ b.length) :
    ndr.ReadUTF16String.loop b e n q
      = .ok ((List.range n).map (fun i => e.Uint16 (slice b (q + 2 * i) (q + 2 * i + 2))),
          q + 2 * n) := by
  induction n generalizing q with
  | zero => simp [ndr.ReadUTF16String.loop]
  | succ n ih =>
    have hal : ensureAlignment q 2 = q := ensureAlignment_of_dvd q 2 hq
    rw [ndr.ReadUTF16String.loop, ndr.ReadUint16_ok b q e (by rw [hal]; omega), hal]
    simp only []
    rw [ih (q + 2) (by omega) (by omega)]
    simp only []
    rw [List.range_succ_eq_map, List.map_cons, List.map_map]
    have hfun : ((fun i => e.Uint16 (slice b (q + 2 * i) (q + 2 * i + 2))) ∘ Nat.succ)
        = (fun i => e.Uint16 (slice b (q + 2 + 2 * i) (q + 2 + 2 * i + 2))) := by
      funext i
      show e.Uint16 (slice b (q + 2 * (i + 1)) (q + 2 * (i + 1) + 2)) = _
      have e1 : q + 2 * (i + 1) = q + 2 + 2 * i := by omega
      rw [e1]
    rw [hfun]
    have e2 : q + 2 + 2 * n = q + 2 * (n + 1) := by omega
    rw [e2]
    rfl

theorem ReadFileTime_zero (b : Bytes) (e : ByteOrder) (h : 8 ≤ b.length) :
    ReadFileTime b 0 e
      = .ok ({ LowDateTime := e.Uint32 (slice b 0 4),
               HighDateTime := e.Uint32 (slice b 4 8) }, 8) := by
  have h0 : ensureAlignment 0 4 = 0 := ensureAlignment_of_dvd 0 4 rfl
  have h4 : ensureAlignment 4 4 = 4 := ensureAlignment_of_dvd 4 4 rfl
  unfold ReadFileTime
  rw [ndr.ReadUint32_ok b 0 e (by rw [h0]; omega), h0]
  simp only []
  rw [ndr.ReadUint32_ok b 4 e (by rw [h4]; omega), h4]

/-- What `ClientInfo.Unmarshal` does on a buffer of at least ten bytes. -/
theorem ClientInfo.Unmarshal_cases (b : Bytes) (h : 10 ≤ b.length) :
    ClientInfo.Unmarshal b
      = if b.length - 10 < ByteOrder.LittleEndian.Uint16 (slice b 8 10) then
          .error (.malformed "PAC ClientInfo length truncated" [])
        else if (b.drop (10 + 2 * (ByteOrder.LittleEndian.Uint16 (slice b 8 10) / 2))).any
            (fun v => v ≠ 0) then
          .error (.malformed "non-zero padding left over at end of data stream" [])
        else
          .ok { ClientID := { LowDateTime := ByteOrder.LittleEndian.Uint32 (slice b 0 4),
                              HighDateTime := ByteOrder.LittleEndian.Uint32 (slice b 4 8) },
                NameLength := ByteOrder.LittleEndian.Uint16 (slice b 8 10),
                Name := (List.range (ByteOrder.LittleEndian.Uint16 (slice b 8 10) / 2)).map
                  (fun i => ByteOrder.LittleEndian.Uint16
                    (slice b (10 + 2 * i) (10 + 2 * i + 2))) } := by
  have h8 : ensureAlignment 8 2 = 8 := ensureAlignment_of_dvd 8 2 rfl
  unfold ClientInfo.Unmarshal
  rw [ReadFileTime_zero b _ (by omega)]
  simp only []
  rw [ndr.ReadUint16_ok b 8 _ (by rw [h8]; omega), h8]
  simp only [Nat.reduceAdd]
  rw [if_neg (by omega), List.length_drop]
  by_cases ht : b.length - 10 < ByteOrder.LittleEndian.Uint16 (slice b 8 10)
  · rw [if_pos ht, if_pos ht]
  · rw [if_neg ht, if_neg ht]
    unfold ndr.ReadUTF16String
    rw [ndr.ReadUTF16String_loop_ok b _ _ 10 rfl (by omega)]
    simp only []
    by_cases hp : (b.drop (10 + 2 * (ByteOrder.LittleEndian.Uint16 (slice b 8 10) / 2))).any
        (fun v => v ≠ 0) = true
    · rw [if_pos hp, if_pos ⟨by omega, hp⟩]
    · rw [if_neg hp, if_neg (fun hc => hp hc.2)]

/-- C22: for every byte string of at least 10 bytes, with n the little-endian
uint16 at offset 8, `ClientInfo.Unmarshal` succeeds exactly when at least n
bytes follow offset 10 and every byte after the n/2 code units of the name is
zero; on success ClientID is the FILETIME of the first 8 bytes (low, then
high), NameLength is n and Name consists of those n/2 code units; otherwise a
Malformed error is returned. -/
theorem C22_ClientInfo_Unmarshal (b : Bytes) (h : 10 ≤ b.length) :
    ((∃ k, ClientInfo.Unmarshal b = .ok k) ↔
      (ByteOrder.LittleEndian.Uint16 (slice b 8 10) ≤ b.length - 10 ∧
        ∀ v ∈ b.drop (10 + 2 * (ByteOrder.LittleEndian.Uint16 (slice b 8 10) / 2)),
          v = (0 : Byte))) ∧
    (∀ k, ClientInfo.Unmarshal b = .ok k →
      k = { ClientID := { LowDateTime := ByteOrder.LittleEndian.Uint32 (slice b 0 4),
                          HighDateTime := ByteOrder.LittleEndian.Uint32 (slice b 4 8) },
            NameLength := ByteOrder.LittleEndian.Uint16 (slice b 8 10),
            Name := (List.range (ByteOrder.LittleEndian.Uint16 (slice b 8 10) / 2)).map
              (fun i => ByteOrder.LittleEndian.Uint16
                (slice b (10 + 2 * i) (10 + 2 * i + 2))) }) ∧
    ((¬ ∃ k, ClientInfo.Unmarshal b = .ok k) →
      ∃ etext args, ClientInfo.Unmarshal b = .error (.malformed etext args)) := by
  have hc := ClientInfo.Unmarshal_cases b h
  have hany : ∀ l : Bytes, l.any (fun v => v ≠ 0) = true ↔ ¬ ∀ v ∈ l, v = (0 : Byte) := by
    intro l
    simp [List.any_eq_true]
  split at hc
  · rename_i ht
    refine ⟨⟨?_, fun hr => absurd ht (by omega)⟩, ?_, fun _ => ⟨_, _, hc⟩⟩
    · rintro ⟨k, hk⟩
      rw [hc] at hk
      exact absurd hk (by simp)
    · intro k hk
      rw [hc] at hk
      exact absurd hk (by simp)
  · rename_i ht
    split at hc
    · rename_i hp
      refine ⟨⟨?_, fun hr => absurd hr.2 ((hany _).mp hp)⟩, ?_, fun _ => ⟨_, _, hc⟩⟩
      · rintro ⟨k, hk⟩
        rw [hc] at hk
        exact absurd hk (by simp)
      · intro k hk
        rw [hc] at hk
        exact absurd hk (by simp)
    · rename_i hp
      have hz : ∀ v ∈ b.drop (10 + 2 * (ByteOrder.LittleEndian.Uint16 (slice b 8 10) / 2)),
          v = (0 : Byte) := by
        by_contra hcon
        exact hp ((hany _).mpr hcon)
      refine ⟨⟨fun _ => ⟨by omega, hz⟩, fun _ => ⟨_, hc⟩⟩, ?_, fun hn => absurd ⟨_, hc⟩ hn⟩
      intro k hk
      rw [hc] at hk
      exact (Except.ok.inj hk).symm

set_option maxRecDepth 100000 in
/-- The buffer with the FILETIME of May 2017, name length 6, "bob" and two zero
bytes is unmarshalled. -/
theorem C22_ClientInfo_Unmarshal_witness :
    10 ≤ clientInfoBytes.length ∧
    ClientInfo.Unmarshal clientInfoBytes
      = .ok { ClientID := fileTime2017, NameLength := 6, Name := [98, 111, 98] } :=
  ⟨by decide,
    ((C22_ClientInfo_Unmarshal clientInfoBytes (by decide)).1.mpr
      ⟨by decide, by decide⟩).elim
      (fun k hk => hk.trans (congrArg Except.ok
        (((C22_ClientInfo_Unmarshal clientInfoBytes (by decide)).2.1 k hk).trans (by decide))))⟩

/-! ### Credentials info -/

theorem slice_to_end (b : Bytes) (p : Nat) : slice b p (p + (b.length - p)) = b.drop p := by
  unfold slice
  apply List.take_of_length_le
  rw [List.length_drop]
  omega

/-- C23: on a buffer that holds the version field, `CredentialsInfo.Unmarshal`
returns an error when the version is not 0, and (the etype field being there)
when the key type differs from the etype field taken as an int32; in both cases
`crypto.DecryptMessage` is not called and the credential data of the receiver
is left as it was. With version 0 and a key of the etype, the one call of
`crypto.DecryptMessage` is made on all bytes after the first 8, with the key
and the usage KERB_NON_KERB_SALT. -/
theorem C23_CredentialsInfo_checks_before_decrypting
    (DecryptMessage : Bytes → EncryptionKey → Int → Except String Bytes)
    (c : CredentialsInfo) (b : Bytes) (k : EncryptionKey) (h : 4 ≤ b.length) :
    (ByteOrder.LittleEndian.Uint32 (slice b 0 4) ≠ 0 →
      ∃ err, CredentialsInfo.Unmarshal DecryptMessage c b k
        = .ok ⟨some err,
            { c with Version := ByteOrder.LittleEndian.Uint32 (slice b 0 4) }, []⟩) ∧
    (8 ≤ b.length → ByteOrder.LittleEndian.Uint32 (slice b 0 4) = 0 →
      k.KeyType ≠ toInt32 (ByteOrder.LittleEndian.Uint32 (slice b 4 8)) →
      ∃ err, CredentialsInfo.Unmarshal DecryptMessage c b k
        = .ok ⟨some err,
            { c with Version := 0, EType := ByteOrder.LittleEndian.Uint32 (slice b 4 8),
                     PACCredentialDataEncrypted := b.drop 8 }, []⟩) ∧
    (8 ≤ b.length → ByteOrder.LittleEndian.Uint32 (slice b 0 4) = 0 →
      k.KeyType = toInt32 (ByteOrder.LittleEndian.Uint32 (slice b 4 8)) →
      CredentialsInfo.Unmarshal DecryptMessage c b k
        = match DecryptMessage (b.drop 8) k KERB_NON_KERB_SALT with
          | .error err =>
            .ok ⟨some (.errorf1 "error decrypting PAC Credentials Data: %v" [] (.other err)),
              { c with Version := 0, EType := ByteOrder.LittleEndian.Uint32 (slice b 4 8),
                       PACCredentialDataEncrypted := b.drop 8 },
              [⟨b.drop 8, k, KERB_NON_KERB_SALT⟩]⟩
          | .ok pt =>
            match ReadPACCredentialData pt 0 .LittleEndian with
            | .error f => .error f
            | .ok (cd, _) =>
              .ok ⟨none,
                { Version := 0, EType := ByteOrder.LittleEndian.Uint32 (slice b 4 8),
                  PACCredentialDataEncrypted := b.drop 8, PACCredentialData := cd },
                [⟨b.drop 8, k, KERB_NON_KERB_SALT⟩]⟩) := by
  have h0 : ensureAlignment 0 4 = 0 := ensureAlignment_of_dvd 0 4 rfl
  have h4 : ensureAlignment 4 4 = 4 := ensureAlignment_of_dvd 4 4 rfl
  have hv : ndr.ReadUint32 b 0 .LittleEndian
      = .ok (ByteOrder.LittleEndian.Uint32 (slice b 0 4), 4) := by
    rw [ndr.ReadUint32_ok b 0 _ (by rw [h0]; omega), h0]
  have he : 8 ≤ b.length → ndr.ReadUint32 b 4 .LittleEndian
      = .ok (ByteOrder.LittleEndian.Uint32 (slice b 4 8), 8) := by
    intro h8
    rw [ndr.ReadUint32_ok b 4 _ (by rw [h4]; omega), h4]
  have hb : 8 ≤ b.length → ndr.ReadBytes b 8 (b.length - 8) .LittleEndian
      = .ok (b.drop 8, 8 + (b.length - 8)) := by
    intro h8
    rw [ndr.ReadBytes_ok b 8 _ _ (by omega), slice_to_end]
  refine ⟨?_, ?_, ?_⟩
  · intro hver
    unfold CredentialsInfo.Unmarshal
    rw [hv]
    simp only []
    rw [if_pos hver]
    exact ⟨_, rfl⟩
  · intro h8 hver hkey
    unfold CredentialsInfo.Unmarshal
    rw [hv]
    simp only []
    rw [if_neg (not_not.mpr hver), he h8]
    simp only []
    rw [hb h8]
    simp only []
    unfold CredentialsInfo.DecryptEncPart
    simp only []
    rw [if_pos hkey, hver]
    exact ⟨_, rfl⟩
  · intro h8 hver hkey
    unfold CredentialsInfo.Unmarshal
    rw [hv]
    simp only []
    rw [if_neg (not_not.mpr hver), he h8]
    simp only []
    rw [hb h8]
    simp only []
    unfold CredentialsInfo.DecryptEncPart
    simp only []
    rw [if_neg (not_not.mpr hkey), hver]
    cases hd : DecryptMessage (b.drop 8) k KERB_NON_KERB_SALT with
    | error err => rfl
    | ok pt =>
      simp only []
      cases hr : ReadPACCredentialData pt 0 .LittleEndian with
      | error f => rfl
      | ok v => rfl

/-- A key of type 17 is refused for etype 18 without a call of the decryption;
with the key of type 18 the bytes after the first 8 are handed to it. -/
theorem C23_CredentialsInfo_checks_before_decrypting_witness :
    4 ≤ credentialsInfoBytes.length ∧
    (CredentialsInfo.Unmarshal decryptIdentity CredentialsInfo.zero credentialsInfoBytes
      key17).map (fun r => (r.err.isSome, r.decrypted, r.c.PACCredentialData))
      = .ok (true, [], CredentialData.zero) ∧
    (CredentialsInfo.Unmarshal decryptIdentity CredentialsInfo.zero credentialsInfoBytes
      key18).map (fun r => r.decrypted)
      = .ok [⟨credentialPlaintext, key18, KERB_NON_KERB_SALT⟩] :=
  ⟨by decide,
    ((C23_CredentialsInfo_checks_before_decrypting decryptIdentity CredentialsInfo.zero
      credentialsInfoBytes key17 (by decide)).2.1 (by decide) (by decide) (by decide)).elim
      (fun err herr => by rw [herr]; rfl),
    by
      rw [(C23_CredentialsInfo_checks_before_decrypting decryptIdentity CredentialsInfo.zero
        credentialsInfoBytes key18 (by decide)).2.2 (by decide) (by decide) (by decide)]
      decide⟩
/-- The value and error of `ReadRPCUnicodeString` are those of the call with
its cursor. -/
theorem ReadRPCUnicodeString_eq_state (b : Bytes) (p : Nat) (e : ByteOrder) :
    ReadRPCUnicodeString b p e
      = match ReadRPCUnicodeString.state b p e with
        | .error f => .error f
        | .ok (_, some f, _) => .error f
        | .ok (v, none, q) => .ok (v, q) := by
  unfold ReadRPCUnicodeString ReadRPCUnicodeString.state
  cases h1 : ndr.ReadUint16 b p e with
  | error f => rfl
  | ok v1 =>
    obtain ⟨l, p1⟩ := v1
    simp only []
    cases h2 : ndr.ReadUint16 b p1 e with
    | error f => rfl
    | ok v2 =>
      obtain ⟨ml, p2⟩ := v2
      simp only []
      split
      · rfl
      · cases h3 : ndr.ReadUint32 b p2 e with
        | error f => rfl
        | ok v3 => rfl

/-- C24 fails in the code: `ReadSECPKGSupplementalCred` assigns the error of
`ReadRPCUnicodeString` to `_`. In a plaintext with one credential whose string
header has length 3 and maximum length 2, `ReadRPCUnicodeString` at cursor 4
returns the Malformed error, yet `ReadPACCredentialData` returns a
CredentialData (with the zero header, and the next four bytes read as the
credential size) and `CredentialsInfo.Unmarshal` returns no error. -/
theorem C24_invalid_header_is_not_reported :
    ReadRPCUnicodeString credentialPlaintext 4 .LittleEndian
      = .error (.malformed "Invalid data for RPC_UNICODE_STRING" []) ∧
    ReadPACCredentialData credentialPlaintext 0 .LittleEndian
      = .ok ({ CredentialCount := 1,
               Credentials := [{ PackageName := RPCUnicodeString.zero, CredentialSize := 2,
                                 Credentials := [170, 187] }] }, 14) ∧
    CredentialsInfo.Unmarshal decryptIdentity CredentialsInfo.zero credentialsInfoBytes key18
      = .ok ⟨none,
          { Version := 0, EType := 18, PACCredentialDataEncrypted := credentialPlaintext,
            PACCredentialData :=
              { CredentialCount := 1,
                Credentials := [{ PackageName := RPCUnicodeString.zero, CredentialSize := 2,
                                  Credentials := [170, 187] }] } },
          [⟨credentialPlaintext, key18, KERB_NON_KERB_SALT⟩]⟩ := by
  decide

/-! ### Dialling and the cache invariant -/

/-- C25 fails in the code: `dialKDCUDP` and `dialKDCTCP` return as soon as an
address does not resolve. With two endpoints, the first of which does not
resolve while the second resolves and connects, both return the resolution
error and do not reach the second endpoint. -/
theorem C25_resolve_failure_ends_the_dial :
    (unresolvedFirstNet.ResolveUDPAddr (kdcAt kdcsTwo 1)).toOption = none ∧
    (unresolvedFirstNet.ResolveUDPAddr (kdcAt kdcsTwo 2)).toOption
      = some (ascii "kdc.example.com:88") ∧
    (unresolvedFirstNet.DialUDP (ascii "kdc.example.com:88")).toOption
      = some ⟨ascii "kdc.example.com:88"⟩ ∧
    dialKDCUDP unresolvedFirstNet 2 kdcsTwo
      = .error (.errorf1 "error resolving KDC address: %v" [] (.other "no such host")) ∧
    (unresolvedFirstNet.ResolveTCPAddr (kdcAt kdcsTwo 2)).toOption
      = some (ascii "kdc.example.com:88") ∧
    (unresolvedFirstNet.DialTCP (ascii "kdc.example.com:88")).toOption
      = some ⟨ascii "kdc.example.com:88"⟩ ∧
    dialKDCTCP unresolvedFirstNet 2 kdcsTwo
      = .error (.errorf1 "error resolving KDC address: %v" [] (.other "no such host")) := by
  decide
theorem GoMap.exists_get_of_ne_nil {K V : Type} [DecidableEq K] (m : GoMap K V)
    (h : m.length ≠ 0) : ∃ k v, GoMap.get m k = some v := by
  cases m with
  | nil => simp at h
  | cons kv m => exact ⟨kv.1, kv.2, by simp [GoMap.get]⟩

theorem Cache.Invariant_empty : Cache.Invariant Cache.empty := by
  intro k ce h
  simp [Cache.empty, GoMap.get] at h

theorem Cache.Invariant_AddEntry (key : PrincipalName → Bytes) (c : Cache) (now : Time)
    (sname : PrincipalName) (a : Authenticator) (h : Cache.Invariant c) :
    Cache.Invariant (Cache.AddEntry key c now sname a) := by
  intro k ce hk
  unfold Cache.AddEntry at hk
  simp only [] at hk
  cases hce : Cache.getClientEntries key c a.CName with
  | none =>
    rw [hce] at hk
    simp only [] at hk
    by_cases hkk : k = key a.CName
    · rw [hkk, GoMap.get_set_same] at hk
      have hce' := (Option.some.inj hk).symm
      rw [hce']
      refine ⟨by simp, ⟨clientTime a, ⟨now, sname, clientTime a⟩, by simp [GoMap.get]⟩, ?_⟩
      intro t e he
      simp only [GoMap.get] at he
      split at he
      · rename_i ht
        rw [← Option.some.inj he]
        exact ht
      · exact absurd he (by simp)
    · rw [GoMap.get_set_ne _ _ _ _ hkk] at hk
      exact h k ce hk
  | some ce0 =>
    rw [hce] at hk
    simp only [] at hk
    by_cases hkk : k = key a.CName
    · rw [hkk, GoMap.get_set_same] at hk
      have hce' := (Option.some.inj hk).symm
      rw [hce']
      refine ⟨by simp [GoMap.set], ⟨clientTime a, _, GoMap.get_set_same _ _ _⟩, ?_⟩
      intro t e he
      simp only [] at he
      by_cases ht : t = clientTime a
      · rw [ht, GoMap.get_set_same] at he
        rw [← Option.some.inj he, ht]
      · rw [GoMap.get_set_ne _ _ _ _ ht] at he
        exact (h (key a.CName) ce0 hce).2.2 t e he
    · rw [GoMap.get_set_ne _ _ _ _ hkk] at hk
      exact h k ce hk

theorem Cache.Invariant_IsReplay (key : PrincipalName → Bytes) (c : Cache) (now : Time)
    (sname : PrincipalName) (a : Authenticator) (h : Cache.Invariant c) :
    Cache.Invariant (Cache.IsReplay key c now sname a).2 := by
  rcases Cache.IsReplay_cases key c now sname a with h1 | ⟨h1, _⟩
  · rw [h1]; exact Cache.Invariant_AddEntry key c now sname a h
  · rw [h1]; exact h

theorem Cache.Invariant_ClearOldEntries (c : Cache) (now : Time) (d : Duration)
    (h : Cache.Invariant c) : Cache.Invariant (Cache.ClearOldEntries c now d) := by
  intro k ce hk
  unfold Cache.ClearOldEntries at hk
  simp only [] at hk
  rw [GoMap.get_rangeUpdate] at hk
  cases hce : GoMap.get c.Entries k with
  | none => rw [hce] at hk; simp at hk
  | some ce0 =>
    rw [hce] at hk
    simp only [Option.bind] at hk
    split at hk
    · exact absurd hk (by simp)
    · rename_i hlen
      have hce' := (Option.some.inj hk).symm
      rw [hce']
      refine ⟨hlen, GoMap.exists_get_of_ne_nil _ hlen, ?_⟩
      intro t e he
      simp only [] at he
      unfold ClearOldEntries.replayMap at he
      rw [GoMap.get_rangeUpdate] at he
      cases het : GoMap.get ce0.ReplayMap t with
      | none => rw [het] at he; simp at he
      | some e0 =>
        rw [het] at he
        simp only [Option.bind] at he
        split at he
        · exact absurd he (by simp)
        · rw [← Option.some.inj he]
          exact (h k ce0 hce).2.2 t e0 het

theorem Cache.Invariant_run (key : PrincipalName → Bytes) (c : Cache) (op : CacheOp)
    (h : Cache.Invariant c) : Cache.Invariant (CacheOp.run key c op) := by
  cases op with
  | addEntry now sname a => exact Cache.Invariant_AddEntry key c now sname a h
  | isReplay now sname a => exact Cache.Invariant_IsReplay key c now sname a h
  | clearOldEntries now d => exact Cache.Invariant_ClearOldEntries c now d h

theorem Cache.Invariant_runOps (key : PrincipalName → Bytes) (ops : List CacheOp) :
    ∀ c : Cache, Cache.Invariant c → Cache.Invariant (runOps key c ops) := by
  induction ops with
  | nil => intro c h; exact h
  | cons op ops ih =>
    intro c h
    exact ih _ (Cache.Invariant_run key c op h)

/-- C26: in every cache state reached from the empty cache by a sequence of
`AddEntry`, `IsReplay` and `ClearOldEntries` calls, every client record
present in `Entries` has a non-empty replay map, and every replay entry is
stored under the map key equal to its own `CTime` field. -/
theorem C26_cache_invariant (key : PrincipalName → Bytes) (ops : List CacheOp) :
    ∀ (k : Bytes) (ce : clientEntries),
      GoMap.get (runOps key Cache.empty ops).Entries k = some ce →
      ce.ReplayMap.length ≠ 0 ∧
      (∃ t e, GoMap.get ce.ReplayMap t = some e) ∧
      ∀ (t : Time) (e : replayCacheEntry), GoMap.get ce.ReplayMap t = some e → e.CTime = t :=
  Cache.Invariant_runOps key ops Cache.empty Cache.Invariant_empty

/-- The example sequence of calls leaves `bob` with one entry, stored under
its own client time. -/
theorem C26_cache_invariant_witness :
    GoMap.get (runOps nameKey Cache.empty cacheOpsExample).Entries (ascii "bob")
      = some ⟨[(clientTime authBob, ⟨2000, svcHost, clientTime authBob⟩)], 3, ⟨0, []⟩⟩ ∧
    ((⟨[(clientTime authBob, ⟨2000, svcHost, clientTime authBob⟩)], 3, ⟨0, []⟩⟩ :
        clientEntries).ReplayMap.length ≠ 0 ∧
      (∃ t e, GoMap.get (⟨[(clientTime authBob, ⟨2000, svcHost, clientTime authBob⟩)], 3,
        ⟨0, []⟩⟩ : clientEntries).ReplayMap t = some e) ∧
      ∀ (t : Time) (e : replayCacheEntry),
        GoMap.get (⟨[(clientTime authBob, ⟨2000, svcHost, clientTime authBob⟩)], 3,
          ⟨0, []⟩⟩ : clientEntries).ReplayMap t = some e → e.CTime = t) :=
  ⟨by decide, C26_cache_invariant nameKey cacheOpsExample (ascii "bob") _ (by decide)⟩

/-! ### Sequences of tickets -/

theorem lengthLength.loop_le (fuel i : Nat) : lengthLength.loop fuel i ≤ fuel := by
  induction fuel generalizing i with
  | zero => exact le_refl _
  | succ fuel ih =>
    unfold lengthLength.loop
    split
    · have := ih (i / 256)
      omega
    · omega

theorem parseLengthOctets_cons (k acc : Nat) (b : Byte) (bytes : Bytes) :
    parseLengthOctets (k + 1) acc (b :: bytes)
      = if acc ≥ 2 ^ 23 then .error "length too large"
        else if acc * 256 + b.val = 0 then .error "superfluous leading zeros in length"
        else parseLengthOctets k (acc * 256 + b.val) bytes := rfl

theorem parseLengthOctets_too_large (k acc : Nat) (bytes : Bytes) (h : 2 ^ 23 ≤ acc) :
    ∃ e, parseLengthOctets (k + 1) acc bytes = .error e := by
  cases bytes with
  | nil => exact ⟨_, rfl⟩
  | cons b bytes =>
    rw [parseLengthOctets_cons, if_pos h]
    exact ⟨_, rfl⟩

theorem parseLengthOctets_grows (k acc m : Nat) (bytes : Bytes)
    (hnext : ∀ (acc' : Nat) (bytes' : Bytes), m ≤ acc' →
      ∃ e, parseLengthOctets (k + 1) acc' bytes' = .error e)
    (hacc : m ≤ acc * 256 ∨ (acc = 0 ∧ m ≤ 1)) :
    ∃ e, parseLengthOctets (k + 2) acc bytes = .error e := by
  cases bytes with
  | nil => exact ⟨_, rfl⟩
  | cons b bytes =>
    rw [parseLengthOctets_cons]
    split_ifs with h1 h2
    · exact ⟨_, rfl⟩
    · exact ⟨_, rfl⟩
    · exact hnext _ _ (by omega)

/-- From the fifth length octet on, the length is too large. -/
theorem parseLengthOctets_five (k : Nat) (bytes : Bytes) :
    ∃ e, parseLengthOctets (k + 5) 0 bytes = .error e := by
  have h4 : ∀ (acc : Nat) (bytes : Bytes), 2 ^ 23 ≤ acc →
      ∃ e, parseLengthOctets (k + 1) acc bytes = .error e :=
    fun acc bytes h => parseLengthOctets_too_large k acc bytes h
  have h3 : ∀ (acc : Nat) (bytes : Bytes), 2 ^ 16 ≤ acc →
      ∃ e, parseLengthOctets (k + 1 + 1) acc bytes = .error e :=
    fun acc bytes h => parseLengthOctets_grows k acc (2 ^ 23) bytes h4 (Or.inl (by omega))
  have h2 : ∀ (acc : Nat) (bytes : Bytes), 2 ^ 8 ≤ acc →
      ∃ e, parseLengthOctets (k + 2 + 1) acc bytes = .error e :=
    fun acc bytes h => parseLengthOctets_grows (k + 1) acc (2 ^ 16) bytes h3 (Or.inl (by omega))
  have h1 : ∀ (acc : Nat) (bytes : Bytes), 1 ≤ acc →
      ∃ e, parseLengthOctets (k + 3 + 1) acc bytes = .error e :=
    fun acc bytes h => parseLengthOctets_grows (k + 2) acc (2 ^ 8) bytes h2 (Or.inl (by omega))
  exact parseLengthOctets_grows (k + 3) 0 1 bytes h1 (Or.inr ⟨rfl, le_refl _⟩)

theorem lengthLength_large (n : Nat) (h : 2 ^ 31 ≤ n) :
    (n < 2 ^ 32 ∧ lengthLength n = 4) ∨ (∃ k, lengthLength n = k + 5 ∧ k ≤ 3) := by
  have e : ∀ (f m : Nat), lengthLength.loop (f + 1) m
      = if m > 0 then 1 + lengthLength.loop f (m / 256) else 0 := fun _ _ => rfl
  have hle := lengthLength.loop_le 3 (n / 256 / 256 / 256 / 256 / 256)
  unfold lengthLength
  rw [e, if_pos (by omega), e, if_pos (by omega), e, if_pos (by omega), e, if_pos (by omega)]
  by_cases h32 : n < 2 ^ 32
  · left
    refine ⟨h32, ?_⟩
    rw [e, if_neg (by omega)]
  · right
    rw [e, if_pos (by omega)]
    exact ⟨lengthLength.loop 3 (n / 256 / 256 / 256 / 256 / 256), by omega, hle⟩

/-- A length of 2^31 or more is written with octets that are not read back. -/
theorem parseTagAndLength_marshal_large (cls tag n : Nat) (isCompound : Bool) (rest : Bytes)
    (hn : 2 ^ 31 ≤ n) :
    ∃ e, parseTagAndLength (marshalTagAndLength cls isCompound tag n ++ rest) = .error e := by
  have hshape : ∀ (b0 l : Byte) (tail : Bytes),
      (∃ e, parseLengthOctets (l.val % 128) 0 tail = .error e) → 128 ≤ l.val →
      l.val % 128 ≠ 0 →
      ∃ e, parseTagAndLength (b0 :: l :: tail) = .error e := by
    intro b0 l tail ⟨e, he⟩ h128 hmod
    unfold parseTagAndLength
    split_ifs with h1
    · exact ⟨_, rfl⟩
    · simp only []
      rw [if_neg (by omega), if_neg hmod, he]
      exact ⟨_, rfl⟩
  unfold marshalTagAndLength
  rw [if_pos (show n ≥ 128 by omega)]
  simp only [List.cons_append]
  rcases lengthLength_large n hn with ⟨h32, hk⟩ | ⟨k, hk, hk3⟩
  · rw [hk]
    have hl : (Fin.ofNat (128 + 4) : Byte).val = 132 := rfl
    apply hshape
    · rw [hl]
      simp only [marshalLength, parseLengthOctets, byte_val_ofNat, List.cons_append,
        List.nil_append, Nat.reduceMod]
      split_ifs <;>
        first
          | exact ⟨_, rfl⟩
          | (exfalso; omega)
    · rw [hl]; omega
    · rw [hl]; omega
  · rw [hk]
    have hl : (Fin.ofNat (128 + (k + 5)) : Byte).val = 128 + (k + 5) := by
      rw [byte_val_ofNat]; omega
    apply hshape
    · rw [hl]
      have hmod : (128 + (k + 5)) % 128 = k + 5 := by omega
      rw [hmod]
      exact parseLengthOctets_five k _
    · rw [hl]; omega
    · rw [hl]; omega
/-- Reading a field under an explicit tag whose contents are refused. -/
theorem parseField_explicit_error {α : Type} (n : Nat) (application optional : Bool)
    (tag : Nat) (compound : Bool) (parseBody : Bytes → Except String α) (body rest : Bytes)
    (e : String) (hn31 : n < 31) (htag : tag < 31)
    (hn : (der 0 compound tag body).length < 2 ^ 31) (hv : parseBody body = .error e) :
    parseField ⟨some n, application, optional⟩ tag compound parseBody
      (der (if application then 1 else 2) true n (der 0 compound tag body) ++ rest)
        = .error e := by
  have hlen := der_length_ge 0 tag compound body
  have hcls : (if application = true then 1 else 2) < 4 := by split_ifs <;> omega
  have hp := parseTagAndLength_der (if application then 1 else 2) n true
    (der 0 compound tag body) rest hcls hn31 hn
  have hp2 := parseTagAndLength_der 0 tag compound body rest (by omega) htag (by omega)
  obtain ⟨b, bs, hb, _⟩ := der_cons (if application then 1 else 2) n true
    (der 0 compound tag body)
  obtain ⟨b', bs', hb', _⟩ := der_cons 0 tag compound body
  unfold parseField
  rw [hb] at hp ⊢
  simp only [List.cons_append] at hp ⊢
  rw [hp]
  have hne : der 0 compound tag body ++ rest ≠ [] := by rw [hb']; simp
  simp only [hne, if_false, true_and, or_true, and_self, if_true]
  rw [if_pos (by omega), hp2]
  simp [hv]

/-- The ticket decoder on a ticket element followed by other bytes: it reads
the contents of the element and leaves the other bytes. -/
theorem asn1UnmarshalTicket_der
    (parseEncTicketPart : EncTicketPart → Bytes → Except String EncTicketPart)
    (prior : Ticket) (body rest : Bytes) (hn : (derSequence body).length < 2 ^ 31) :
    asn1UnmarshalTicket parseEncTicketPart prior
        (AddASNAppTag (derSequence body) asnAppTag.Ticket ++ rest)
      = match parseTicket parseEncTicketPart prior body with
        | .error e => .error e
        | .ok v => .ok (v, rest) := by
  unfold asn1UnmarshalTicket AddASNAppTag asnAppTag.Ticket derSequence
  unfold derSequence at hn
  cases hv : parseTicket parseEncTicketPart prior body with
  | error e =>
    have hf : parseField ⟨some 1, true, false⟩ 16 true
        (parseTicket parseEncTicketPart prior) (der 1 true 1 (der 0 true 16 body) ++ rest)
          = .error e :=
      parseField_explicit_error 1 true false 16 true _ body rest e (by omega) (by omega)
        hn hv
    unfold parseRequired
    rw [hf]
  | ok v =>
    exact parseRequired_explicit 1 true 16 true _ body rest v (by omega) (by omega) hn hv

theorem Ticket.Marshal_shape (marshalEncTicketPart : EncTicketPart → Except String Bytes)
    (t : Ticket) (b : Bytes) (h : Ticket.Marshal marshalEncTicketPart t = .ok b) :
    ∃ body, b = AddASNAppTag (derSequence body) asnAppTag.Ticket := by
  unfold Ticket.Marshal asn1MarshalTicket at h
  split at h
  · exact absurd h (by simp)
  · rename_i b0 hb0
    have hb : b = AddASNAppTag b0 asnAppTag.Ticket := (Except.ok.inj h).symm
    split at hb0
    · exact ⟨_, by rw [hb, ← Except.ok.inj hb0]⟩
    · split at hb0
      · exact absurd hb0 (by simp)
      · exact ⟨_, by rw [hb, ← Except.ok.inj hb0]⟩

/-- An element that `UnmarshalTicket` reads is shorter than 2^31 bytes. -/
theorem UnmarshalTicket_bound
    (parseEncTicketPart : EncTicketPart → Bytes → Except String EncTicketPart)
    (inner : Bytes) (t : Ticket)
    (h : UnmarshalTicket parseEncTicketPart (AddASNAppTag inner asnAppTag.Ticket) = .ok t) :
    inner.length < 2 ^ 31 := by
  by_contra hlarge
  obtain ⟨e, he⟩ := parseTagAndLength_marshal_large 1 asnAppTag.Ticket inner.length true inner
    (by omega)
  obtain ⟨b, bs, hb, _⟩ := der_cons 1 asnAppTag.Ticket true inner
  have hder : marshalTagAndLength 1 true asnAppTag.Ticket inner.length ++ inner
      = b :: bs := hb
  rw [hder] at he
  unfold UnmarshalTicket asn1UnmarshalTicket parseRequired parseField AddASNAppTag at h
  rw [hb] at h
  simp only [he] at h
  exact absurd h (by simp)

/-- A ticket that is marshalled and read back is read back as well when other
bytes follow it, and the raw value read at its start is as long as its bytes. -/
theorem Ticket.in_sequence (marshalEncTicketPart : EncTicketPart → Except String Bytes)
    (parseEncTicketPart : EncTicketPart → Bytes → Except String EncTicketPart)
    (t : Ticket) (b : Bytes) (hm : Ticket.Marshal marshalEncTicketPart t = .ok b)
    (hu : UnmarshalTicket parseEncTicketPart b = .ok t) (rest : Bytes) :
    0 < b.length ∧
    UnmarshalTicket parseEncTicketPart (b ++ rest) = .ok t ∧
    ∃ raw rest', asn1UnmarshalRawValue (b ++ rest) = .ok (raw, rest') ∧
      raw.FullBytes.length = b.length := by
  obtain ⟨body, hb⟩ := Ticket.Marshal_shape marshalEncTicketPart t b hm
  rw [hb] at hu ⊢
  have hn := UnmarshalTicket_bound parseEncTicketPart _ t hu
  have hge := der_length_ge 1 asnAppTag.Ticket true (derSequence body)
  refine ⟨by unfold AddASNAppTag; omega, ?_, ?_⟩
  · have h0 := asn1UnmarshalTicket_der parseEncTicketPart Ticket.zero body [] hn
    have hr := asn1UnmarshalTicket_der parseEncTicketPart Ticket.zero body rest hn
    rw [List.append_nil] at h0
    unfold UnmarshalTicket at hu ⊢
    rw [h0] at hu
    rw [hr]
    cases hp : parseTicket parseEncTicketPart Ticket.zero body with
    | error e => rw [hp] at hu; exact absurd hu (by simp)
    | ok v =>
      rw [hp] at hu
      simpa using hu
  · have hp := parseTagAndLength_der 1 asnAppTag.Ticket true (derSequence body) rest
      (by omega) (by unfold asnAppTag.Ticket; omega) hn
    obtain ⟨b0, bs, hb0, _⟩ := der_cons 1 asnAppTag.Ticket true (derSequence body)
    unfold asn1UnmarshalRawValue AddASNAppTag
    rw [hb0] at hp ⊢
    simp only [List.cons_append] at hp ⊢
    rw [hp]
    simp only []
    rw [if_neg (by simp)]
    refine ⟨_, _, rfl, ?_⟩
    simp only [List.length_take, List.length_cons, List.length_append]
    have hlen : (b0 :: bs).length = (der 1 true asnAppTag.Ticket (derSequence body)).length := by
      rw [hb0]
    simp only [List.length_cons] at hlen
    omega
/-- The two loops agree: the bytes that the marshalling loop adds for tickets
that make the round trip are read back, ticket by ticket, by the decoding loop
that starts where they start. -/
theorem MarshalTicketSequence_loop_decodes
    (marshalEncTicketPart : EncTicketPart → Except String Bytes)
    (parseEncTicketPart : EncTicketPart → Bytes → Except String EncTicketPart)
    (tkts : List Ticket)
    (h : ∀ t ∈ tkts, ∃ b, Ticket.Marshal marshalEncTicketPart t = .ok b ∧
      UnmarshalTicket parseEncTicketPart b = .ok t) :
    ∀ (i : Nat) (acc : Bytes), ∃ data,
      MarshalTicketSequence.loop marshalEncTicketPart tkts i acc = .ok (acc ++ data) ∧
      tkts.length ≤ data.length ∧
      ∀ (pre : Bytes) (done : List Ticket) (fuel : Nat), tkts.length ≤ fuel →
        UnmarshalTicketsSequence.loop parseEncTicketPart (pre ++ data) fuel pre.length done
          = some (.tickets (done ++ tkts)) := by
  induction tkts with
  | nil =>
    intro i acc
    refine ⟨[], by simp [MarshalTicketSequence.loop], le_refl _, ?_⟩
    intro pre done fuel _
    cases fuel with
    | zero => simp [UnmarshalTicketsSequence.loop]
    | succ fuel => simp [UnmarshalTicketsSequence.loop]
  | cons t tkts ih =>
    intro i acc
    obtain ⟨b, hm, hu⟩ := h t (List.mem_cons_self _ _)
    obtain ⟨data, hdata, hlen, hdec⟩ :=
      ih (fun t' ht' => h t' (List.mem_cons_of_mem _ ht')) (i + 1) (acc ++ b)
    obtain ⟨hpos, hut, raw, rest', hraw, hfull⟩ :=
      Ticket.in_sequence marshalEncTicketPart parseEncTicketPart t b hm hu data
    refine ⟨b ++ data, ?_, ?_, ?_⟩
    · rw [MarshalTicketSequence.loop, hm]
      simp only []
      rw [hdata, List.append_assoc]
    · simp only [List.length_cons, List.length_append]
      omega
    · intro pre done fuel hfuel
      cases fuel with
      | zero => simp at hfuel
      | succ fuel =>
        rw [UnmarshalTicketsSequence.loop]
        have hp : pre.length < (pre ++ (b ++ data)).length := by
          simp only [List.length_append]
          omega
        rw [if_pos hp, List.drop_left, hraw]
        simp only []
        rw [hut]
        simp only []
        rw [hfull]
        have e1 : pre ++ (b ++ data) = (pre ++ b) ++ data := by rw [List.append_assoc]
        have e2 : pre.length + b.length = (pre ++ b).length := by rw [List.length_append]
        rw [e1, e2, hdec (pre ++ b) (done ++ [t]) fuel (by simpa using hfuel)]
        simp

theorem GetNumberBytesInLengthHeader_marshal (b0 : Byte) (l : Nat) (data : Bytes) :
    GetNumberBytesInLengthHeader (b0 :: (MarshalLengthBytes l ++ data))
      = .ok (MarshalLengthBytes l).length := by
  unfold GetNumberBytesInLengthHeader MarshalLengthBytes
  by_cases hl : l ≤ 127
  · rw [if_pos hl]
    have hb : byteAt (b0 :: ([(Fin.ofNat l : Byte)] ++ data)) 1 = l := by
      show (Fin.ofNat l : Byte).val = l
      rw [byte_val_ofNat]; omega
    rw [hb, if_neg (by simp), if_pos hl]
    rfl
  · rw [if_neg hl]
    have hk : lengthLength l ≤ 8 := lengthLength.loop_le 8 l
    have hb : byteAt (b0 :: ((Fin.ofNat (128 + lengthLength l) : Byte)
        :: marshalLength (lengthLength l) l ++ data)) 1 = 128 + lengthLength l := by
      show (Fin.ofNat (128 + lengthLength l) : Byte).val = 128 + lengthLength l
      rw [byte_val_ofNat]; omega
    have hsub : 1 + (128 + lengthLength l) - 128 = lengthLength l + 1 := by omega
    rw [hb, if_neg (by simp), if_neg (by omega), hsub]
    simp only [List.length_cons, marshalLength_length]

theorem parseLengthOctets_rest (k acc : Nat) (bytes : Bytes) (n : Nat) (rest : Bytes)
    (h : parseLengthOctets k acc bytes = .ok (n, rest)) : rest.length ≤ bytes.length := by
  induction k generalizing acc bytes with
  | zero =>
    simp only [parseLengthOctets] at h
    rw [← (Prod.mk.inj (Except.ok.inj h)).2]
  | succ k ih =>
    cases bytes with
    | nil => exact absurd h (by simp [parseLengthOctets])
    | cons b bytes =>
      rw [parseLengthOctets_cons] at h
      split_ifs at h
      have := ih _ _ h
      simp only [List.length_cons]
      omega

/-- A header takes at least two bytes. -/
theorem parseTagAndLength_rest (b : Bytes) (t : tagAndLength) (rest : Bytes)
    (h : parseTagAndLength b = .ok (t, rest)) : rest.length + 2 ≤ b.length := by
  unfold parseTagAndLength at h
  split at h
  · exact absurd h (by simp)
  · split_ifs at h
    split at h
    · exact absurd h (by simp)
    · split_ifs at h
      · rw [← (Prod.mk.inj (Except.ok.inj h)).2]
        simp
      · split at h
        · exact absurd h (by simp)
        · rename_i hp
          split_ifs at h
          have := parseLengthOctets_rest _ _ _ _ _ hp
          rw [← (Prod.mk.inj (Except.ok.inj h)).2]
          simp only [List.length_cons]
          omega

theorem asn1UnmarshalRawValue_full (b : Bytes) (raw : RawValue) (rest : Bytes)
    (h : asn1UnmarshalRawValue b = .ok (raw, rest)) : 2 ≤ raw.FullBytes.length := by
  unfold asn1UnmarshalRawValue at h
  split at h
  · exact absurd h (by simp)
  · split at h
    · exact absurd h (by simp)
    · rename_i t rest0 hp
      have hlen := parseTagAndLength_rest _ _ _ hp
      split_ifs at h
      rw [← (Prod.mk.inj (Except.ok.inj h)).1]
      simp only [List.length_take]
      omega

/-- The rounds given to the loop are enough: it ends whatever the bytes are. -/
theorem UnmarshalTicketsSequence.loop_ends
    (parseEncTicketPart : EncTicketPart → Bytes → Except String EncTicketPart) (b : Bytes)
    (fuel : Nat) : ∀ (p : Nat) (tkts : List Ticket), b.length ≤ p + fuel →
      UnmarshalTicketsSequence.loop parseEncTicketPart b fuel p tkts ≠ none := by
  induction fuel with
  | zero =>
    intro p tkts h
    rw [UnmarshalTicketsSequence.loop, if_neg (by omega)]
    simp
  | succ fuel ih =>
    intro p tkts h
    rw [UnmarshalTicketsSequence.loop]
    split_ifs
    · cases hraw : asn1UnmarshalRawValue (b.drop p) with
      | error e => simp
      | ok v =>
        obtain ⟨raw, rest⟩ := v
        simp only []
        have := asn1UnmarshalRawValue_full _ _ _ hraw
        cases hu : UnmarshalTicket parseEncTicketPart (b.drop p) with
        | error e => simp
        | ok t => exact ih _ _ (by omega)
    · simp

/-- `UnmarshalTicketsSequence` ends on every raw value. -/
theorem UnmarshalTicketsSequence_ends
    (parseEncTicketPart : EncTicketPart → Bytes → Except String EncTicketPart)
    (raw : RawValue) : UnmarshalTicketsSequence parseEncTicketPart raw ≠ none := by
  unfold UnmarshalTicketsSequence
  cases GetNumberBytesInLengthHeader raw.Bytes with
  | error msg => simp
  | ok n => exact UnmarshalTicketsSequence.loop_ends parseEncTicketPart _ _ _ _ (by omega)

/-- C27: for every non-empty list of tickets each of which marshals without
error to bytes that `UnmarshalTicket` reads back to it, `MarshalTicketSequence`
returns no error and `UnmarshalTicketsSequence`, applied to the raw value it
returns, ends and returns the same tickets in the same order. -/
theorem C27_ticket_sequence_roundtrip
    (marshalEncTicketPart : EncTicketPart → Except String Bytes)
    (parseEncTicketPart : EncTicketPart → Bytes → Except String EncTicketPart)
    (tkts : List Ticket) (hne : tkts ≠ [])
    (h : ∀ t ∈ tkts, ∃ b, Ticket.Marshal marshalEncTicketPart t = .ok b ∧
      UnmarshalTicket parseEncTicketPart b = .ok t) :
    (MarshalTicketSequence marshalEncTicketPart tkts).2 = none ∧
    UnmarshalTicketsSequence parseEncTicketPart
        (MarshalTicketSequence marshalEncTicketPart tkts).1
      = some (.tickets tkts) := by
  obtain ⟨data, hdata, hlen, hdec⟩ :=
    MarshalTicketSequence_loop_decodes marshalEncTicketPart parseEncTicketPart tkts h 0 []
  have hpos : ¬ tkts.length < 1 := by
    cases tkts with
    | nil => exact absurd rfl hne
    | cons t ts => simp
  rw [List.nil_append] at hdata
  unfold MarshalTicketSequence
  simp only []
  rw [if_neg hpos, hdata]
  simp only []
  refine ⟨trivial, ?_⟩
  unfold UnmarshalTicketsSequence
  simp only []
  rw [GetNumberBytesInLengthHeader_marshal]
  simp only []
  have e1 : (Fin.ofNat (32 + TagSequence) : Byte) :: (MarshalLengthBytes data.length ++ data)
      = ((Fin.ofNat (32 + TagSequence) : Byte) :: MarshalLengthBytes data.length) ++ data := rfl
  have e2 : 1 + (MarshalLengthBytes data.length).length
      = ((Fin.ofNat (32 + TagSequence) : Byte) :: MarshalLengthBytes data.length).length := by
    rw [List.length_cons]; omega
  rw [e2, e1, hdec _ [] _ (by simp only [List.length_append]; omega)]
  rfl

set_option maxRecDepth 100000 in
/-- The ticket of scenario S1 and the ticket with version 4, as a sequence. -/
theorem C27_ticket_sequence_roundtrip_witness :
    [ticketS1, ticketV4] ≠ [] ∧
    (∀ t ∈ [ticketS1, ticketV4], ∃ b, Ticket.Marshal noEncTicketPartEncoder t = .ok b ∧
      UnmarshalTicket noEncTicketPartDecoder b = .ok t) ∧
    (MarshalTicketSequence noEncTicketPartEncoder [ticketS1, ticketV4]).2 = none ∧
    UnmarshalTicketsSequence noEncTicketPartDecoder
        (MarshalTicketSequence noEncTicketPartEncoder [ticketS1, ticketV4]).1
      = some (.tickets [ticketS1, ticketV4]) :=
  have hyp : ∀ t ∈ [ticketS1, ticketV4], ∃ b,
      Ticket.Marshal noEncTicketPartEncoder t = .ok b ∧
      UnmarshalTicket noEncTicketPartDecoder b = .ok t := by
    intro t ht
    simp only [List.mem_cons, List.mem_singleton, List.not_mem_nil, or_false] at ht
    rcases ht with rfl | rfl
    · obtain ⟨b, hm, _, hu, _⟩ := Ticket.roundtrip noEncTicketPartEncoder
        noEncTicketPartDecoder ticketS1 rfl (by unfold Ticket.Representable; decide)
      exact ⟨b, hm, hu⟩
    · obtain ⟨b, hm, _, hu, _⟩ := Ticket.roundtrip noEncTicketPartEncoder
        noEncTicketPartDecoder ticketV4 rfl (by unfold Ticket.Representable; decide)
      exact ⟨b, hm, hu⟩
  ⟨by decide, hyp,
    C27_ticket_sequence_roundtrip noEncTicketPartEncoder noEncTicketPartDecoder
      [ticketS1, ticketV4] (by decide) hyp⟩

end Gokrb5
